import Mathlib

/-!
Panoramic stitching (`second-hw/panoramic.cpp`): a shallow embedding.

The facade `PanoramicImage` is embedded as a record that is passed explicitly through
`prepareShifts`, `makePanoramic`, `get` and `getAll`.  The filter classes of
`first-hw/filter.cpp` and the choice of the example image in `first-hw/lab2.cpp` are embedded
after it.

Conventions of the embedding.

* C++ `int` is `ℤ`.  Signed overflow is undefined in C++ and is outside the model.
* `float` and `double` values are the rationals they denote.  Every floating point operation
  of the source is the exact operation followed by IEEE-754 round-to-nearest-even
  (`rnd32`, `rnd64`), one rounding per operation; overflow to infinity is not modelled.
* The vision library (projection, colour conversion, feature detection, matching, robust
  fit, drawing) is a record of functions, `Vision`.
* Executions that throw or have undefined behaviour return `Except.error`.
* The content of a freshly allocated matrix is the field `uninit` of the record `Vision`.
  Statements that compare images computed on separately allocated canvases take one record
  per allocation (`Vision.withUninit`), so that the two canvases may hold different content.
-/

namespace Panoramic

/-! ## Floating point -/

/-- Nearest integer, halfway cases to the even neighbour. -/
def roundHalfEven (q : ℚ) : ℤ :=
  let f := ⌊q⌋
  let d := q - f
  if d < 1/2 then f else if 1/2 < d then f + 1 else if f % 2 = 0 then f else f + 1

/-- Round to nearest, ties to even, in a binary format with `p` significand bits and least
normal exponent `emin` (below `2 ^ emin` the spacing stays that of the subnormals). -/
def fpRound (p : ℕ) (emin : ℤ) (q : ℚ) : ℚ :=
  if q = 0 then 0 else
  let e := max (Int.log 2 |q|) emin
  let ulp : ℚ := 2 ^ (e - ((p : ℤ) - 1))
  roundHalfEven (q / ulp) * ulp

/-- Rounding of a `double` operation (binary64). -/
def rnd64 (q : ℚ) : ℚ := fpRound 53 (-1022) q

/-- Rounding of a `float` operation (binary32). -/
def rnd32 (q : ℚ) : ℚ := fpRound 24 (-126) q

/-- The conversion `(int) d` of a floating point value: truncation toward zero. -/
def truncToInt (q : ℚ) : ℤ := if 0 ≤ q then ⌊q⌋ else ⌈q⌉

/-- The C function `round` followed by `(int)`: nearest integer, halfway cases away from
zero. -/
def roundHalfAway (q : ℚ) : ℤ := if 0 ≤ q then ⌊q + 1/2⌋ else ⌈q - 1/2⌉

/-! ## Images and the vision library -/

/-- Ways in which an execution of the source fails to return. -/
inductive Fault where
  /-- Element access outside a `std::vector` (undefined behaviour). -/
  | indexOutOfRange
  /-- Use of `cv::Mat::at` outside the matrix (undefined behaviour). -/
  | pixelOutOfBounds
  /-- The mean `0.0 / 0` is NaN, whose conversion to `int` is undefined. -/
  | notANumber
  /-- A `cv::Range` pair that is not inside the matrix (`cv::Exception`). -/
  | badRange
  /-- A container or matrix of negative or wrapped-around size. -/
  | badAlloc
  deriving DecidableEq, Repr

/-- An 8-bit `cv::Mat`: its size, its channel count and the value of every element,
addressed by row, column and channel. -/
structure Mat where
  rows : ℤ
  cols : ℤ
  channels : ℕ
  px : ℤ → ℤ → ℕ → ℕ

/-- The default constructed `cv::Mat()`. -/
def Mat.nil : Mat := ⟨0, 0, 1, fun _ _ _ => 0⟩

/-- The test `cv::Mat::empty()`: no elements. -/
def Mat.empty (m : Mat) : Bool := decide (m.rows ≤ 0 ∨ m.cols ≤ 0)

/-- Writing one element (all its channels) of a matrix. -/
def Mat.set (m : Mat) (y x : ℤ) (p : ℕ → ℕ) : Mat :=
  { m with px := fun y' x' => if y' = y ∧ x' = x then p else m.px y' x' }

/-- The check `cv::Mat::operator()(Range, Range)` makes on its two ranges. -/
def Mat.validRange (m : Mat) (r0 r1 c0 c1 : ℤ) : Bool :=
  decide (0 ≤ r0 ∧ r0 ≤ r1 ∧ r1 ≤ m.rows ∧ 0 ≤ c0 ∧ c0 ≤ c1 ∧ c1 ≤ m.cols)

/-- The sub-matrix `m(Range(r0, r1), Range(c0, c1))`. -/
def Mat.roi (m : Mat) (r0 r1 c0 c1 : ℤ) : Except Fault Mat :=
  if m.validRange r0 r1 c0 c1 then
    .ok { rows := r1 - r0, cols := c1 - c0, channels := m.channels,
          px := fun y x => m.px (y + r0) (x + c0) }
  else .error .badRange

/-- The location `pt` of a `cv::KeyPoint`. -/
structure KeyPoint where
  x : ℚ
  y : ℚ
  deriving DecidableEq, Repr

/-- The fields of `cv::DMatch` the source reads. -/
structure DMatch where
  queryIdx : ℤ
  trainIdx : ℤ
  distance : ℚ
  deriving DecidableEq, Repr

/-- The library calls of `panoramic.cpp`, and the detector chosen by the subclass. -/
structure Vision where
  /-- The call `PanoramicUtils::cylindricalProj(image, half_fov)`. -/
  cylindricalProj : Mat → ℚ → Mat
  /-- The call `cv::cvtColor(_, _, cv::COLOR_BGR2GRAY)`. -/
  cvtColorBGR2GRAY : Mat → Mat
  /-- The call `cv::cvtColor(_, _, cv::COLOR_GRAY2BGR)`. -/
  cvtColorGRAY2BGR : Mat → Mat
  /-- The call `cv::split`. -/
  split : Mat → List Mat
  /-- The call `cv::equalizeHist`. -/
  equalizeHist : Mat → Mat
  /-- The call `cv::merge`. -/
  merge : List Mat → Mat
  /-- The call `getDetector()->detectAndCompute`: key points and descriptors. -/
  detectAndCompute : Mat → List KeyPoint × Mat
  /-- The call `matcher->match` of the brute force matcher. -/
  bfMatch : Mat → Mat → List DMatch
  /-- The mask written by `findHomography(left, right, mask, cv::RANSAC)`. -/
  findHomography : List KeyPoint → List KeyPoint → List ℤ
  /-- The call `cv::drawMatches`. -/
  drawMatches : Mat → List KeyPoint → Mat → List KeyPoint → List DMatch → Mat
  /-- The call `cv::addWeighted(old, w_old, cur, w_cur, 0, old)` on one colour pixel. -/
  addWeighted : (ℕ → ℕ) → ℚ → (ℕ → ℕ) → ℚ → (ℕ → ℕ)
  /-- The content of a freshly allocated, not yet written matrix. It is not determined by
  the program: another allocation is another record, see `Vision.withUninit`. -/
  uninit : ℤ → ℤ → ℕ → ℕ

/-- Element `i` of a vector; outside the vector the access is undefined. -/
def getAt {α : Type} (xs : List α) (i : ℕ) : Except Fault α :=
  match xs[i]? with
  | some a => .ok a
  | none => .error .indexOutOfRange

/-- Element `i` of a vector for an `int` index. -/
def getAtInt {α : Type} (xs : List α) (i : ℤ) : Except Fault α :=
  if 0 ≤ i then getAt xs i.toNat else .error .indexOutOfRange

/-- The elements `xs[0] .. xs[N-1]` read by a loop `for (i = 0; i < N; i++)`. -/
def firstN {α : Type} (xs : List α) (N : ℕ) : Except Fault (List α) :=
  if N ≤ xs.length then .ok (xs.take N) else .error .indexOutOfRange

/-- The pairs `(xs[i], xs[i+1])`. -/
def adjacent {α : Type} (xs : List α) : List (α × α) := xs.zip xs.tail

/-! ## The facade -/

/-- Instrumentation, not a field of the source: how often each computation has run. -/
structure Calls where
  prepareShifts : ℕ
  equalize : ℕ
  makePanoramic : ℕ
  deriving DecidableEq, Repr

/-- The fields of `class PanoramicImage` (`panoramic.h`), and the call counters. -/
structure PanoramicImage where
  half_fov : ℚ
  dist_ratio : ℚ
  shift_x : List ℤ
  shift_y : List ℤ
  left_x : ℤ
  right_x : ℤ
  upper_y : ℤ
  lower_y : ℤ
  original_images : List Mat
  projected_images : List Mat
  projected_gray : List Mat
  bgr_equalized : List Mat
  gray_equalized : List Mat
  results : Bool → Bool → Mat
  match_images : List Mat
  calls : Calls

/-- The constant `PanoramicImage::RIGHT`. -/
def RIGHT : ℤ := 0

/-- The constant `PanoramicImage::LEFT`. -/
def LEFT : ℤ := 1

/-- The constructor `PanoramicImage::PanoramicImage`. -/
def PanoramicImage.new (images : List Mat) (half_fov dist_ratio : ℚ) (direction : ℤ) :
    PanoramicImage :=
  { half_fov := half_fov
    dist_ratio := dist_ratio
    shift_x := []
    shift_y := []
    left_x := 0
    right_x := 0
    upper_y := 0
    lower_y := 0
    original_images := if direction = LEFT then images.reverse else images
    projected_images := []
    projected_gray := []
    bgr_equalized := []
    gray_equalized := []
    results := fun _ _ => Mat.nil
    match_images := []
    calls := ⟨0, 0, 0⟩ }

/-- The vector `*material_vectors[gray][equalize]`. -/
def material (st : PanoramicImage) (gray equalize : Bool) : List Mat :=
  match gray, equalize with
  | false, false => st.projected_images
  | false, true => st.bgr_equalized
  | true, false => st.projected_gray
  | true, true => st.gray_equalized

/-- The accessor `PanoramicImage::matchImages`. -/
def matchImages (st : PanoramicImage) : List Mat := st.match_images

/-- The method `PanoramicImage::projectImages`. -/
def projectImages (V : Vision) (st : PanoramicImage) : PanoramicImage :=
  let projected := st.original_images.map (fun im => V.cylindricalProj im st.half_fov)
  { st with projected_images := projected
            projected_gray := projected.map V.cvtColorBGR2GRAY }

/-- The method `PanoramicImage::equalize`. -/
def equalize (V : Vision) (image : Mat) : Mat :=
  V.merge ((V.split image).map V.equalizeHist)

/-! ## `prepareShifts` -/

/-- The distance filter of `prepareShifts` (lines 124-142) on the matches of one pair. -/
def distanceFilter (dist_ratio : ℚ) (ms : List DMatch) : Except Fault (List DMatch) :=
  match ms with
  | [] => .error .indexOutOfRange
  | m0 :: _ =>
    let min_distance :=
      ms.foldl (fun acc m => if m.distance < acc then m.distance else acc) m0.distance
    let min_distance := max 1 min_distance
    .ok (ms.filter (fun m => decide (m.distance ≤ rnd64 (min_distance * dist_ratio))))

/-- The running sums of the inlier loop (lines 172-185). -/
structure MeanAcc where
  sum_dx : ℚ
  sum_dy : ℚ
  count_dx : ℤ
  count_dy : ℤ
  homography_matches : List DMatch

/-- One iteration `j` of the inlier loop, `mask_j` being `mask[j]`. -/
def maskStep (ms : List DMatch) (left_points right_points : List KeyPoint)
    (acc : MeanAcc) (jm : ℕ × ℤ) : Except Fault MeanAcc :=
  if jm.2 = 0 then .ok acc else do
    let m ← getAt ms jm.1
    let l ← getAt left_points jm.1
    let r ← getAt right_points jm.1
    .ok { sum_dx := rnd64 (acc.sum_dx + rnd32 (l.x - r.x))
          sum_dy := rnd64 (acc.sum_dy + rnd32 (l.y - r.y))
          count_dx := acc.count_dx + 1
          count_dy := acc.count_dy + 1
          homography_matches := acc.homography_matches ++ [m] }

/-- What the body of the pair loop (lines 160-192) computes for one pair. -/
structure PairEstimate where
  shift_x : ℤ
  shift_y : ℤ
  homography_matches : List DMatch

/-- The body of the pair loop up to the two rounded means (lines 160-192). -/
def pairShift (V : Vision) (kp_left kp_right : List KeyPoint) (ms : List DMatch) :
    Except Fault PairEstimate := do
  let left_points ← ms.mapM (fun m => getAtInt kp_left m.queryIdx)
  let right_points ← ms.mapM (fun m => getAtInt kp_right m.trainIdx)
  let mask := V.findHomography left_points right_points
  let acc ← mask.enum.foldlM (maskStep ms left_points right_points) ⟨0, 0, 0, 0, []⟩
  if acc.count_dx = 0 ∨ acc.count_dy = 0 then .error .notANumber else
  .ok { shift_x := roundHalfAway (rnd64 (acc.sum_dx / acc.count_dx))
        shift_y := roundHalfAway (rnd64 (acc.sum_dy / acc.count_dy))
        homography_matches := acc.homography_matches }

/-- The margins and the cumulative shift of lines 148-157 and 194-202. -/
structure Extents where
  cumulative_x : ℤ
  cumulative_y : ℤ
  left_x : ℤ
  right_x : ℤ
  upper_y : ℤ
  lower_y : ℤ
  deriving DecidableEq, Repr

/-- The initialisation of lines 149-157. -/
def Extents.init : Extents := ⟨0, 0, 0, 0, 0, 0⟩

/-- Lines 194-202: fold the shift `(shift_x[i], shift_y[i])` of one pair into the margins. -/
def Extents.step (e : Extents) (s : ℤ × ℤ) : Extents :=
  let cumulative_y := e.cumulative_y + s.2
  let cumulative_x := e.cumulative_x + s.1
  { cumulative_x := cumulative_x
    cumulative_y := cumulative_y
    left_x := min e.left_x cumulative_x
    right_x := max e.right_x cumulative_x
    upper_y := min e.upper_y cumulative_y
    lower_y := max e.lower_y cumulative_y }

/-- The accumulation part of the pair loop of `prepareShifts` over all pairs. -/
def accumulate (shifts : List (ℤ × ℤ)) : Extents :=
  shifts.foldl Extents.step Extents.init

/-- What the matching stage of `prepareShifts` leaves behind. -/
structure ShiftData where
  shifts : List (ℤ × ℤ)
  key_points : List (List KeyPoint)
  all_matches : List (List DMatch)

/-- Lines 104-192 of `prepareShifts`: features, matches, filter, robust fit and the shift
of every adjacent pair. `N` is `projected_images.size()`. -/
def matchShifts (V : Vision) (dist_ratio : ℚ) (projected_gray : List Mat) (N : ℕ) :
    Except Fault ShiftData := do
  let grays ← firstN projected_gray N
  let feats := grays.map V.detectAndCompute
  if N = 0 then .error .badAlloc else
  let raw := (adjacent feats).map (fun p => V.bfMatch p.1.2 p.2.2)
  let close ← raw.mapM (distanceFilter dist_ratio)
  let est ← ((adjacent feats).zip close).mapM (fun p => pairShift V p.1.1.1 p.1.2.1 p.2)
  .ok { shifts := est.map (fun e => (e.shift_x, e.shift_y))
        key_points := feats.map Prod.fst
        all_matches := est.map (fun e => e.homography_matches) }

/-- Lines 205-218: the match drawings, one per adjacent pair. -/
def drawAll (V : Vision) (projected_gray : List Mat) (d : ShiftData) : List Mat :=
  ((adjacent (projected_gray.zip d.key_points)).zip d.all_matches).map
    (fun p => V.drawMatches p.1.1.1 p.1.1.2 p.1.2.1 p.1.2.2 p.2)

/-- Lines 145-157 and 191-218 of `prepareShifts`: the shifts of the pairs and the margins
accumulated from them are stored in the facade, and so are the match drawings when
`draw_destination` is `&match_images`. -/
def storeShifts (V : Vision) (st : PanoramicImage) (d : ShiftData) (draw : Bool) :
    PanoramicImage :=
  let ext := accumulate d.shifts
  let st1 := { st with shift_x := d.shifts.map Prod.fst
                       shift_y := d.shifts.map Prod.snd
                       left_x := ext.left_x
                       right_x := ext.right_x
                       upper_y := ext.upper_y
                       lower_y := ext.lower_y
                       calls := { st.calls with prepareShifts := st.calls.prepareShifts + 1 } }
  if draw then { st1 with match_images := drawAll V st.projected_gray d } else st1

/-- The method `PanoramicImage::prepareShifts`; `draw` says whether `draw_destination`
is `&match_images` (the only non-null argument it is called with). -/
def prepareShifts (V : Vision) (st : PanoramicImage) (draw : Bool) :
    Except Fault PanoramicImage := do
  let st := if st.projected_images.isEmpty then projectImages V st else st
  let d ← matchShifts V st.dist_ratio st.projected_gray st.projected_images.length
  .ok (storeShifts V st d draw)

/-! ## `makePanoramic` -/

/-- The junction variables of lines 257-262. -/
structure Seam where
  curr_piece_left : ℤ
  curr_junction : ℤ
  smooth_half_span : ℤ
  smooth_start : ℤ
  smooth_end : ℤ
  smooth_span : ℚ

/-- Lines 257-262 for image `i`, where `prev` is `shift_x[i - 1]` (not read when `i = 0`). -/
def seamAt (width : ℤ) (i : ℕ) (prev : ℤ) : Seam :=
  let curr_piece_left :=
    if i > 0 then roundHalfAway (rnd64 (((width - prev : ℤ) : ℚ) * rnd64 (6 / 10))) else 0
  let curr_junction := if i > 0 then Int.tdiv (width - prev) 2 else 0
  let smooth_half_span := curr_piece_left - curr_junction
  { curr_piece_left := curr_piece_left
    curr_junction := curr_junction
    smooth_half_span := smooth_half_span
    smooth_start := curr_junction - smooth_half_span
    smooth_end := curr_junction + smooth_half_span
    smooth_span := ((smooth_half_span * 2 : ℤ) : ℚ) }

/-- Line 271: the weight of column `c`. -/
def blendAlpha (sm : Seam) (c : ℤ) : ℚ :=
  rnd64 (((c - sm.smooth_start : ℤ) : ℚ) / sm.smooth_span)

/-- Line 274: the value `tmp` of the single-channel blend. -/
def blendTmp (old_px curr_px : ℕ) (alpha : ℚ) : ℤ :=
  truncToInt (rnd64 (rnd64 ((old_px : ℚ) * rnd64 (1 - alpha)) + rnd64 ((curr_px : ℚ) * alpha)))

/-- Line 275: `tmp` narrowed to the `uchar` it is stored in. -/
def blendGray (old_px curr_px : ℕ) (alpha : ℚ) : ℕ :=
  (blendTmp old_px curr_px alpha % 256).toNat

/-- The new value of one blended pixel: lines 272-275 for one channel, lines 284-288
otherwise. -/
def blendPixel (V : Vision) (channels : ℕ) (old_px curr_px : ℕ → ℕ) (alpha : ℚ) : ℕ → ℕ :=
  if channels = 1 then
    fun ch => if ch = 0 then blendGray (old_px 0) (curr_px 0) alpha else old_px ch
  else V.addWeighted old_px (rnd64 (1 - alpha)) curr_px alpha

/-- The values `a, a + 1, .., b - 1` of a loop `for (c = a; c < b; c++)`. -/
def intRange (a b : ℤ) : List ℤ :=
  (List.range (b - a).toNat).map (fun (k : ℕ) => a + (k : ℤ))

/-- The body of the two blend loops for row `r` and column `c`. -/
def blendAt (V : Vision) (channels : ℕ) (mat : Mat) (sm : Seam) (curr_x curr_y : ℤ)
    (canvas : Mat) (r c : ℤ) : Mat :=
  canvas.set (curr_y + r) (curr_x + c)
    (blendPixel V channels (canvas.px (curr_y + r) (curr_x + c)) (mat.px r c) (blendAlpha sm c))

/-- The blend loops of lines 266-291. -/
def blendSeam (V : Vision) (channels : ℕ) (mat : Mat) (sm : Seam) (height curr_x curr_y : ℤ)
    (canvas : Mat) : Mat :=
  (intRange 0 height).foldl
    (fun cv r => (intRange sm.smooth_start sm.smooth_end).foldl
      (fun cv c => blendAt V channels mat sm curr_x curr_y cv r c) cv)
    canvas

/-- Whether every `at` of the blend loops is inside its matrix. -/
def blendInBounds (mat canvas : Mat) (sm : Seam) (height curr_x curr_y : ℤ) : Bool :=
  decide (height ≤ 0 ∨ sm.smooth_end ≤ sm.smooth_start ∨
    (0 ≤ sm.smooth_start ∧ sm.smooth_end ≤ mat.cols ∧ height ≤ mat.rows ∧
     0 ≤ curr_y ∧ curr_y + height ≤ canvas.rows ∧
     0 ≤ curr_x + sm.smooth_start ∧ curr_x + sm.smooth_end ≤ canvas.cols))

/-- Lines 293-300: the columns `curr_piece_left .. width - 1` of the image are copied to
the canvas at `(curr_y, curr_x + curr_piece_left)`. -/
def paste (mat : Mat) (sm : Seam) (width height curr_x curr_y : ℤ) (canvas : Mat) : Mat :=
  { canvas with
    px := fun y x =>
      if curr_y ≤ y ∧ y < curr_y + height ∧
          curr_x + sm.curr_piece_left ≤ x ∧ x < curr_x + width then
        mat.px (y - curr_y) (x - curr_x)
      else canvas.px y x }

/-- The canvas after the blend and the paste of one image (lines 266-300). -/
def stitchCanvas (V : Vision) (channels : ℕ) (mat : Mat) (sm : Seam)
    (width height curr_x curr_y : ℤ) (canvas : Mat) : Mat :=
  paste mat sm width height curr_x curr_y
    (blendSeam V channels mat sm height curr_x curr_y canvas)

/-- The variables that the stitching loop carries from one image to the next. -/
structure Stitch where
  canvas : Mat
  curr_x : ℤ
  curr_y : ℤ

/-- Lines 302-305: the drawing position of the next image. -/
def advance (shift_x shift_y : List ℤ) (N i : ℕ) (pos : ℤ × ℤ) : ℤ × ℤ :=
  if i + 1 < N then (pos.1 + shift_x.getD i 0, pos.2 + shift_y.getD i 0) else pos

/-- The drawing position `(curr_x, curr_y)` at the start of iteration `i` of the stitching
loop (lines 236-237 and 302-305). -/
def placement (left_x upper_y : ℤ) (shift_x shift_y : List ℤ) (N : ℕ) : ℕ → ℤ × ℤ
  | 0 => (-left_x, -upper_y)
  | i + 1 => advance shift_x shift_y N i (placement left_x upper_y shift_x shift_y N i)

/-- The value `shift_x[i - 1]` read in lines 257-258 for image `i > 0`. -/
def prevShift (shift_x : List ℤ) (i : ℕ) : Except Fault ℤ :=
  if i > 0 then getAt shift_x (i - 1) else .ok 0

/-- One iteration of the stitching loop (lines 249-306). -/
def stitchStep (V : Vision) (st : PanoramicImage) (material_images : List Mat)
    (width height : ℤ) (channels N : ℕ) (s : Stitch) (i : ℕ) : Except Fault Stitch := do
  let mat ← getAt material_images i
  let prev ← prevShift st.shift_x i
  let sm := seamAt width i prev
  if !blendInBounds mat s.canvas sm height s.curr_x s.curr_y then .error .pixelOutOfBounds else
  if !mat.validRange 0 height sm.curr_piece_left width then .error .badRange else
  if !s.canvas.validRange s.curr_y (s.curr_y + height)
      (s.curr_x + sm.curr_piece_left) (s.curr_x + width) then .error .badRange else
  if i + 1 < N ∧ (st.shift_x.length ≤ i ∨ st.shift_y.length ≤ i) then
    .error .indexOutOfRange else
  let pos := advance st.shift_x st.shift_y N i (s.curr_x, s.curr_y)
  .ok { canvas := stitchCanvas V channels mat sm width height s.curr_x s.curr_y s.canvas
        curr_x := pos.1
        curr_y := pos.2 }

/-- Lines 230-233: the canvas `cv::Mat(total_height, total_width, type)`. The constructor
does not initialise the elements: they hold `V.uninit` until the stitching loop writes
them. -/
def allocCanvas (V : Vision) (st : PanoramicImage) (width height : ℤ) (channels : ℕ) :
    Except Fault Mat :=
  let total_height := height + st.lower_y - st.upper_y
  let total_width := width + st.right_x - st.left_x
  if total_height < 0 ∨ total_width < 0 then .error .badAlloc
  else .ok ⟨total_height, total_width, channels, V.uninit⟩

/-- The image that `makePanoramic` computes (lines 225-314). -/
def composite (V : Vision) (st : PanoramicImage) (material_images : List Mat) :
    Except Fault Mat := do
  let N := st.projected_images.length
  let p0 ← getAt st.projected_images 0
  let m0 ← getAt material_images 0
  let width := p0.cols
  let height := p0.rows
  let channels := m0.channels
  let total_height := height + st.lower_y - st.upper_y
  let total_width := width + st.right_x - st.left_x
  let canvas ← allocCanvas V st width height channels
  let fin ← (List.range N).foldlM
    (stitchStep V st material_images width height channels N)
    ⟨canvas, -st.left_x, -st.upper_y⟩
  fin.canvas.roi (st.lower_y - st.upper_y) (total_height + st.upper_y - st.lower_y)
    0 total_width

/-- The table `results` with entry `[gray][equalize]` replaced. -/
def setResult (results : Bool → Bool → Mat) (gray equalize : Bool) (img : Mat) :
    Bool → Bool → Mat :=
  fun g e => if g = gray ∧ e = equalize then img else results g e

/-- The method `PanoramicImage::makePanoramic`, with `result_dest` being
`results[gray][equalize]`. -/
def makePanoramic (V : Vision) (st : PanoramicImage) (material_images : List Mat)
    (gray equalize : Bool) : Except Fault (PanoramicImage × Mat) := do
  let img ← composite V st material_images
  .ok ({ st with results := setResult st.results gray equalize img
                 calls := { st.calls with makePanoramic := st.calls.makePanoramic + 1 } },
       img)

/-! ## `get` and `getAll` -/

/-- Lines 41-56 of `get`: the equalized material images, computed when first needed. -/
def prepareMaterial (V : Vision) (st : PanoramicImage) (gray equalize : Bool) :
    Except Fault PanoramicImage :=
  let N := st.projected_images.length
  if gray then
    if equalize && st.gray_equalized.isEmpty then do
      let src ← firstN st.projected_gray N
      .ok { st with gray_equalized := src.map (Panoramic.equalize V)
                    calls := { st.calls with equalize := st.calls.equalize + N } }
    else .ok st
  else
    if equalize && st.bgr_equalized.isEmpty then do
      let src ← firstN st.projected_images N
      .ok { st with bgr_equalized := src.map (Panoramic.equalize V)
                    calls := { st.calls with equalize := st.calls.equalize + N } }
    else .ok st

/-- Lines 36-38 of `get`: the shifts are computed when there are none, or when the matches
are to be drawn for the first time. -/
def ensureShifts (V : Vision) (st : PanoramicImage) (draw should_draw : Bool) :
    Except Fault PanoramicImage :=
  if st.shift_x.isEmpty || should_draw then prepareShifts V st draw else .ok st

/-- The method `PanoramicImage::get`: the facade after the call and the image returned. -/
def get (V : Vision) (st : PanoramicImage) (gray equalize draw : Bool) :
    Except Fault (PanoramicImage × Mat) :=
  let should_draw := draw && st.match_images.isEmpty
  let result := st.results gray equalize
  if !result.empty && !should_draw then .ok (st, result) else do
    let st1 ← ensureShifts V st draw should_draw
    let st2 ← prepareMaterial V st1 gray equalize
    makePanoramic V st2 (material st2 gray equalize) gray equalize

/-- The method `PanoramicImage::getAll`. -/
def getAll (V : Vision) (st : PanoramicImage) (draw : Bool) :
    Except Fault (PanoramicImage × List Mat) := do
  let r0 ← get V st false false draw
  let r1 ← get V r0.1 false true draw
  let r2 ← get V r1.1 true false draw
  let r3 ← get V r2.1 true true draw
  .ok (r3.1, [r0.2, r1.2, V.cvtColorGRAY2BGR r2.2, V.cvtColorGRAY2BGR r3.2])

/-- A call of the public interface that changes the facade. -/
inductive Call where
  | get (gray equalize draw : Bool)
  | getAll (draw : Bool)
  deriving DecidableEq, Repr

/-- Whether a call asks for the matches to be drawn. -/
def Call.draw : Call → Bool
  | .get _ _ d => d
  | .getAll d => d

/-- The facade after one call. -/
def runCall (V : Vision) (st : PanoramicImage) : Call → Except Fault PanoramicImage
  | .get g e d => (get V st g e d).map Prod.fst
  | .getAll d => (getAll V st d).map Prod.fst

/-- The facade after a sequence of calls, each of which returns. -/
def runCalls (V : Vision) (st : PanoramicImage) : List Call → Except Fault PanoramicImage
  | [] => .ok st
  | c :: cs => do
    let st1 ← runCall V st c
    runCalls V st1 cs

/-! ## Vocabulary of the statements -/

/-- The sums of the first `k` shifts, for every `k` from `0` (the origin) to the number of
shifts. -/
def prefixSums (xs : List ℤ) : Set ℤ := {v | ∃ k, k ≤ xs.length ∧ v = (xs.take k).sum}

/-- A matrix of the given size and channel count with every element equal to `v`. -/
def Mat.const (rows cols : ℤ) (channels v : ℕ) : Mat := ⟨rows, cols, channels, fun _ _ _ => v⟩

/-- A stand-in vision library for concrete instances of the statements: projection and
colour conversion keep the pixel values, every image has the key points `(5, 2)` and `(0, 0)`,
every pair has one match from the first key point to the second, and the robust fit keeps
every match. -/
def Vision.sample : Vision :=
  { cylindricalProj := fun m _ => m
    cvtColorBGR2GRAY := fun m => { m with channels := 1 }
    cvtColorGRAY2BGR := fun m => { m with channels := 3 }
    split := fun m => [m]
    equalizeHist := fun m => m
    merge := fun ms => ms.headD Mat.nil
    detectAndCompute := fun m => ([⟨5, 2⟩, ⟨0, 0⟩], m)
    bfMatch := fun _ _ => [⟨0, 1, 0⟩]
    findHomography := fun l _ => l.map (fun _ => 1)
    drawMatches := fun m _ _ _ _ => m
    addWeighted := fun old _ _ _ => old
    uninit := fun _ _ _ => 0 }

/-- A colour image of 100 columns and 40 rows. -/
def sampleImage : Mat := Mat.const 40 100 3 9

/-- A facade of two sample images on which nothing has been computed. -/
def sampleFresh : PanoramicImage :=
  PanoramicImage.new [sampleImage, sampleImage] (1 / 2) 3 RIGHT

/-- The facade `sampleFresh` after `prepareShifts` with the library `Vision.sample`: the
second image is shifted by `(5, 2)`. -/
def sampleShifted : PanoramicImage :=
  { sampleFresh with
    projected_images := [sampleImage, sampleImage]
    projected_gray := [{ sampleImage with channels := 1 }, { sampleImage with channels := 1 }]
    shift_x := [5]
    shift_y := [2]
    right_x := 5
    lower_y := 2
    calls := ⟨1, 0, 0⟩ }

/-- The facade without the match drawings and the call counters. -/
def core (st : PanoramicImage) : PanoramicImage :=
  { st with match_images := [], calls := ⟨0, 0, 0⟩ }

/-- The projected images of a facade constructed from `images`. -/
def projOf (V : Vision) (images : List Mat) (half_fov : ℚ) : List Mat :=
  images.map (fun im => V.cylindricalProj im half_fov)

/-- The grayscale projected images of a facade constructed from `images`. -/
def grayOf (V : Vision) (images : List Mat) (half_fov : ℚ) : List Mat :=
  (projOf V images half_fov).map V.cvtColorBGR2GRAY

/-- A facade on which nothing has been computed yet. -/
def Fresh (images : List Mat) (half_fov dist_ratio : ℚ) (st : PanoramicImage) : Prop :=
  st.original_images = images ∧ st.half_fov = half_fov ∧ st.dist_ratio = dist_ratio ∧
  st.projected_images = [] ∧ st.shift_x = [] ∧ st.bgr_equalized = [] ∧
  st.gray_equalized = [] ∧ ∀ g e, (st.results g e).empty = true

/-- A facade whose shifts have been computed: every derived field that is set holds the
value that the computation from the source images gives. -/
def Computed (V : Vision) (images : List Mat) (half_fov dist_ratio : ℚ)
    (st : PanoramicImage) : Prop :=
  st.original_images = images ∧ st.half_fov = half_fov ∧ st.dist_ratio = dist_ratio ∧
  st.projected_images = projOf V images half_fov ∧
  st.projected_gray = grayOf V images half_fov ∧
  (∃ d, matchShifts V dist_ratio (grayOf V images half_fov)
      (projOf V images half_fov).length = .ok d ∧
    st.shift_x = d.shifts.map Prod.fst ∧ st.shift_y = d.shifts.map Prod.snd ∧
    st.left_x = (accumulate d.shifts).left_x ∧ st.right_x = (accumulate d.shifts).right_x ∧
    st.upper_y = (accumulate d.shifts).upper_y ∧
    st.lower_y = (accumulate d.shifts).lower_y) ∧
  (st.bgr_equalized = [] ∨
    st.bgr_equalized = (projOf V images half_fov).map (equalize V)) ∧
  (st.gray_equalized = [] ∨
    st.gray_equalized = (grayOf V images half_fov).map (equalize V)) ∧
  ∀ g e, (st.results g e).empty = true ∨
    composite V st (material st g e) = .ok (st.results g e)

/-- The inlier correspondences of a pair: the (left point, right point) pairs, in match order,
whose entry in the consensus mask is not zero. -/
def inlierPairs (left_points right_points : List KeyPoint) (mask : List ℤ) :
    List (KeyPoint × KeyPoint) :=
  (((left_points.zip right_points).zip mask).filter (fun p => decide (p.2 ≠ 0))).map Prod.fst

/-- The `double` accumulator after adding, one by one, the `float` values of the given exact
displacements to `s0` (the `sum_dx += left.x - right.x` of the inlier loop). -/
def floatSum (s0 : ℚ) (ds : List ℚ) : ℚ := ds.foldl (fun s d => rnd64 (s + rnd32 d)) s0

/-- The mean as the inlier loop computes it: the accumulated `double` sum divided, in `double`,
by the number of terms. -/
def floatMean (ds : List ℚ) : ℚ := rnd64 (floatSum 0 ds / (ds.length : ℤ))

/-- The exact horizontal displacement of a correspondence, left point minus right point. -/
def dispX (p : KeyPoint × KeyPoint) : ℚ := p.1.x - p.2.x

/-- The exact vertical displacement of a correspondence, left point minus right point. -/
def dispY (p : KeyPoint × KeyPoint) : ℚ := p.1.y - p.2.y

/-- The exact mean of a list of displacements. -/
def exactMean (ds : List ℚ) : ℚ := ds.sum / (ds.length : ℤ)

/-- The library `Vision.sample` with a robust fit that rejects every match. -/
def Vision.noInliers : Vision :=
  { Vision.sample with findHomography := fun l _ => l.map (fun _ => 0) }

/-- The library `Vision.sample` with a detector that finds no feature, so that the match list
of every pair is empty. -/
def Vision.noFeatures : Vision :=
  { Vision.sample with
    detectAndCompute := fun m => ([], m)
    bfMatch := fun _ _ => [] }

/-- The image that the variant `(gray, equalize)` is stitched from on a facade of the single
source image `im`. -/
def singleMaterial (V : Vision) (im : Mat) (half_fov : ℚ) (gray equalize : Bool) : Mat :=
  match gray, equalize with
  | false, false => V.cylindricalProj im half_fov
  | false, true => Panoramic.equalize V (V.cylindricalProj im half_fov)
  | true, false => V.cvtColorBGR2GRAY (V.cylindricalProj im half_fov)
  | true, true => Panoramic.equalize V (V.cvtColorBGR2GRAY (V.cylindricalProj im half_fov))

/-- The stored shifts and margins of a facade. -/
def shiftData (st : PanoramicImage) : List ℤ × List ℤ × ℤ × ℤ × ℤ × ℤ :=
  (st.shift_x, st.shift_y, st.left_x, st.right_x, st.upper_y, st.lower_y)

/-- The images that the variant `(gray, equalize)` is stitched from, as the source images
determine them. -/
def canonMaterial (V : Vision) (images : List Mat) (half_fov : ℚ) (gray equalize : Bool) :
    List Mat :=
  match gray, equalize with
  | false, false => projOf V images half_fov
  | false, true => (projOf V images half_fov).map (Panoramic.equalize V)
  | true, false => grayOf V images half_fov
  | true, true => (grayOf V images half_fov).map (Panoramic.equalize V)

/-- The panorama of the variant `(gray, equalize)` as the source images and the two
parameters determine it: the shifts of the grayscale projections, then the composite of the
variant's images. -/
def canonImage (V : Vision) (images : List Mat) (half_fov dist_ratio : ℚ)
    (gray equalize : Bool) : Except Fault Mat :=
  (matchShifts V dist_ratio (grayOf V images half_fov) (projOf V images half_fov).length).bind
    (fun d => composite V
      (storeShifts V (projectImages V (PanoramicImage.new images half_fov dist_ratio RIGHT))
        d false)
      (canonMaterial V images half_fov gray equalize))

/-- The library `Vision.sample` with the key points `(99, 0)` and `(0, 0)` in every image:
the match of a pair joins the left point `(99, 0)` to the right point `(0, 0)`. -/
def Vision.unitGap : Vision :=
  { Vision.sample with detectAndCompute := fun m => ([⟨99, 0⟩, ⟨0, 0⟩], m) }

/-- The library `V` with `u` as the content of fresh memory: what another allocation of a
canvas finds. -/
def Vision.withUninit (V : Vision) (u : ℤ → ℤ → ℕ → ℕ) : Vision :=
  { V with uninit := u }

/-- Two matrices show the same image: they have the same size and channel count and the
same value in every element inside that size. -/
def Mat.sameImage (a b : Mat) : Prop :=
  a.rows = b.rows ∧ a.cols = b.cols ∧ a.channels = b.channels ∧
  ∀ y x, 0 ≤ y → y < a.rows → 0 ≤ x → x < a.cols → a.px y x = b.px y x

/-- Two calls end alike: both stop with the same fault, or both return and the two images
are the same. -/
def sameResult (a b : Except Fault Mat) : Prop :=
  match a, b with
  | .ok x, .ok y => x.sameImage y
  | .error f, .error g => f = g
  | _, _ => False

/-- The canvas element `(y, x)` lies in the block that the stitching loop copies from one of
the images `0 .. k - 1` (lines 293-300): the rows of the image and its columns from
`curr_piece_left` on, at the drawing position of the image. -/
def pasted (st : PanoramicImage) (width height : ℤ) (N k : ℕ) (y x : ℤ) : Prop :=
  ∃ i, i < k ∧
    (placement st.left_x st.upper_y st.shift_x st.shift_y N i).2 ≤ y ∧
    y < (placement st.left_x st.upper_y st.shift_x st.shift_y N i).2 + height ∧
    (placement st.left_x st.upper_y st.shift_x st.shift_y N i).1 +
      (seamAt width i (st.shift_x.getD (i - 1) 0)).curr_piece_left ≤ x ∧
    x < (placement st.left_x st.upper_y st.shift_x st.shift_y N i).1 + width

/-- The horizontal shifts of a facade are canonical: each shift that `prepareShifts` computes
lies between `0` and the width `W` of the projected images, and `W` fits the type `int`. -/
def canonicalShifts (V : Vision) (st : PanoramicImage) : Prop :=
  ∀ s, prepareShifts V st false = .ok s →
    ∀ p ∈ s.projected_images.head?, p.cols < 2 ^ 31 ∧ ∀ x ∈ s.shift_x, 0 ≤ x ∧ x ≤ p.cols

/-- The library `Vision.sample` with the key points `(0, 0)` and `(10, 0)` in every image:
the match of a pair joins the left point `(0, 0)` to the right point `(10, 0)`, so the second
image lies 10 columns to the left of the first. -/
def Vision.leftward : Vision :=
  { Vision.sample with detectAndCompute := fun m => ([⟨0, 0⟩, ⟨10, 0⟩], m) }

/-- A second colour image of 100 columns and 40 rows. -/
def otherImage : Mat := Mat.const 40 100 3 200

/-! ## The filters of `first-hw/filter.cpp` -/

/-- The class `Filter`: its field `filter_size`. -/
structure Filter where
  filter_size : ℤ
  deriving DecidableEq, Repr

/-- The constructor `Filter::Filter(int size)`; `%` is the truncating remainder of C++. The
increment cannot overflow: the largest `int` is odd. -/
def Filter.new (size : ℤ) : Filter :=
  let size := if Int.tmod size 2 = 0 then size + 1 else size
  { filter_size := size }

/-- The method `Filter::setSize`. -/
def Filter.setSize (f : Filter) (size : ℤ) : Filter :=
  let size := if Int.tmod size 2 = 0 then size + 1 else size
  { f with filter_size := size }

/-- The method `Filter::getSize`. -/
def Filter.getSize (f : Filter) : ℤ := f.filter_size

/-- The class `GaussianFilter`. -/
structure GaussianFilter extends Filter where
  sigma : ℚ
  deriving DecidableEq, Repr

/-- The constructor `GaussianFilter::GaussianFilter`. -/
def GaussianFilter.new (filter_size : ℤ) (sigma : ℚ) : GaussianFilter :=
  { toFilter := Filter.new filter_size, sigma := sigma }

/-- The class `MedianFilter`. -/
structure MedianFilter extends Filter where
  deriving DecidableEq, Repr

/-- The constructor `MedianFilter::MedianFilter`. -/
def MedianFilter.new (filter_size : ℤ) : MedianFilter :=
  { toFilter := Filter.new filter_size }

/-- The class `BilateralFilter`. -/
structure BilateralFilter extends Filter where
  sigma_range : ℚ
  sigma_space : ℚ
  deriving DecidableEq, Repr

/-- The constructor `BilateralFilter::BilateralFilter`: the base constructor, then the three
assignments of its body. -/
def BilateralFilter.new (filter_size : ℤ) (sigma_range sigma_space : ℚ) : BilateralFilter :=
  let base := Filter.new filter_size
  let this : BilateralFilter :=
    { toFilter := base, sigma_range := sigma_range, sigma_space := sigma_space }
  { this with filter_size := 15 }

/-- The method `BilateralFilter::setSigmaRange`. -/
def BilateralFilter.setSigmaRange (f : BilateralFilter) (sigma : ℚ) : BilateralFilter :=
  { f with sigma_range := sigma }

/-- The method `BilateralFilter::setSigmaSpace`. -/
def BilateralFilter.setSigmaSpace (f : BilateralFilter) (sigma : ℚ) : BilateralFilter :=
  { f with sigma_space := sigma, filter_size := 15 }

/-! ## The example image of `first-hw/lab2.cpp` -/

/-- Line 159 of `lab2.cpp` for `n = checkerboard_images.size()`: the subtraction and the
comparison are in the unsigned 64-bit type of `size()`, the result is narrowed to `int`. -/
def exampleImage (n : ℕ) : ℤ :=
  let r : ℤ := if (16 : ℤ) > ((n : ℤ) - 1) % 2 ^ 64 then (n : ℤ) else 16
  Int.bmod r (2 ^ 32)

/-- Lines 160-161 of `lab2.cpp`: the elements `checkerboard_images[EXAMPLE_IMAGE]` and
`image_points[EXAMPLE_IMAGE]`; `getImagePoints` returns one entry per image. -/
def exampleAccess {α β : Type} (checkerboard_images : List α) (image_points : List β) :
    Except Fault (α × β) := do
  let img ← getAtInt checkerboard_images (exampleImage checkerboard_images.length)
  let pts ← getAtInt image_points (exampleImage checkerboard_images.length)
  .ok (img, pts)

/-! ## The shift accumulator -/

theorem accumulate_snoc (l : List (ℤ × ℤ)) (s : ℤ × ℤ) :
    accumulate (l ++ [s]) = (accumulate l).step s := by
  simp [accumulate, List.foldl_append]

theorem prefixSums_snoc (xs : List ℤ) (x v : ℤ) :
    v ∈ prefixSums (xs ++ [x]) ↔ v ∈ prefixSums xs ∨ v = xs.sum + x := by
  constructor
  · rintro ⟨k, hk, rfl⟩
    rcases Nat.lt_or_ge k (xs.length + 1) with h | h
    · left
      exact ⟨k, by omega, by rw [List.take_append_of_le_length (by omega)]⟩
    · right
      have hk2 : k = (xs ++ [x]).length := by simp at hk ⊢; omega
      rw [hk2, List.take_length]; simp
  · rintro (⟨k, hk, rfl⟩ | rfl)
    · exact ⟨k, by simp; omega, by rw [List.take_append_of_le_length hk]⟩
    · exact ⟨(xs ++ [x]).length, le_rfl, by rw [List.take_length]; simp⟩

theorem accumulate_spec (shifts : List (ℤ × ℤ)) :
    (accumulate shifts).cumulative_x = (shifts.map Prod.fst).sum ∧
    (accumulate shifts).cumulative_y = (shifts.map Prod.snd).sum ∧
    IsLeast (prefixSums (shifts.map Prod.fst)) (accumulate shifts).left_x ∧
    IsGreatest (prefixSums (shifts.map Prod.fst)) (accumulate shifts).right_x ∧
    IsLeast (prefixSums (shifts.map Prod.snd)) (accumulate shifts).upper_y ∧
    IsGreatest (prefixSums (shifts.map Prod.snd)) (accumulate shifts).lower_y := by
  induction shifts using List.reverseRecOn with
  | nil =>
    have h0 : ∀ v, v ∈ prefixSums [] ↔ v = 0 := by
      intro v
      constructor
      · rintro ⟨k, _, rfl⟩; simp
      · rintro rfl; exact ⟨0, by simp, by simp⟩
    simp only [accumulate, List.foldl_nil, Extents.init, List.map_nil, List.sum_nil, IsLeast,
      IsGreatest, lowerBounds, upperBounds, Set.mem_setOf_eq, h0]
    simp
  | append_singleton l s ih =>
    obtain ⟨hx, hy, hl, hr, hu, hd⟩ := ih
    rw [accumulate_snoc]
    simp only [Extents.step, List.map_append, List.map_cons, List.map_nil, List.sum_append,
      List.sum_cons, List.sum_nil, add_zero, hx, hy]
    refine ⟨trivial, trivial, ?_, ?_, ?_, ?_⟩
    · constructor
      · rw [prefixSums_snoc]
        rcases min_cases (accumulate l).left_x ((l.map Prod.fst).sum + s.1) with h | h
        · rw [h.1]; exact Or.inl hl.1
        · rw [h.1]; exact Or.inr rfl
      · intro v hv
        rw [prefixSums_snoc] at hv
        rcases hv with hv | rfl
        · exact le_trans (min_le_left _ _) (hl.2 hv)
        · exact min_le_right _ _
    · constructor
      · rw [prefixSums_snoc]
        rcases max_cases (accumulate l).right_x ((l.map Prod.fst).sum + s.1) with h | h
        · rw [h.1]; exact Or.inl hr.1
        · rw [h.1]; exact Or.inr rfl
      · intro v hv
        rw [prefixSums_snoc] at hv
        rcases hv with hv | rfl
        · exact le_trans (hr.2 hv) (le_max_left _ _)
        · exact le_max_right _ _
    · constructor
      · rw [prefixSums_snoc]
        rcases min_cases (accumulate l).upper_y ((l.map Prod.snd).sum + s.2) with h | h
        · rw [h.1]; exact Or.inl hu.1
        · rw [h.1]; exact Or.inr rfl
      · intro v hv
        rw [prefixSums_snoc] at hv
        rcases hv with hv | rfl
        · exact le_trans (min_le_left _ _) (hu.2 hv)
        · exact min_le_right _ _
    · constructor
      · rw [prefixSums_snoc]
        rcases max_cases (accumulate l).lower_y ((l.map Prod.snd).sum + s.2) with h | h
        · rw [h.1]; exact Or.inl hd.1
        · rw [h.1]; exact Or.inr rfl
      · intro v hv
        rw [prefixSums_snoc] at hv
        rcases hv with hv | rfl
        · exact le_trans (hd.2 hv) (le_max_left _ _)
        · exact le_max_right _ _

theorem zero_mem_prefixSums (xs : List ℤ) : (0 : ℤ) ∈ prefixSums xs :=
  ⟨0, Nat.zero_le _, by simp⟩

theorem take_sum_mem_prefixSums (xs : List ℤ) (k : ℕ) (h : k ≤ xs.length) :
    (xs.take k).sum ∈ prefixSums xs := ⟨k, h, rfl⟩

/-- C1. For every sequence of pairwise shifts, the margins computed by the accumulation
loop of `prepareShifts` are tight: `left_x` is the least and `right_x` the greatest of `0`
and all prefix sums of the horizontal shifts, `upper_y` is the least and `lower_y` the
greatest of `0` and all prefix sums of the vertical shifts. -/
theorem prepareShifts_extents_tight (shifts : List (ℤ × ℤ)) :
    IsLeast (insert 0 (prefixSums (shifts.map Prod.fst))) (accumulate shifts).left_x ∧
    IsGreatest (insert 0 (prefixSums (shifts.map Prod.fst))) (accumulate shifts).right_x ∧
    IsLeast (insert 0 (prefixSums (shifts.map Prod.snd))) (accumulate shifts).upper_y ∧
    IsGreatest (insert 0 (prefixSums (shifts.map Prod.snd))) (accumulate shifts).lower_y := by
  obtain ⟨_, _, hl, hr, hu, hd⟩ := accumulate_spec shifts
  rw [Set.insert_eq_of_mem (zero_mem_prefixSums _), Set.insert_eq_of_mem (zero_mem_prefixSums _)]
  exact ⟨hl, hr, hu, hd⟩

/-- C2. The margins satisfy `left_x ≤ 0 ≤ right_x` and `upper_y ≤ 0 ≤ lower_y` after the
accumulation loop has folded in any prefix of any shift sequence (the empty prefix is the
initial state, and each further step goes from one prefix to the next). -/
theorem canvasExtent_invariant (shifts : List (ℤ × ℤ)) (k : ℕ) :
    (accumulate (shifts.take k)).left_x ≤ 0 ∧ 0 ≤ (accumulate (shifts.take k)).right_x ∧
    (accumulate (shifts.take k)).upper_y ≤ 0 ∧ 0 ≤ (accumulate (shifts.take k)).lower_y := by
  obtain ⟨_, _, hl, hr, hu, hd⟩ := accumulate_spec (shifts.take k)
  exact ⟨hl.2 (zero_mem_prefixSums _), hr.2 (zero_mem_prefixSums _),
    hu.2 (zero_mem_prefixSums _), hd.2 (zero_mem_prefixSums _)⟩

theorem placement_eq (left_x upper_y : ℤ) (xs ys : List ℤ) (N i : ℕ)
    (hx : N ≤ xs.length + 1) (hy : N ≤ ys.length + 1) (hi : i < N) :
    placement left_x upper_y xs ys N i =
      (-left_x + (xs.take i).sum, -upper_y + (ys.take i).sum) := by
  induction i with
  | zero => simp [placement]
  | succ i ih =>
    have hxi : i < xs.length := by omega
    have hyi : i < ys.length := by omega
    rw [placement, ih (by omega), advance, if_pos hi]
    rw [List.sum_take_succ xs i hxi, List.sum_take_succ ys i hyi]
    simp only [List.getD_eq_getElem?_getD, List.getElem?_eq_getElem hxi,
      List.getElem?_eq_getElem hyi, Option.getD_some]
    ext <;> simp <;> ring

theorem placement_bounds (shifts : List (ℤ × ℤ)) (width height : ℤ) (i : ℕ)
    (hi : i < shifts.length + 1) :
    0 ≤ (placement (accumulate shifts).left_x (accumulate shifts).upper_y
          (shifts.map Prod.fst) (shifts.map Prod.snd) (shifts.length + 1) i).1 ∧
    (placement (accumulate shifts).left_x (accumulate shifts).upper_y
          (shifts.map Prod.fst) (shifts.map Prod.snd) (shifts.length + 1) i).1 + width ≤
      width + (accumulate shifts).right_x - (accumulate shifts).left_x ∧
    0 ≤ (placement (accumulate shifts).left_x (accumulate shifts).upper_y
          (shifts.map Prod.fst) (shifts.map Prod.snd) (shifts.length + 1) i).2 ∧
    (placement (accumulate shifts).left_x (accumulate shifts).upper_y
          (shifts.map Prod.fst) (shifts.map Prod.snd) (shifts.length + 1) i).2 + height ≤
      height + (accumulate shifts).lower_y - (accumulate shifts).upper_y := by
  obtain ⟨_, _, hl, hr, hu, hd⟩ := accumulate_spec shifts
  rw [placement_eq _ _ _ _ _ _ (by simp) (by simp) hi]
  have hx := take_sum_mem_prefixSums (shifts.map Prod.fst) i (by simp; omega)
  have hy := take_sum_mem_prefixSums (shifts.map Prod.snd) i (by simp; omega)
  have h1 := hl.2 hx
  have h2 := hr.2 hx
  have h3 := hu.2 hy
  have h4 := hd.2 hy
  simp only
  refine ⟨by linarith, by linarith, by linarith, by linarith⟩

/-- C3. No image is clipped: with the margins computed from a shift sequence by the
accumulation loop of `prepareShifts`, the drawing position `(curr_x, curr_y)` of every
image `i` of the stitching loop lies inside the canvas together with the whole image, for
every image width and height. -/
theorem placement_inside_canvas (shifts : List (ℤ × ℤ)) (width height : ℤ) (i : ℕ)
    (hi : i < shifts.length + 1) :
    0 ≤ (placement (accumulate shifts).left_x (accumulate shifts).upper_y
          (shifts.map Prod.fst) (shifts.map Prod.snd) (shifts.length + 1) i).1 ∧
    (placement (accumulate shifts).left_x (accumulate shifts).upper_y
          (shifts.map Prod.fst) (shifts.map Prod.snd) (shifts.length + 1) i).1 + width ≤
      width + (accumulate shifts).right_x - (accumulate shifts).left_x ∧
    0 ≤ (placement (accumulate shifts).left_x (accumulate shifts).upper_y
          (shifts.map Prod.fst) (shifts.map Prod.snd) (shifts.length + 1) i).2 ∧
    (placement (accumulate shifts).left_x (accumulate shifts).upper_y
          (shifts.map Prod.fst) (shifts.map Prod.snd) (shifts.length + 1) i).2 + height ≤
      height + (accumulate shifts).lower_y - (accumulate shifts).upper_y :=
  placement_bounds shifts width height i hi

/-- Witness of C3: the second of three images of size 20 x 10 with shifts `(5, -2)` and
`(7, 3)` is drawn at `(5, 0)` in a canvas of size 32 x 13. -/
theorem placement_inside_canvas_witness :
    1 < [((5 : ℤ), (-2 : ℤ)), (7, 3)].length + 1 ∧
    (0 ≤ (placement (accumulate [(5, -2), (7, 3)]).left_x (accumulate [(5, -2), (7, 3)]).upper_y
          ([((5 : ℤ), (-2 : ℤ)), (7, 3)].map Prod.fst) ([((5 : ℤ), (-2 : ℤ)), (7, 3)].map Prod.snd)
          ([((5 : ℤ), (-2 : ℤ)), (7, 3)].length + 1) 1).1 ∧
    (placement (accumulate [(5, -2), (7, 3)]).left_x (accumulate [(5, -2), (7, 3)]).upper_y
          ([((5 : ℤ), (-2 : ℤ)), (7, 3)].map Prod.fst) ([((5 : ℤ), (-2 : ℤ)), (7, 3)].map Prod.snd)
          ([((5 : ℤ), (-2 : ℤ)), (7, 3)].length + 1) 1).1 + 20 ≤
      20 + (accumulate [(5, -2), (7, 3)]).right_x - (accumulate [(5, -2), (7, 3)]).left_x ∧
    0 ≤ (placement (accumulate [(5, -2), (7, 3)]).left_x (accumulate [(5, -2), (7, 3)]).upper_y
          ([((5 : ℤ), (-2 : ℤ)), (7, 3)].map Prod.fst) ([((5 : ℤ), (-2 : ℤ)), (7, 3)].map Prod.snd)
          ([((5 : ℤ), (-2 : ℤ)), (7, 3)].length + 1) 1).2 ∧
    (placement (accumulate [(5, -2), (7, 3)]).left_x (accumulate [(5, -2), (7, 3)]).upper_y
          ([((5 : ℤ), (-2 : ℤ)), (7, 3)].map Prod.fst) ([((5 : ℤ), (-2 : ℤ)), (7, 3)].map Prod.snd)
          ([((5 : ℤ), (-2 : ℤ)), (7, 3)].length + 1) 1).2 + 10 ≤
      10 + (accumulate [(5, -2), (7, 3)]).lower_y - (accumulate [(5, -2), (7, 3)]).upper_y) :=
  ⟨by decide, placement_inside_canvas [(5, -2), (7, 3)] 20 10 1 (by decide)⟩
/-! ## Floating point lemmas -/

theorem roundHalfEven_sub_le (q : ℚ) : |(roundHalfEven q : ℚ) - q| ≤ 1/2 := by
  have h1 := Int.floor_le q
  have h2 := Int.lt_floor_add_one q
  unfold roundHalfEven
  simp only
  split_ifs with ha hb hc
  · rw [abs_le]; constructor <;> linarith
  · rw [abs_le]; push_cast; constructor <;> linarith
  · rw [abs_le]; constructor <;> linarith
  · rw [abs_le]; push_cast; constructor <;> linarith

theorem roundHalfEven_eq_of_near (q : ℚ) (m : ℤ) (h : |q - m| < 1/2) : roundHalfEven q = m := by
  rw [abs_lt] at h
  obtain ⟨h1, h2⟩ := h
  have hf : ⌊q⌋ = m ∨ ⌊q⌋ = m - 1 := by
    rcases le_or_lt (m : ℚ) q with hq | hq
    · left; rw [Int.floor_eq_iff]; constructor <;> linarith
    · right; rw [Int.floor_eq_iff]; push_cast; constructor <;> linarith
  unfold roundHalfEven
  simp only
  rcases hf with hf | hf
  · rw [hf]; rw [if_pos]; linarith
  · rw [hf]; push_cast
    rw [if_neg (by linarith), if_pos (by linarith)]; ring

theorem fpRound_zero (p : ℕ) (emin : ℤ) : fpRound p emin 0 = 0 := by
  simp [fpRound]

theorem fpRound_eq_of (p : ℕ) (emin : ℤ) (q : ℚ) (e m : ℤ)
    (hlo : (2:ℚ) ^ e ≤ |q|) (hhi : |q| < (2:ℚ) ^ (e + 1)) (he : emin ≤ e)
    (hm : |q / 2 ^ (e - ((p : ℤ) - 1)) - m| < 1/2) :
    fpRound p emin q = m * 2 ^ (e - ((p : ℤ) - 1)) := by
  have hpos : 0 < |q| := lt_of_lt_of_le (by positivity) hlo
  have hq : q ≠ 0 := abs_pos.mp hpos
  have hlog : Int.log 2 |q| = e := by
    apply le_antisymm
    · have := (Int.lt_zpow_iff_log_lt (R := ℚ) (b := 2) (by norm_num) hpos (x := e + 1)).mp
        (by exact_mod_cast hhi)
      omega
    · exact (Int.zpow_le_iff_le_log (R := ℚ) (b := 2) (by norm_num) hpos).mp (by exact_mod_cast hlo)
  unfold fpRound
  rw [if_neg hq]
  simp only [hlog, max_eq_left he]
  rw [roundHalfEven_eq_of_near _ m hm]

theorem fpRound_rel (p : ℕ) (emin : ℤ) (q : ℚ) (h : (2:ℚ) ^ emin ≤ |q|) :
    |fpRound p emin q - q| ≤ 2 ^ (-(p : ℤ)) * |q| := by
  have hpos : 0 < |q| := lt_of_lt_of_le (by positivity) h
  have hq : q ≠ 0 := abs_pos.mp hpos
  have hle : emin ≤ Int.log 2 |q| :=
    (Int.zpow_le_iff_le_log (R := ℚ) (b := 2) (by norm_num) hpos).mp (by exact_mod_cast h)
  have hlog : (2:ℚ) ^ (Int.log 2 |q|) ≤ |q| := by
    have := Int.zpow_log_le_self (R := ℚ) (b := 2) (by norm_num) hpos
    exact_mod_cast this
  unfold fpRound
  rw [if_neg hq]
  simp only [max_eq_left hle]
  set e := Int.log 2 |q| with he
  set ulp : ℚ := 2 ^ (e - ((p : ℤ) - 1)) with hulp
  have hu : 0 < ulp := by positivity
  have h1 := roundHalfEven_sub_le (q / ulp)
  have h2 : (roundHalfEven (q / ulp) : ℚ) * ulp - q =
      ((roundHalfEven (q / ulp) : ℚ) - q / ulp) * ulp := by
    field_simp
  rw [h2, abs_mul, abs_of_pos hu]
  have h3 : ulp = 2 ^ (-(p:ℤ)) * (2 * 2 ^ e) := by
    rw [hulp, ← zpow_one_add₀ (by norm_num : (2:ℚ) ≠ 0), ← zpow_add₀ (by norm_num : (2:ℚ) ≠ 0)]
    congr 1; ring
  calc |(roundHalfEven (q / ulp) : ℚ) - q / ulp| * ulp ≤ 1/2 * ulp := by
        exact mul_le_mul_of_nonneg_right h1 hu.le
    _ = 2 ^ (-(p:ℤ)) * 2 ^ e := by rw [h3]; ring
    _ ≤ 2 ^ (-(p:ℤ)) * |q| := by
        exact mul_le_mul_of_nonneg_left hlog (by positivity)

/-- The unit roundoff of binary64. -/
theorem rnd64_bounds (x : ℚ) (hx : x = 0 ∨ (1 : ℚ) / 2 ^ 1022 ≤ x) :
    x * (1 - 1 / 2 ^ 53) ≤ rnd64 x ∧ rnd64 x ≤ x * (1 + 1 / 2 ^ 53) := by
  rcases hx with rfl | hx
  · simp [rnd64, fpRound_zero]
  · have hpos : 0 < x := lt_of_lt_of_le (by positivity) hx
    have h := fpRound_rel 53 (-1022) x (by
      rw [abs_of_pos hpos]
      calc (2:ℚ) ^ (-1022 : ℤ) = 1 / 2 ^ 1022 := by
            rw [zpow_neg, one_div]; norm_cast
        _ ≤ x := hx)
    rw [abs_of_pos hpos, abs_le] at h
    have hu : (2:ℚ) ^ (-((53 : ℕ) : ℤ)) = 1 / 2 ^ 53 := by
      rw [zpow_neg, one_div]; norm_cast
    rw [hu] at h
    unfold rnd64
    constructor <;> nlinarith [h.1, h.2]

theorem rnd64_six_tenths : rnd64 (6 / 10) = 5404319552844595 / 9007199254740992 := by
  have := fpRound_eq_of 53 (-1022) (6/10) (-1) 5404319552844595
    (by norm_num [abs_of_pos]) (by norm_num [abs_of_pos]) (by norm_num)
    (by rw [abs_lt]; constructor <;> norm_num)
  rw [rnd64, this]; norm_num

theorem roundHalfAway_piece (n : ℤ) (h0 : 0 ≤ n) (h1 : n < 2 ^ 31) :
    roundHalfAway (rnd64 ((n : ℚ) * rnd64 (6 / 10))) = (6 * n + 5) / 10 := by
  rw [rnd64_six_tenths]
  have hn0 : (0 : ℚ) ≤ n := by exact_mod_cast h0
  have hn1 : (n : ℚ) < 2 ^ 31 := by exact_mod_cast h1
  set x : ℚ := (n : ℚ) * (5404319552844595 / 9007199254740992) with hx
  have hxz : x = 0 ∨ (1 : ℚ) / 2 ^ 1022 ≤ x := by
    rcases eq_or_lt_of_le h0 with h | h
    · left; rw [hx, ← h]; simp
    · right
      have : (1 : ℚ) ≤ n := by exact_mod_cast h
      have h2 : (1 : ℚ) / 2 ^ 1022 ≤ 1 / 2 := by
        apply one_div_le_one_div_of_le (by norm_num)
        calc (2 : ℚ) = 2 ^ 1 := by norm_num
          _ ≤ 2 ^ 1022 := pow_le_pow_right₀ (by norm_num) (by norm_num)
      rw [hx]; nlinarith
  obtain ⟨hlo, hhi⟩ := rnd64_bounds x hxz
  set y := rnd64 x with hy
  have hxlo : (n : ℚ) * (6/10) - 1 / 2 ^ 22 ≤ x := by rw [hx]; nlinarith
  have hxhi : x ≤ (n : ℚ) * (6/10) := by rw [hx]; nlinarith
  have hx0 : 0 ≤ x := by rw [hx]; positivity
  have hxb : x ≤ 2 ^ 31 := by nlinarith
  have hylo : (n : ℚ) * (6/10) - 1 / 2 ^ 20 ≤ y := by nlinarith
  have hyhi : y ≤ (n : ℚ) * (6/10) + 1 / 2 ^ 20 := by nlinarith
  have hy0 : 0 ≤ y := by
    have : 0 ≤ x * (1 - 1 / 2 ^ 53) := mul_nonneg hx0 (by norm_num)
    linarith
  unfold roundHalfAway
  rw [if_pos hy0, Int.floor_eq_iff]
  have hk1 : 10 * ((6 * n + 5) / 10) + 1 ≤ 6 * n + 5 := by omega
  have hk2 : 6 * n + 5 ≤ 10 * ((6 * n + 5) / 10) + 9 := by omega
  have hk1q : (10 : ℚ) * (((6 * n + 5) / 10 : ℤ) : ℚ) + 1 ≤ 6 * n + 5 := by exact_mod_cast hk1
  have hk2q : (6 : ℚ) * n + 5 ≤ 10 * (((6 * n + 5) / 10 : ℤ) : ℚ) + 9 := by exact_mod_cast hk2
  constructor
  · norm_num at hylo hyhi ⊢; linarith
  · norm_num at hylo hyhi ⊢; linarith

/-! ## The seam -/

theorem seamAt_smooth_end (width : ℤ) (i : ℕ) (prev : ℤ) :
    (seamAt width i prev).smooth_end = (seamAt width i prev).curr_piece_left := by
  simp only [seamAt]; ring

theorem seamAt_pos (width : ℤ) (i : ℕ) (prev : ℤ) (hi : 0 < i) (h0 : 0 ≤ width - prev)
    (h1 : width - prev < 2 ^ 31) :
    (seamAt width i prev).curr_piece_left = (6 * (width - prev) + 5) / 10 ∧
    (seamAt width i prev).curr_junction = (width - prev) / 2 ∧
    (seamAt width i prev).smooth_half_span =
      (6 * (width - prev) + 5) / 10 - (width - prev) / 2 ∧
    (seamAt width i prev).smooth_start =
      2 * ((width - prev) / 2) - (6 * (width - prev) + 5) / 10 ∧
    (seamAt width i prev).smooth_end = (6 * (width - prev) + 5) / 10 := by
  have hc := roundHalfAway_piece (width - prev) h0 h1
  have hj : Int.tdiv (width - prev) 2 = (width - prev) / 2 :=
    Int.tdiv_eq_ediv h0 (by norm_num)
  simp only [seamAt, if_pos hi, hc, hj]
  refine ⟨trivial, trivial, trivial, by ring, by ring⟩

theorem seamAt_zero (width prev : ℤ) :
    (seamAt width 0 prev).curr_piece_left = 0 ∧ (seamAt width 0 prev).smooth_start = 0 ∧
    (seamAt width 0 prev).smooth_end = 0 := by
  simp [seamAt]

theorem mem_intRange (a b c : ℤ) : c ∈ intRange a b ↔ a ≤ c ∧ c < b := by
  simp only [intRange, List.mem_map, List.mem_range]
  constructor
  · rintro ⟨k, hk, rfl⟩; omega
  · rintro ⟨h1, h2⟩; exact ⟨(c - a).toNat, by omega, by omega⟩

/-! ## The blend and the paste of one image -/

theorem blendAt_size (V : Vision) (ch : ℕ) (mat : Mat) (sm : Seam) (cx cy : ℤ) (cv : Mat)
    (r c : ℤ) :
    (blendAt V ch mat sm cx cy cv r c).rows = cv.rows ∧
    (blendAt V ch mat sm cx cy cv r c).cols = cv.cols ∧
    (blendAt V ch mat sm cx cy cv r c).channels = cv.channels := by
  simp [blendAt, Mat.set]

theorem blendAt_px_of_ne (V : Vision) (ch : ℕ) (mat : Mat) (sm : Seam) (cx cy : ℤ) (cv : Mat)
    (r c y x : ℤ) (h : x ≠ cx + c) :
    (blendAt V ch mat sm cx cy cv r c).px y x = cv.px y x := by
  simp [blendAt, Mat.set, h]

theorem blendRow_frame (V : Vision) (ch : ℕ) (mat : Mat) (sm : Seam) (cx cy r y x : ℤ)
    (L : List ℤ) (hL : ∀ c ∈ L, x ≠ cx + c) (cv : Mat) :
    (L.foldl (fun cv c => blendAt V ch mat sm cx cy cv r c) cv).px y x = cv.px y x ∧
    (L.foldl (fun cv c => blendAt V ch mat sm cx cy cv r c) cv).rows = cv.rows ∧
    (L.foldl (fun cv c => blendAt V ch mat sm cx cy cv r c) cv).cols = cv.cols ∧
    (L.foldl (fun cv c => blendAt V ch mat sm cx cy cv r c) cv).channels = cv.channels := by
  induction L generalizing cv with
  | nil => simp
  | cons c L ih =>
    have h1 := ih (fun c' hc' => hL c' (List.mem_cons_of_mem _ hc'))
      (blendAt V ch mat sm cx cy cv r c)
    have h2 := blendAt_size V ch mat sm cx cy cv r c
    simp only [List.foldl_cons]
    rw [h1.1, h1.2.1, h1.2.2.1, h1.2.2.2,
      blendAt_px_of_ne V ch mat sm cx cy cv r c y x (hL c (List.mem_cons_self _ _))]
    exact ⟨rfl, h2.1, h2.2.1, h2.2.2⟩

theorem blendRows_frame (V : Vision) (ch : ℕ) (mat : Mat) (sm : Seam) (cx cy y x : ℤ)
    (L : List ℤ) (hL : ∀ c ∈ L, x ≠ cx + c) (R : List ℤ) (cv : Mat) :
    (R.foldl (fun cv r => L.foldl (fun cv c => blendAt V ch mat sm cx cy cv r c) cv) cv).px y x
      = cv.px y x ∧
    (R.foldl (fun cv r => L.foldl (fun cv c => blendAt V ch mat sm cx cy cv r c) cv) cv).rows
      = cv.rows ∧
    (R.foldl (fun cv r => L.foldl (fun cv c => blendAt V ch mat sm cx cy cv r c) cv) cv).cols
      = cv.cols ∧
    (R.foldl (fun cv r => L.foldl (fun cv c => blendAt V ch mat sm cx cy cv r c) cv) cv).channels
      = cv.channels := by
  induction R generalizing cv with
  | nil => simp
  | cons r R ih =>
    have h1 := ih (L.foldl (fun cv c => blendAt V ch mat sm cx cy cv r c) cv)
    have h2 := blendRow_frame V ch mat sm cx cy r y x L hL cv
    simp only [List.foldl_cons]
    rw [h1.1, h1.2.1, h1.2.2.1, h1.2.2.2]
    exact h2

/-- The blend loops write only columns `curr_x + c` with `smooth_start ≤ c < smooth_end`. -/
theorem blendSeam_frame (V : Vision) (ch : ℕ) (mat : Mat) (sm : Seam) (height cx cy : ℤ)
    (canvas : Mat) (y x : ℤ) (h : x < cx + sm.smooth_start ∨ cx + sm.smooth_end ≤ x) :
    (blendSeam V ch mat sm height cx cy canvas).px y x = canvas.px y x := by
  refine (blendRows_frame V ch mat sm cx cy y x _ ?_ _ canvas).1
  intro c hc
  rw [mem_intRange] at hc
  omega

theorem blendSeam_size (V : Vision) (ch : ℕ) (mat : Mat) (sm : Seam) (height cx cy : ℤ)
    (canvas : Mat) :
    (blendSeam V ch mat sm height cx cy canvas).rows = canvas.rows ∧
    (blendSeam V ch mat sm height cx cy canvas).cols = canvas.cols ∧
    (blendSeam V ch mat sm height cx cy canvas).channels = canvas.channels := by
  have h := blendRows_frame V ch mat sm cx cy 0 (cx + sm.smooth_start - 1)
    (intRange sm.smooth_start sm.smooth_end)
    (by intro c hc; rw [mem_intRange] at hc; omega) (intRange 0 height) canvas
  exact h.2

theorem stitchCanvas_size (V : Vision) (ch : ℕ) (mat : Mat) (sm : Seam)
    (width height cx cy : ℤ) (canvas : Mat) :
    (stitchCanvas V ch mat sm width height cx cy canvas).rows = canvas.rows ∧
    (stitchCanvas V ch mat sm width height cx cy canvas).cols = canvas.cols ∧
    (stitchCanvas V ch mat sm width height cx cy canvas).channels = canvas.channels := by
  simpa [stitchCanvas, paste] using blendSeam_size V ch mat sm height cx cy canvas

/-- C5. Blend locality: for an image `i > 0` whose shift `s` from the previous image
satisfies `0 ≤ s ≤ W`, the blend and paste of the image leave every canvas pixel in a
column left of `curr_x + smooth_start` unchanged, set every canvas pixel of an image row in
a column `curr_x + c` with `smooth_end ≤ c < W` to the material pixel `(r, c)`, and
`smooth_end` equals `curr_piece_left`. -/
theorem blend_locality (V : Vision) (channels : ℕ) (mat canvas : Mat)
    (W H curr_x curr_y : ℤ) (i : ℕ) (s : ℤ)
    (hi : 0 < i) (hs0 : 0 ≤ s) (hsW : s ≤ W) (hW : W < 2 ^ 31) :
    (∀ y x, x < curr_x + (seamAt W i s).smooth_start →
      (stitchCanvas V channels mat (seamAt W i s) W H curr_x curr_y canvas).px y x
        = canvas.px y x) ∧
    (∀ r c, 0 ≤ r → r < H → (seamAt W i s).smooth_end ≤ c → c < W →
      (stitchCanvas V channels mat (seamAt W i s) W H curr_x curr_y canvas).px
        (curr_y + r) (curr_x + c) = mat.px r c) ∧
    (seamAt W i s).smooth_end = (seamAt W i s).curr_piece_left := by
  obtain ⟨hcpl, hj, hh, hst, hen⟩ := seamAt_pos W i s hi (by omega) (by omega)
  refine ⟨?_, ?_, seamAt_smooth_end W i s⟩
  · intro y x hx
    have hlt : ¬ (curr_x + (seamAt W i s).curr_piece_left ≤ x) := by
      rw [hst] at hx; rw [hcpl]; omega
    simp only [stitchCanvas, paste]
    rw [if_neg (by tauto)]
    exact blendSeam_frame V channels mat _ H curr_x curr_y canvas y x (Or.inl hx)
  · intro r c hr0 hr1 hc0 hc1
    rw [seamAt_smooth_end] at hc0
    simp only [stitchCanvas, paste]
    rw [if_pos (by omega)]
    ring_nf

/-- Witness of C5: the second image of width 100 with shift 50, where the seam is
`smooth_start = 20`, `smooth_end = curr_piece_left = 30`. -/
theorem blend_locality_witness :
    (0 < 1 ∧ (0 : ℤ) ≤ 50 ∧ (50 : ℤ) ≤ 100 ∧ (100 : ℤ) < 2 ^ 31) ∧
    ((∀ y x, x < 7 + (seamAt 100 1 50).smooth_start →
      (stitchCanvas Vision.sample 1 (Mat.const 40 100 1 9) (seamAt 100 1 50) 100 40 7 3
        (Mat.const 60 200 1 4)).px y x = (Mat.const 60 200 1 4).px y x) ∧
    (∀ r c, 0 ≤ r → r < 40 → (seamAt 100 1 50).smooth_end ≤ c → c < 100 →
      (stitchCanvas Vision.sample 1 (Mat.const 40 100 1 9) (seamAt 100 1 50) 100 40 7 3
        (Mat.const 60 200 1 4)).px (3 + r) (7 + c) = (Mat.const 40 100 1 9).px r c) ∧
    (seamAt 100 1 50).smooth_end = (seamAt 100 1 50).curr_piece_left) :=
  ⟨⟨by decide, by decide, by decide, by norm_num⟩,
   blend_locality Vision.sample 1 (Mat.const 40 100 1 9) (Mat.const 60 200 1 4) 100 40 7 3 1 50
    (by decide) (by decide) (by decide) (by norm_num)⟩

theorem seamAt_example : (seamAt 100 1 50).smooth_start = 20 ∧ (seamAt 100 1 50).smooth_end = 30 ∧
    (seamAt 100 1 50).smooth_span = 10 := by
  obtain ⟨hcpl, hj, hh, hst, hen⟩ := seamAt_pos 100 1 50 (by decide) (by norm_num) (by norm_num)
  refine ⟨by rw [hst]; norm_num, by rw [hen]; norm_num, ?_⟩
  simp only [seamAt] at hh ⊢
  rw [hh]; norm_num

/-! ## The single-channel blend -/

theorem blend_chain (u a b p q s m M o c : ℚ)
    (hu0 : 0 ≤ u) (hu1 : u ≤ 1 / 1000) (ha0 : 0 ≤ a) (ha1 : a ≤ 1)
    (hb0 : (1 - a) * (1 - u) ≤ b) (hb1 : b ≤ (1 - a) * (1 + u))
    (hp0 : o * b * (1 - u) ≤ p) (hp1 : p ≤ o * b * (1 + u))
    (hq0 : c * a * (1 - u) ≤ q) (hq1 : q ≤ c * a * (1 + u))
    (hs0 : (p + q) * (1 - u) ≤ s) (hs1 : s ≤ (p + q) * (1 + u))
    (hm0 : 0 ≤ m) (hmo : m ≤ o) (hmc : m ≤ c) (hoM : o ≤ M) (hcM : c ≤ M) (hM : M ≤ 255) :
    0 ≤ s ∧ m - 1 < s ∧ s < M + 1 := by
  have h1u : 0 ≤ 1 - u := by linarith
  have h1a : 0 ≤ 1 - a := by linarith
  have hb : 0 ≤ b := le_trans (mul_nonneg h1a h1u) hb0
  have ho : 0 ≤ o := le_trans hm0 hmo
  have hc : 0 ≤ c := le_trans hm0 hmc
  have hM0 : 0 ≤ M := le_trans ho hoM
  have hau : 0 ≤ a * u := mul_nonneg ha0 hu0
  -- the exact blend lies between m (1 - u) and M (1 + u)
  have hba1 : b + a ≤ 1 + u := by linarith
  have hba0 : 1 - u ≤ b + a := by linarith
  have hA1 : o * b + c * a ≤ M * (1 + u) := by
    have h1 : o * b ≤ M * b := mul_le_mul_of_nonneg_right hoM hb
    have h2 : c * a ≤ M * a := mul_le_mul_of_nonneg_right hcM ha0
    have h3 : M * (b + a) ≤ M * (1 + u) := mul_le_mul_of_nonneg_left hba1 hM0
    linarith
  have hA0 : m * (1 - u) ≤ o * b + c * a := by
    have h1 : m * b ≤ o * b := mul_le_mul_of_nonneg_right hmo hb
    have h2 : m * a ≤ c * a := mul_le_mul_of_nonneg_right hmc ha0
    have h3 : m * (1 - u) ≤ m * (b + a) := mul_le_mul_of_nonneg_left hba0 hm0
    linarith
  have hA : 0 ≤ o * b + c * a := le_trans (mul_nonneg hm0 h1u) hA0
  have hpq1 : p + q ≤ M * (1 + u) * (1 + u) := by
    have h1 : (o * b + c * a) * (1 + u) ≤ M * (1 + u) * (1 + u) :=
      mul_le_mul_of_nonneg_right hA1 (by linarith)
    have h2 : p + q ≤ (o * b + c * a) * (1 + u) := by linarith
    linarith
  have hpq0 : m * (1 - u) * (1 - u) ≤ p + q := by
    have h1 : m * (1 - u) * (1 - u) ≤ (o * b + c * a) * (1 - u) :=
      mul_le_mul_of_nonneg_right hA0 h1u
    have h2 : (o * b + c * a) * (1 - u) ≤ p + q := by linarith
    linarith
  have hpq : 0 ≤ p + q := le_trans (mul_nonneg (mul_nonneg hm0 h1u) h1u) hpq0
  have hs1' : s ≤ M * (1 + u) * (1 + u) * (1 + u) := by
    have h1 : (p + q) * (1 + u) ≤ M * (1 + u) * (1 + u) * (1 + u) :=
      mul_le_mul_of_nonneg_right hpq1 (by linarith)
    linarith
  have hs0' : m * (1 - u) * (1 - u) * (1 - u) ≤ s := by
    have h1 : m * (1 - u) * (1 - u) * (1 - u) ≤ (p + q) * (1 - u) :=
      mul_le_mul_of_nonneg_right hpq0 h1u
    linarith
  have hmM : m ≤ M := le_trans hmo hoM
  have hu2 : u * u ≤ u * (1 / 1000) := mul_le_mul_of_nonneg_left hu1 hu0
  have hu3 : u * u * u ≤ u * (1 / 1000) * (1 / 1000) :=
    le_trans (mul_le_mul_of_nonneg_right hu2 hu0)
      (mul_le_mul_of_nonneg_left hu1 (mul_nonneg hu0 (by norm_num)))
  have huu : 0 ≤ u * u := mul_nonneg hu0 hu0
  have huuu : 0 ≤ u * u * u := mul_nonneg huu hu0
  refine ⟨le_trans (mul_nonneg hpq h1u) hs0, ?_, ?_⟩
  · have e : m * (1 - u) * (1 - u) * (1 - u) = m - m * (3 * u - 3 * (u * u) + u * u * u) := by
      ring
    have hk : 3 * u - 3 * (u * u) + u * u * u ≤ 31 / 10000 := by linarith
    have hk0 : 0 ≤ 3 * u - 3 * (u * u) + u * u * u := by linarith
    have : m * (3 * u - 3 * (u * u) + u * u * u) ≤ 255 * (31 / 10000) := by
      calc m * (3 * u - 3 * (u * u) + u * u * u) ≤ 255 * (3 * u - 3 * (u * u) + u * u * u) :=
            mul_le_mul_of_nonneg_right (by linarith) hk0
        _ ≤ 255 * (31 / 10000) := mul_le_mul_of_nonneg_left hk (by norm_num)
    rw [e] at hs0'
    norm_num at this
    linarith
  · have e : M * (1 + u) * (1 + u) * (1 + u) = M + M * (3 * u + 3 * (u * u) + u * u * u) := by
      ring
    have hk : 3 * u + 3 * (u * u) + u * u * u ≤ 31 / 10000 := by linarith
    have hk0 : 0 ≤ 3 * u + 3 * (u * u) + u * u * u := by linarith
    have : M * (3 * u + 3 * (u * u) + u * u * u) ≤ 255 * (31 / 10000) := by
      calc M * (3 * u + 3 * (u * u) + u * u * u) ≤ 255 * (3 * u + 3 * (u * u) + u * u * u) :=
            mul_le_mul_of_nonneg_right hM hk0
        _ ≤ 255 * (31 / 10000) := mul_le_mul_of_nonneg_left hk (by norm_num)
    rw [e] at hs1'
    norm_num at this
    linarith

theorem tiny_le : (1 : ℚ) / 2 ^ 1022 ≤ 1 / 2 ^ 40 :=
  one_div_le_one_div_of_le (by positivity) (pow_le_pow_right₀ (by norm_num) (by norm_num))

theorem rnd64_pos_bounds (x : ℚ) (hx : x = 0 ∨ (1 : ℚ) / 2 ^ 39 ≤ x) :
    x * (1 - 1 / 2 ^ 53) ≤ rnd64 x ∧ rnd64 x ≤ x * (1 + 1 / 2 ^ 53) ∧
    (rnd64 x = 0 ∨ (1 : ℚ) / 2 ^ 40 ≤ rnd64 x) := by
  have h := rnd64_bounds x (by
    rcases hx with h | h
    · exact Or.inl h
    · right
      have : (1 : ℚ) / 2 ^ 40 ≤ 1 / 2 ^ 39 := by norm_num
      linarith [tiny_le])
  refine ⟨h.1, h.2, ?_⟩
  rcases hx with rfl | hx
  · left; simp [rnd64, fpRound_zero]
  · right
    have : (1 : ℚ) / 2 ^ 39 * (1 - 1 / 2 ^ 53) ≤ x * (1 - 1 / 2 ^ 53) :=
      mul_le_mul_of_nonneg_right hx (by norm_num)
    have h2 : (1 : ℚ) / 2 ^ 40 ≤ 1 / 2 ^ 39 * (1 - 1 / 2 ^ 53) := by norm_num
    linarith [h.1]

/-- The weight and the blended value of one column, `k` columns into a seam of `span`
columns. -/
theorem blendTmp_bounds (k span : ℤ) (old cur : ℕ) (hk0 : 0 ≤ k) (hk : k < span)
    (hspan : span ≤ 2 ^ 32) (hold : old ≤ 255) (hcur : cur ≤ 255) :
    0 ≤ rnd64 ((k : ℚ) / (span : ℚ)) ∧ rnd64 ((k : ℚ) / (span : ℚ)) < 1 ∧
    ((min old cur : ℕ) : ℤ) - 1 ≤ blendTmp old cur (rnd64 ((k : ℚ) / (span : ℚ))) ∧
    blendTmp old cur (rnd64 ((k : ℚ) / (span : ℚ))) ≤ ((max old cur : ℕ) : ℤ) ∧
    0 ≤ blendTmp old cur (rnd64 ((k : ℚ) / (span : ℚ))) := by
  have hsp : (0 : ℚ) < span := by exact_mod_cast (lt_of_le_of_lt hk0 hk)
  have hsp1 : (span : ℚ) ≤ 2 ^ 32 := by exact_mod_cast hspan
  have hinv : (1 : ℚ) / 2 ^ 32 ≤ 1 / span := one_div_le_one_div_of_le hsp hsp1
  set x : ℚ := (k : ℚ) / (span : ℚ) with hx
  have hx0 : 0 ≤ x := div_nonneg (by exact_mod_cast hk0) hsp.le
  have hx1 : x ≤ 1 - 1 / 2 ^ 32 := by
    have h1 : (k : ℚ) ≤ span - 1 := by exact_mod_cast (by omega : k ≤ span - 1)
    have h2 : x ≤ (span - 1) / span := div_le_div_of_nonneg_right h1 hsp.le
    have h3 : ((span : ℚ) - 1) / span = 1 - 1 / span := by field_simp
    linarith
  have hxz : x = 0 ∨ (1 : ℚ) / 2 ^ 39 ≤ x := by
    rcases eq_or_lt_of_le hk0 with h | h
    · left; rw [hx, ← h]; simp
    · right
      have h1 : (1 : ℚ) ≤ k := by exact_mod_cast h
      have h2 : 1 / (span : ℚ) ≤ x := div_le_div_of_nonneg_right h1 hsp.le
      have h3 : (1 : ℚ) / 2 ^ 39 ≤ 1 / 2 ^ 32 := by norm_num
      linarith
  obtain ⟨ha0, ha1, haz⟩ := rnd64_pos_bounds x hxz
  set a := rnd64 x with ha
  have hu1 : (0 : ℚ) ≤ 1 - 1 / 2 ^ 53 := by norm_num
  have hu2 : (0 : ℚ) ≤ 1 + 1 / 2 ^ 53 := by norm_num
  have hapos : 0 ≤ a := le_trans (mul_nonneg hx0 hu1) ha0
  have hale : a ≤ 1 - 1 / 2 ^ 33 := by
    have h1 : x * (1 + 1 / 2 ^ 53) ≤ (1 - 1 / 2 ^ 32) * (1 + 1 / 2 ^ 53) :=
      mul_le_mul_of_nonneg_right hx1 hu2
    have h2 : ((1 : ℚ) - 1 / 2 ^ 32) * (1 + 1 / 2 ^ 53) ≤ 1 - 1 / 2 ^ 33 := by norm_num
    linarith
  have halt : a < 1 := by
    have : (0 : ℚ) < 1 / 2 ^ 33 := by norm_num
    linarith
  -- the weight of the old pixel
  obtain ⟨hb0, hb1, hbz⟩ := rnd64_pos_bounds (1 - a) (Or.inr (by
    have : (1 : ℚ) / 2 ^ 39 ≤ 1 / 2 ^ 33 := by norm_num
    linarith))
  set b := rnd64 (1 - a) with hb
  have hbpos : (1 : ℚ) / 2 ^ 40 ≤ b := by
    rcases hbz with h | h
    · exfalso
      have h1 : (1 : ℚ) / 2 ^ 33 * (1 - 1 / 2 ^ 53) ≤ (1 - a) * (1 - 1 / 2 ^ 53) :=
        mul_le_mul_of_nonneg_right (by linarith) hu1
      have h2 : (0 : ℚ) < 1 / 2 ^ 33 * (1 - 1 / 2 ^ 53) := by norm_num
      linarith
    · exact h
  have hold0 : (0 : ℚ) ≤ old := Nat.cast_nonneg _
  have hcur0 : (0 : ℚ) ≤ cur := Nat.cast_nonneg _
  -- the two products
  have hobz : (old : ℚ) * b = 0 ∨ (1 : ℚ) / 2 ^ 39 ≤ (old : ℚ) * b := by
    rcases Nat.eq_zero_or_pos old with h | h
    · left; rw [h]; simp
    · right
      have h1 : (1 : ℚ) ≤ old := by exact_mod_cast h
      have h2 : 1 * b ≤ (old : ℚ) * b :=
        mul_le_mul_of_nonneg_right h1 (le_trans (by norm_num) hbpos)
      have h3 : (1 : ℚ) / 2 ^ 39 ≤ 1 / 2 ^ 40 * 2 := by norm_num
      have h4 : (1 : ℚ) / 2 ^ 33 * (1 - 1 / 2 ^ 53) ≤ (1 - a) * (1 - 1 / 2 ^ 53) :=
        mul_le_mul_of_nonneg_right (by linarith) hu1
      have h5 : (1 : ℚ) / 2 ^ 39 ≤ 1 / 2 ^ 33 * (1 - 1 / 2 ^ 53) := by norm_num
      linarith
  obtain ⟨hp0, hp1, hpz⟩ := rnd64_pos_bounds ((old : ℚ) * b) hobz
  have hcaz : (cur : ℚ) * a = 0 ∨ (1 : ℚ) / 2 ^ 39 ≤ (cur : ℚ) * a := by
    rcases Nat.eq_zero_or_pos cur with h | h
    · left; rw [h]; simp
    · rcases hxz with hz | hz
      · left
        have : a = 0 := by
          rw [hz] at ha0 ha1
          simp at ha0 ha1
          exact le_antisymm ha1 ha0
        rw [this]; simp
      · right
        have h1 : (1 : ℚ) ≤ cur := by exact_mod_cast h
        have h2 : 1 * a ≤ (cur : ℚ) * a := mul_le_mul_of_nonneg_right h1 hapos
        have h3 : (1 : ℚ) / 2 ^ 39 * (1 - 1 / 2 ^ 53) ≤ x * (1 - 1 / 2 ^ 53) :=
          mul_le_mul_of_nonneg_right hz hu1
        have h4 : (1 : ℚ) / 2 ^ 40 ≤ 1 / 2 ^ 39 * (1 - 1 / 2 ^ 53) := by norm_num
        have hx32 : (1 : ℚ) / 2 ^ 32 ≤ x := by
          rcases eq_or_lt_of_le hk0 with h' | h'
          · exfalso
            have : x = 0 := by rw [hx, ← h']; simp
            rw [this] at hz
            norm_num at hz
          · have h1' : (1 : ℚ) ≤ k := by exact_mod_cast h'
            have h2' : 1 / (span : ℚ) ≤ x := div_le_div_of_nonneg_right h1' hsp.le
            linarith
        have h5 : (1 : ℚ) / 2 ^ 32 * (1 - 1 / 2 ^ 53) ≤ x * (1 - 1 / 2 ^ 53) :=
          mul_le_mul_of_nonneg_right hx32 hu1
        have h6 : (1 : ℚ) / 2 ^ 39 ≤ 1 / 2 ^ 32 * (1 - 1 / 2 ^ 53) := by norm_num
        linarith
  obtain ⟨hq0, hq1, hqz⟩ := rnd64_pos_bounds ((cur : ℚ) * a) hcaz
  set p := rnd64 ((old : ℚ) * b) with hp
  set q := rnd64 ((cur : ℚ) * a) with hq
  have hppos : 0 ≤ p := by
    rcases hpz with h | h
    · rw [h]
    · exact le_trans (by norm_num) h
  have hqpos : 0 ≤ q := by
    rcases hqz with h | h
    · rw [h]
    · exact le_trans (by norm_num) h
  have hpqz : p + q = 0 ∨ (1 : ℚ) / 2 ^ 1022 ≤ p + q := by
    rcases hpz with h | h
    · rcases hqz with h' | h'
      · left; rw [h, h']; simp
      · right; linarith [tiny_le]
    · right; linarith [tiny_le]
  obtain ⟨hs0, hs1⟩ := rnd64_bounds (p + q) hpqz
  set s := rnd64 (p + q) with hs
  have hmin : ((min old cur : ℕ) : ℚ) ≤ old := by exact_mod_cast min_le_left old cur
  have hmin' : ((min old cur : ℕ) : ℚ) ≤ cur := by exact_mod_cast min_le_right old cur
  have hmax : (old : ℚ) ≤ ((max old cur : ℕ) : ℚ) := by exact_mod_cast le_max_left old cur
  have hmax' : (cur : ℚ) ≤ ((max old cur : ℕ) : ℚ) := by exact_mod_cast le_max_right old cur
  have hM : ((max old cur : ℕ) : ℚ) ≤ 255 := by exact_mod_cast max_le hold hcur
  obtain ⟨c0, c1, c2⟩ := blend_chain (1 / 2 ^ 53) a b p q s (min old cur : ℕ) (max old cur : ℕ)
    old cur (by norm_num) (by norm_num) hapos halt.le hb0 hb1 hp0 hp1 hq0 hq1 hs0 hs1
    (Nat.cast_nonneg _) hmin hmin' hmax hmax' hM
  have hT : blendTmp old cur a = ⌊s⌋ := by
    simp only [blendTmp, truncToInt]
    rw [if_pos c0]
  rw [hT]
  refine ⟨hapos, halt, ?_, ?_, Int.floor_nonneg.mpr c0⟩
  · rw [Int.le_floor]; simp only [Int.cast_sub, Int.cast_one, Int.cast_natCast]; linarith
  · have : ⌊s⌋ < ((max old cur : ℕ) : ℤ) + 1 := by
      rw [Int.floor_lt]; simp only [Int.cast_add, Int.cast_one, Int.cast_natCast]; linarith
    omega

theorem roundHalfEven_tie (m : ℤ) (q : ℚ) (hm : m % 2 = 0) (h : q = m + 1 / 2) :
    roundHalfEven q = m := by
  have hf : ⌊q⌋ = m := by
    rw [Int.floor_eq_iff, h]; constructor <;> linarith
  unfold roundHalfEven
  simp only [hf]
  rw [if_neg (by rw [h]; norm_num), if_neg (by rw [h]; norm_num), if_pos hm]

theorem rnd64_eq_of_round (q : ℚ) (e m : ℤ) (hlo : (2:ℚ) ^ e ≤ |q|)
    (hhi : |q| < (2:ℚ) ^ (e + 1)) (he : -1022 ≤ e)
    (hm : roundHalfEven (q / 2 ^ (e - 52)) = m) :
    rnd64 q = m * 2 ^ (e - 52) := by
  have hpos : 0 < |q| := lt_of_lt_of_le (by positivity) hlo
  have hq : q ≠ 0 := abs_pos.mp hpos
  have hlog : Int.log 2 |q| = e := by
    apply le_antisymm
    · have := (Int.lt_zpow_iff_log_lt (R := ℚ) (b := 2) (by norm_num) hpos (x := e + 1)).mp
        (by exact_mod_cast hhi)
      omega
    · exact (Int.zpow_le_iff_le_log (R := ℚ) (b := 2) (by norm_num) hpos).mp (by exact_mod_cast hlo)
  unfold rnd64 fpRound
  rw [if_neg hq]
  simp only [hlog, max_eq_left he]
  norm_num
  left
  exact_mod_cast hm

theorem rnd64_eq_of (q : ℚ) (e m : ℤ) (hlo : (2:ℚ) ^ e ≤ |q|) (hhi : |q| < (2:ℚ) ^ (e + 1))
    (he : -1022 ≤ e) (hm : |q / 2 ^ (e - 52) - m| < 1/2) :
    rnd64 q = m * 2 ^ (e - 52) :=
  rnd64_eq_of_round q e m hlo hhi he (roundHalfEven_eq_of_near _ m hm)

theorem rnd64_eq_of_tie (q : ℚ) (e m : ℤ) (hlo : (2:ℚ) ^ e ≤ |q|)
    (hhi : |q| < (2:ℚ) ^ (e + 1)) (he : -1022 ≤ e) (hev : m % 2 = 0)
    (hm : q / 2 ^ (e - 52) = m + 1 / 2) :
    rnd64 q = m * 2 ^ (e - 52) :=
  rnd64_eq_of_round q e m hlo hhi he (roundHalfEven_tie m _ hev hm)

/-- The blend of two pixels of value 3 at weight `rnd64 (3 / 10)`: the double
`3 * 0.7 + 3 * 0.3` is `2.9999999999999996`, which `(int)` truncates to 2. -/
theorem blendTmp_three : blendTmp 3 3 (rnd64 (3 / 10)) = 2 := by
  have hA : rnd64 (3 / 10) = 5404319552844595 / 18014398509481984 := by
    rw [rnd64_eq_of (3/10) (-2) 5404319552844595 (by norm_num [abs_of_pos])
      (by norm_num [abs_of_pos]) (by norm_num) (by rw [abs_lt]; constructor <;> norm_num)]
    norm_num
  have hB : rnd64 (1 - 5404319552844595 / 18014398509481984)
      = 3152519739159347 / 4503599627370496 := by
    rw [rnd64_eq_of_tie _ (-1) 6305039478318694 (by norm_num [abs_of_pos])
      (by norm_num [abs_of_pos]) (by norm_num) (by decide) (by norm_num)]
    norm_num
  have hP : rnd64 (((3 : ℕ) : ℚ) * (3152519739159347 / 4503599627370496))
      = 1182194902184755 / 562949953421312 := by
    rw [rnd64_eq_of_tie _ 1 4728779608739020 (by norm_num [abs_of_pos])
      (by norm_num [abs_of_pos]) (by norm_num) (by decide) (by norm_num)]
    norm_num
  have hQ : rnd64 (((3 : ℕ) : ℚ) * (5404319552844595 / 18014398509481984))
      = 2026619832316723 / 2251799813685248 := by
    rw [rnd64_eq_of_tie _ (-1) 8106479329266892 (by norm_num [abs_of_pos])
      (by norm_num [abs_of_pos]) (by norm_num) (by decide) (by norm_num)]
    norm_num
  have hS : rnd64 (1182194902184755 / 562949953421312 + 2026619832316723 / 2251799813685248)
      = 6755399441055743 / 2251799813685248 := by
    rw [rnd64_eq_of _ 1 6755399441055743 (by norm_num [abs_of_pos])
      (by norm_num [abs_of_pos]) (by norm_num) (by rw [abs_lt]; constructor <;> norm_num)]
    norm_num
  simp only [blendTmp, hA, hB, hP, hQ, hS, truncToInt]
  rw [if_pos (by norm_num), Int.floor_eq_iff]
  constructor <;> norm_num

theorem blendAlpha_example : blendAlpha (seamAt 100 1 50) 23 = rnd64 (3 / 10) := by
  obtain ⟨h1, _, h3⟩ := seamAt_example
  simp only [blendAlpha, h1, h3]
  norm_num

/-- C6, as stated, fails: in the seam of an image of width 100 shifted by 50 (columns 20
to 29, span 10), column 23 has weight `0.3`, and blending the pixel values `old = 3` and
`cur = 3` stores 2, which is below `min old cur`. -/
theorem blend_below_minimum :
    (seamAt 100 1 50).smooth_start ≤ 23 ∧ 23 < (seamAt 100 1 50).smooth_end ∧
    blendTmp 3 3 (blendAlpha (seamAt 100 1 50) 23) = 2 ∧
    blendGray 3 3 (blendAlpha (seamAt 100 1 50) 23) = 2 ∧
    ¬ (((min 3 3 : ℕ) : ℤ) ≤ blendTmp 3 3 (blendAlpha (seamAt 100 1 50) 23)) := by
  obtain ⟨h1, h2, _⟩ := seamAt_example
  rw [blendAlpha_example]
  refine ⟨by rw [h1]; norm_num, by rw [h2]; norm_num, blendTmp_three, ?_, ?_⟩
  · simp [blendGray, blendTmp_three]
  · rw [blendTmp_three]; decide

/-- C6, amended. In the single-channel path, for pixel values `old` and `cur` in `0..255`
and every blended column `smooth_start ≤ c < smooth_end`, the weight `alpha` lies in
`[0, 1)` and the value `tmp = (int)(old * (1 - alpha) + cur * alpha)` lies between
`min old cur - 1` and `max old cur` and in `0..255`, so that narrowing it to the 8-bit
pixel does not change it. -/
theorem blend_stays_in_pixel_range (width : ℤ) (i : ℕ) (prev c : ℤ) (old cur : ℕ)
    (hc0 : (seamAt width i prev).smooth_start ≤ c)
    (hc1 : c < (seamAt width i prev).smooth_end)
    (hspan : (seamAt width i prev).smooth_half_span < 2 ^ 31)
    (hold : old ≤ 255) (hcur : cur ≤ 255) :
    0 ≤ blendAlpha (seamAt width i prev) c ∧ blendAlpha (seamAt width i prev) c < 1 ∧
    ((min old cur : ℕ) : ℤ) - 1 ≤ blendTmp old cur (blendAlpha (seamAt width i prev) c) ∧
    blendTmp old cur (blendAlpha (seamAt width i prev) c) ≤ ((max old cur : ℕ) : ℤ) ∧
    0 ≤ blendTmp old cur (blendAlpha (seamAt width i prev) c) ∧
    blendTmp old cur (blendAlpha (seamAt width i prev) c) ≤ 255 ∧
    ((blendGray old cur (blendAlpha (seamAt width i prev) c) : ℕ) : ℤ) =
      blendTmp old cur (blendAlpha (seamAt width i prev) c) := by
  have hs : (seamAt width i prev).smooth_start =
      (seamAt width i prev).curr_junction - (seamAt width i prev).smooth_half_span := by
    simp only [seamAt]
  have he : (seamAt width i prev).smooth_end =
      (seamAt width i prev).curr_junction + (seamAt width i prev).smooth_half_span := by
    simp only [seamAt]
  have hsp : (seamAt width i prev).smooth_span =
      (((seamAt width i prev).smooth_half_span * 2 : ℤ) : ℚ) := by
    simp only [seamAt]
  obtain ⟨h1, h2, h3, h4, h5⟩ := blendTmp_bounds (c - (seamAt width i prev).smooth_start)
    ((seamAt width i prev).smooth_half_span * 2) old cur (by omega) (by omega) (by omega)
    hold hcur
  have hα : blendAlpha (seamAt width i prev) c =
      rnd64 (((c - (seamAt width i prev).smooth_start : ℤ) : ℚ) /
        (((seamAt width i prev).smooth_half_span * 2 : ℤ) : ℚ)) := by
    rw [blendAlpha, hsp]
  rw [hα]
  have hmax : ((max old cur : ℕ) : ℤ) ≤ 255 := by exact_mod_cast max_le hold hcur
  refine ⟨h1, h2, h3, h4, h5, le_trans h4 hmax, ?_⟩
  unfold blendGray
  rw [Int.toNat_of_nonneg (Int.emod_nonneg _ (by norm_num))]
  exact Int.emod_eq_of_lt h5 (by omega)

/-- Witness of C6 (amended): column 23 of the seam of an image of width 100 shifted by
50, with both pixel values 3. -/
theorem blend_stays_in_pixel_range_witness :
    ((seamAt 100 1 50).smooth_start ≤ 23 ∧ 23 < (seamAt 100 1 50).smooth_end ∧
      (seamAt 100 1 50).smooth_half_span < 2 ^ 31 ∧ 3 ≤ 255) ∧
    (0 ≤ blendAlpha (seamAt 100 1 50) 23 ∧ blendAlpha (seamAt 100 1 50) 23 < 1 ∧
    ((min 3 3 : ℕ) : ℤ) - 1 ≤ blendTmp 3 3 (blendAlpha (seamAt 100 1 50) 23) ∧
    blendTmp 3 3 (blendAlpha (seamAt 100 1 50) 23) ≤ ((max 3 3 : ℕ) : ℤ) ∧
    0 ≤ blendTmp 3 3 (blendAlpha (seamAt 100 1 50) 23) ∧
    blendTmp 3 3 (blendAlpha (seamAt 100 1 50) 23) ≤ 255 ∧
    ((blendGray 3 3 (blendAlpha (seamAt 100 1 50) 23) : ℕ) : ℤ) =
      blendTmp 3 3 (blendAlpha (seamAt 100 1 50) 23)) :=
  have h1 : (seamAt 100 1 50).smooth_start ≤ 23 := by rw [seamAt_example.1]; norm_num
  have h2 : 23 < (seamAt 100 1 50).smooth_end := by rw [seamAt_example.2.1]; norm_num
  have h3 : (seamAt 100 1 50).smooth_half_span < 2 ^ 31 := by
    rw [(seamAt_pos 100 1 50 (by decide) (by norm_num) (by norm_num)).2.2.1]; norm_num
  ⟨⟨h1, h2, h3, by decide⟩,
   blend_stays_in_pixel_range 100 1 50 23 3 3 h1 h2 h3 (by decide) (by decide)⟩

/-! ## The stitching loop -/

theorem getAt_of_lt {α : Type} (xs : List α) (i : ℕ) (h : i < xs.length) :
    getAt xs i = .ok xs[i] := by
  simp [getAt, List.getElem?_eq_getElem h]

theorem stitchStep_ok (V : Vision) (st : PanoramicImage) (mats : List Mat) (W H : ℤ)
    (ch N : ℕ) (s s' : Stitch) (i : ℕ)
    (h : stitchStep V st mats W H ch N s i = .ok s') :
    s'.canvas.rows = s.canvas.rows ∧ s'.canvas.cols = s.canvas.cols ∧
    (s'.curr_x, s'.curr_y) = advance st.shift_x st.shift_y N i (s.curr_x, s.curr_y) := by
  unfold stitchStep at h
  cases hm : getAt mats i with
  | error f => rw [hm] at h; simp [bind, Except.bind] at h
  | ok mat =>
    rw [hm] at h
    cases hp : prevShift st.shift_x i with
    | error f => rw [hp] at h; simp [bind, Except.bind] at h
    | ok prev =>
      rw [hp] at h
      simp only [bind, Except.bind] at h
      split_ifs at h with h1 h2 h3 h4
      simp only [Except.ok.injEq] at h
      subst h
      have hs := stitchCanvas_size V ch mat (seamAt W i prev) W H s.curr_x s.curr_y s.canvas
      exact ⟨hs.1, hs.2.1, rfl⟩

theorem stitchLoop_inv (V : Vision) (st : PanoramicImage) (mats : List Mat) (W H : ℤ)
    (ch N : ℕ) (canvas : Mat) (k : ℕ) (s : Stitch)
    (h : (List.range k).foldlM (stitchStep V st mats W H ch N)
      ⟨canvas, -st.left_x, -st.upper_y⟩ = .ok s) :
    s.canvas.rows = canvas.rows ∧ s.canvas.cols = canvas.cols ∧
    (s.curr_x, s.curr_y) = placement st.left_x st.upper_y st.shift_x st.shift_y N k := by
  induction k generalizing s with
  | zero =>
    simp only [List.range_zero, List.foldlM_nil, pure, Except.pure, Except.ok.injEq] at h
    subst h
    simp [placement]
  | succ k ih =>
    rw [List.range_succ, List.foldlM_append] at h
    cases hk : (List.range k).foldlM (stitchStep V st mats W H ch N)
        ⟨canvas, -st.left_x, -st.upper_y⟩ with
    | error f => rw [hk] at h; simp [bind, Except.bind] at h
    | ok s1 =>
      rw [hk] at h
      simp only [bind, Except.bind, List.foldlM_cons, List.foldlM_nil] at h
      obtain ⟨i1, i2, i3⟩ := ih s1 hk
      cases hs : stitchStep V st mats W H ch N s1 k with
      | error f => rw [hs] at h; simp [pure, Except.pure] at h
      | ok s2 =>
        rw [hs] at h
        simp only [pure, Except.pure, Except.ok.injEq] at h
        subst h
        obtain ⟨j1, j2, j3⟩ := stitchStep_ok V st mats W H ch N s1 s2 k hs
        refine ⟨j1.trans i1, j2.trans i2, ?_⟩
        rw [j3, i3, placement]

/-- The size of the image that `makePanoramic` computes, when it computes one. -/
theorem composite_size (V : Vision) (st : PanoramicImage) (mats : List Mat) (p0 : Mat)
    (ps : List Mat) (img : Mat) (hp : st.projected_images = p0 :: ps)
    (h : composite V st mats = .ok img) :
    (∃ m0 canvas, allocCanvas V st p0.cols p0.rows m0 = .ok canvas ∧
      canvas.cols = p0.cols + st.right_x - st.left_x ∧
      canvas.rows = p0.rows + st.lower_y - st.upper_y) ∧
    img.cols = p0.cols + st.right_x - st.left_x ∧
    img.rows = p0.rows - (st.lower_y - st.upper_y) := by
  unfold composite at h
  rw [hp] at h
  simp only [getAt, List.getElem?_cons_zero, bind, Except.bind] at h
  cases hm : mats[0]? with
  | none => rw [hm] at h; simp at h
  | some m0 =>
    rw [hm] at h
    simp only at h
    cases ha : allocCanvas V st p0.cols p0.rows m0.channels with
    | error f => rw [ha] at h; simp at h
    | ok canvas =>
      rw [ha] at h
      simp only at h
      cases hl : (List.range (p0 :: ps).length).foldlM
          (stitchStep V st mats p0.cols p0.rows m0.channels (p0 :: ps).length)
          ⟨canvas, -st.left_x, -st.upper_y⟩ with
      | error f => rw [hl] at h; simp at h
      | ok fin =>
        rw [hl] at h
        simp only [Mat.roi] at h
        split_ifs at h with hv
        simp only [Except.ok.injEq] at h
        subst h
        have hc : canvas.cols = p0.cols + st.right_x - st.left_x ∧
            canvas.rows = p0.rows + st.lower_y - st.upper_y := by
          simp only [allocCanvas] at ha
          split_ifs at ha
          simp only [Except.ok.injEq] at ha
          subst ha
          exact ⟨rfl, rfl⟩
        refine ⟨⟨m0.channels, canvas, ha, hc⟩, ?_, ?_⟩
        · simp
        · simp only; ring

theorem seamAt_facts (W : ℤ) (i : ℕ) (prev : ℤ)
    (h : i = 0 ∨ (0 ≤ prev ∧ prev ≤ W ∧ W - prev ≠ 1 ∧ W < 2 ^ 31)) (hW : 0 ≤ W) :
    0 ≤ (seamAt W i prev).smooth_start ∧
    (seamAt W i prev).smooth_start ≤ (seamAt W i prev).smooth_end ∧
    (seamAt W i prev).smooth_end = (seamAt W i prev).curr_piece_left ∧
    0 ≤ (seamAt W i prev).curr_piece_left ∧ (seamAt W i prev).curr_piece_left ≤ W := by
  rcases Nat.eq_zero_or_pos i with h0 | h0
  · subst h0
    simp [seamAt, hW]
  · rcases h with h | ⟨h1, h2, h3, h4⟩
    · omega
    · obtain ⟨hc, _, _, hs, he⟩ := seamAt_pos W i prev h0 (by omega) (by omega)
      rw [hs, he, hc]
      omega

theorem stitchStep_returns (V : Vision) (st : PanoramicImage) (mats : List Mat) (W H : ℤ)
    (ch N : ℕ) (s : Stitch) (i : ℕ)
    (hi : i < N) (hm : N ≤ mats.length) (hmd : ∀ m ∈ mats, H ≤ m.rows ∧ W ≤ m.cols)
    (hsx : st.shift_x.length + 1 = N) (hsy : st.shift_y.length + 1 = N)
    (hs : ∀ x ∈ st.shift_x, 0 ≤ x ∧ x ≤ W ∧ W - x ≠ 1)
    (hH : 0 ≤ H) (hW0 : 0 ≤ W) (hW : W < 2 ^ 31)
    (hcx : 0 ≤ s.curr_x) (hcx' : s.curr_x + W ≤ s.canvas.cols)
    (hcy : 0 ≤ s.curr_y) (hcy' : s.curr_y + H ≤ s.canvas.rows) :
    ∃ s', stitchStep V st mats W H ch N s i = .ok s' := by
  have hmat := getAt_of_lt mats i (by omega)
  have hdim := hmd mats[i] (List.getElem_mem _)
  have hprev : ∃ prev, prevShift st.shift_x i = .ok prev ∧
      (i = 0 ∨ (0 ≤ prev ∧ prev ≤ W ∧ W - prev ≠ 1 ∧ W < 2 ^ 31)) := by
    rcases Nat.eq_zero_or_pos i with h0 | h0
    · exact ⟨0, by simp [prevShift, h0], Or.inl h0⟩
    · have hlt : i - 1 < st.shift_x.length := by omega
      refine ⟨st.shift_x[i - 1], by simp [prevShift, h0, getAt_of_lt _ _ hlt], Or.inr ?_⟩
      obtain ⟨a, b, c⟩ := hs st.shift_x[i - 1] (List.getElem_mem _)
      exact ⟨a, b, c, hW⟩
  obtain ⟨prev, hp, hcond⟩ := hprev
  obtain ⟨f1, f2, f3, f4, f5⟩ := seamAt_facts W i prev hcond hW0
  have hb : blendInBounds mats[i] s.canvas (seamAt W i prev) H s.curr_x s.curr_y = true := by
    simp only [blendInBounds, decide_eq_true_eq]
    right; right
    refine ⟨f1, ?_, hdim.1, hcy, hcy', ?_, ?_⟩ <;> omega
  have hv1 : mats[i].validRange 0 H (seamAt W i prev).curr_piece_left W = true := by
    simp only [Mat.validRange, decide_eq_true_eq]
    refine ⟨le_refl _, hH, hdim.1, f4, f5, hdim.2⟩
  have hv2 : s.canvas.validRange s.curr_y (s.curr_y + H)
      (s.curr_x + (seamAt W i prev).curr_piece_left) (s.curr_x + W) = true := by
    simp only [Mat.validRange, decide_eq_true_eq]
    refine ⟨hcy, ?_, hcy', ?_, ?_, hcx'⟩ <;> omega
  have hidx : ¬ (i + 1 < N ∧ (st.shift_x.length ≤ i ∨ st.shift_y.length ≤ i)) := by omega
  simp only [stitchStep, hmat, hp, bind, Except.bind, hb, hv1, hv2, Bool.not_true,
    Bool.false_eq_true, if_false, if_neg hidx]
  exact ⟨_, rfl⟩

theorem accumulate_bounds (shifts : List (ℤ × ℤ)) :
    (accumulate shifts).left_x ≤ 0 ∧ 0 ≤ (accumulate shifts).right_x ∧
    (accumulate shifts).upper_y ≤ 0 ∧ 0 ≤ (accumulate shifts).lower_y := by
  obtain ⟨_, _, hl, hr, hu, hd⟩ := accumulate_spec shifts
  exact ⟨hl.2 (zero_mem_prefixSums _), hr.2 (zero_mem_prefixSums _),
    hu.2 (zero_mem_prefixSums _), hd.2 (zero_mem_prefixSums _)⟩

/-- Sufficient conditions under which `makePanoramic` computes an image: the shifts and
margins are those of `prepareShifts` for one shift per adjacent pair, every horizontal shift
`s` satisfies `0 ≤ s ≤ W` and `W - s ≠ 1`, the material images are at least as large as
the first projected image, and the vertical drift does not exceed the image height. -/
theorem composite_returns (V : Vision) (st : PanoramicImage) (mats : List Mat) (p0 : Mat)
    (ps : List Mat) (shifts : List (ℤ × ℤ))
    (hp : st.projected_images = p0 :: ps)
    (hx : st.shift_x = shifts.map Prod.fst) (hy : st.shift_y = shifts.map Prod.snd)
    (hl : st.left_x = (accumulate shifts).left_x) (hr : st.right_x = (accumulate shifts).right_x)
    (hu : st.upper_y = (accumulate shifts).upper_y)
    (hd : st.lower_y = (accumulate shifts).lower_y)
    (hN : ps.length = shifts.length)
    (hs : ∀ s ∈ shifts, 0 ≤ s.1 ∧ s.1 ≤ p0.cols ∧ p0.cols - s.1 ≠ 1)
    (hm : ps.length + 1 ≤ mats.length)
    (hmd : ∀ m ∈ mats, p0.rows ≤ m.rows ∧ p0.cols ≤ m.cols)
    (hH : 0 ≤ p0.rows) (hW0 : 0 ≤ p0.cols) (hW : p0.cols < 2 ^ 31)
    (hcrop : st.lower_y - st.upper_y ≤ p0.rows) :
    ∃ img, composite V st mats = .ok img := by
  obtain ⟨b1, b2, b3, b4⟩ := accumulate_bounds shifts
  have hm0 := getAt_of_lt mats 0 (by omega)
  have hsx : st.shift_x.length + 1 = (p0 :: ps).length := by simp [hx, hN]
  have hsy : st.shift_y.length + 1 = (p0 :: ps).length := by simp [hy, hN]
  have hs' : ∀ x ∈ st.shift_x, 0 ≤ x ∧ x ≤ p0.cols ∧ p0.cols - x ≠ 1 := by
    intro x hxm
    rw [hx, List.mem_map] at hxm
    obtain ⟨s, hsm, rfl⟩ := hxm
    exact hs s hsm
  have hloop : ∀ k, k ≤ (p0 :: ps).length → ∃ s,
      (List.range k).foldlM
        (stitchStep V st mats p0.cols p0.rows (mats[0]).channels (p0 :: ps).length)
        ⟨⟨p0.rows + st.lower_y - st.upper_y, p0.cols + st.right_x - st.left_x,
          (mats[0]).channels, V.uninit⟩, -st.left_x, -st.upper_y⟩ = .ok s := by
    intro k
    induction k with
    | zero => intro _; exact ⟨_, rfl⟩
    | succ k ih =>
      intro hk
      obtain ⟨s1, h1⟩ := ih (by omega)
      obtain ⟨i1, i2, i3⟩ := stitchLoop_inv V st mats _ _ _ _ _ k s1 h1
      have hpl := placement_bounds shifts p0.cols p0.rows k (by simp at hk; omega)
      rw [← hx, ← hy, ← hl, ← hu, ← hr, ← hd] at hpl
      have hlen : shifts.length + 1 = (p0 :: ps).length := by simp [hN]
      rw [hlen, ← i3] at hpl
      simp only at hpl i1 i2
      obtain ⟨s2, h2⟩ := stitchStep_returns V st mats p0.cols p0.rows (mats[0]).channels
        (p0 :: ps).length s1 k (by omega) (by simpa using hm) hmd hsx hsy hs' hH hW0 hW
        hpl.1 (by rw [i2]; exact hpl.2.1) hpl.2.2.1 (by rw [i1]; exact hpl.2.2.2)
      refine ⟨s2, ?_⟩
      rw [List.range_succ, List.foldlM_append, h1]
      simp only [bind, Except.bind, List.foldlM_cons, List.foldlM_nil, h2, pure, Except.pure]
  obtain ⟨fin, hfin⟩ := hloop (p0 :: ps).length le_rfl
  obtain ⟨i1, i2, _⟩ := stitchLoop_inv V st mats _ _ _ _ _ _ fin hfin
  simp only at i1 i2
  have ha : allocCanvas V st p0.cols p0.rows (mats[0]).channels =
      .ok ⟨p0.rows + st.lower_y - st.upper_y, p0.cols + st.right_x - st.left_x,
        (mats[0]).channels, V.uninit⟩ := by
    simp only [allocCanvas]
    rw [if_neg (by rw [hl, hr, hu, hd]; omega)]
  have hv : fin.canvas.validRange (st.lower_y - st.upper_y)
      (p0.rows + st.lower_y - st.upper_y + st.upper_y - st.lower_y) 0
      (p0.cols + st.right_x - st.left_x) = true := by
    simp only [Mat.validRange, decide_eq_true_eq, i1, i2]
    rw [hl, hr, hu, hd] at *
    refine ⟨?_, ?_, ?_, le_refl _, ?_, le_refl _⟩ <;> omega
  have hp0 : getAt (p0 :: ps) 0 = .ok p0 := by simp [getAt]
  simp only [composite, hp, hp0, hm0, bind, Except.bind, ha, hfin, Mat.roi, hv, if_true]
  exact ⟨_, rfl⟩

/-! ## The size of the panorama -/

theorem makePanoramic_ok (V : Vision) (st : PanoramicImage) (mats : List Mat) (g e : Bool)
    (r : PanoramicImage × Mat) (h : makePanoramic V st mats g e = .ok r) :
    composite V st mats = .ok r.2 ∧
    r.1 = { st with results := setResult st.results g e r.2
                    calls := { st.calls with makePanoramic := st.calls.makePanoramic + 1 } } := by
  unfold makePanoramic at h
  cases hc : composite V st mats with
  | error f => rw [hc] at h; simp [bind, Except.bind] at h
  | ok img =>
    rw [hc] at h
    simp only [bind, Except.bind, Except.ok.injEq] at h
    subst h
    exact ⟨rfl, rfl⟩

theorem makePanoramic_of_composite (V : Vision) (st : PanoramicImage) (mats : List Mat)
    (g e : Bool) (img : Mat) (h : composite V st mats = .ok img) :
    makePanoramic V st mats g e =
      .ok ({ st with results := setResult st.results g e img
                     calls := { st.calls with makePanoramic := st.calls.makePanoramic + 1 } },
           img) := by
  simp [makePanoramic, h, bind, Except.bind]

/-- C4. For `N ≥ 2` projected images of width `W` and height `H` with
`lower_y - upper_y ≤ H`, a call of `makePanoramic` that returns has allocated a canvas of
`W + right_x - left_x` columns and `H + lower_y - upper_y` rows, and the image it returns
after the vertical crop has `W + right_x - left_x` columns and `H - (lower_y - upper_y)`
rows. -/
theorem makePanoramic_dimensions (V : Vision) (st st' : PanoramicImage) (mats : List Mat)
    (g e : Bool) (p0 img : Mat) (ps : List Mat)
    (hp : st.projected_images = p0 :: ps) (hN : 2 ≤ st.projected_images.length)
    (hcrop : st.lower_y - st.upper_y ≤ p0.rows)
    (hret : makePanoramic V st mats g e = .ok (st', img)) :
    (∃ ch canvas, allocCanvas V st p0.cols p0.rows ch = .ok canvas ∧
      canvas.cols = p0.cols + st.right_x - st.left_x ∧
      canvas.rows = p0.rows + st.lower_y - st.upper_y) ∧
    img.cols = p0.cols + st.right_x - st.left_x ∧
    img.rows = p0.rows - (st.lower_y - st.upper_y) ∧
    0 ≤ img.rows ∧ 2 ≤ (p0 :: ps).length := by
  obtain ⟨hc, _⟩ := makePanoramic_ok V st mats g e (st', img) hret
  obtain ⟨h1, h2, h3⟩ := composite_size V st mats p0 ps img hp hc
  refine ⟨h1, h2, h3, by omega, by rw [← hp]; exact hN⟩

theorem accumulate_sample : accumulate [(5, 2)] = ⟨5, 2, 0, 5, 0, 2⟩ := by decide

theorem composite_sample (g e : Bool) (mats : List Mat) (hm : 2 ≤ mats.length)
    (hmd : ∀ m ∈ mats, (40 : ℤ) ≤ m.rows ∧ (100 : ℤ) ≤ m.cols) :
    ∃ img, makePanoramic Vision.sample sampleShifted mats g e =
      .ok ({ sampleShifted with
              results := setResult sampleShifted.results g e img
              calls := { sampleShifted.calls with
                makePanoramic := sampleShifted.calls.makePanoramic + 1 } }, img) := by
  obtain ⟨img, h⟩ := composite_returns Vision.sample sampleShifted mats sampleImage
    [sampleImage] [(5, 2)] rfl rfl rfl (by rw [accumulate_sample]; rfl)
    (by rw [accumulate_sample]; rfl) (by rw [accumulate_sample]; rfl)
    (by rw [accumulate_sample]; rfl) rfl
    (by intro s hs; simp at hs; subst hs; simp [sampleImage, Mat.const])
    (by simpa using hm) (by simpa [sampleImage, Mat.const] using hmd)
    (by simp [sampleImage, Mat.const]) (by simp [sampleImage, Mat.const])
    (by simp [sampleImage, Mat.const])
    (by simp [sampleShifted, sampleImage, Mat.const, sampleFresh, PanoramicImage.new])
  exact ⟨img, makePanoramic_of_composite _ _ _ g e img h⟩

/-- Witness of C4: two images of 100 x 40 pixels shifted by `(5, 2)` give a panorama of
105 columns and 38 rows. -/
theorem makePanoramic_dimensions_witness :
    (2 ≤ sampleShifted.projected_images.length ∧
      sampleShifted.lower_y - sampleShifted.upper_y ≤ sampleImage.rows) ∧
    (makePanoramic Vision.sample sampleShifted (material sampleShifted true false)
      true false).map (fun r => (r.2.cols, r.2.rows)) = .ok (105, 38) := by
  obtain ⟨img, h⟩ := composite_sample true false (material sampleShifted true false)
    (by simp [material, sampleShifted]) (by
      intro m hm
      simp [material, sampleShifted, sampleImage, Mat.const] at hm
      subst hm
      simp)
  have hd := makePanoramic_dimensions Vision.sample sampleShifted _
    (material sampleShifted true false) true false sampleImage img [sampleImage] rfl
    (by simp [sampleShifted])
    (by simp [sampleShifted, sampleImage, Mat.const, sampleFresh, PanoramicImage.new]) h
  refine ⟨⟨by simp [sampleShifted],
    by simp [sampleShifted, sampleImage, Mat.const, sampleFresh, PanoramicImage.new]⟩, ?_⟩
  rw [h]
  simp only [Except.map, hd.2.1, hd.2.2.1]
  simp [sampleShifted, sampleImage, Mat.const, sampleFresh, PanoramicImage.new]

/-! ## The sample facade -/

theorem rnd64_two : rnd64 2 = 2 := by
  rw [rnd64_eq_of 2 1 (2 ^ 52) (by norm_num) (by norm_num [abs_of_pos]) (by norm_num)
    (by norm_num)]
  norm_num

theorem rnd64_three : rnd64 3 = 3 := by
  rw [rnd64_eq_of 3 1 (3 * 2 ^ 51) (by norm_num) (by norm_num [abs_of_pos]) (by norm_num)
    (by norm_num)]
  norm_num

theorem rnd64_five : rnd64 5 = 5 := by
  rw [rnd64_eq_of 5 2 (5 * 2 ^ 50) (by norm_num) (by norm_num [abs_of_pos]) (by norm_num)
    (by norm_num)]
  norm_num

theorem rnd32_eq_of (q : ℚ) (e m : ℤ) (hlo : (2:ℚ) ^ e ≤ |q|) (hhi : |q| < (2:ℚ) ^ (e + 1))
    (he : -126 ≤ e) (hm : |q / 2 ^ (e - 23) - m| < 1/2) :
    rnd32 q = m * 2 ^ (e - 23) := by
  have := fpRound_eq_of 24 (-126) q e m hlo hhi he (by simpa using hm)
  rw [rnd32, this]; norm_num

theorem rnd32_two : rnd32 2 = 2 := by
  rw [rnd32_eq_of 2 1 (2 ^ 23) (by norm_num) (by norm_num [abs_of_pos]) (by norm_num)
    (by norm_num)]
  norm_num

theorem rnd32_five : rnd32 5 = 5 := by
  rw [rnd32_eq_of 5 2 (5 * 2 ^ 21) (by norm_num) (by norm_num [abs_of_pos]) (by norm_num)
    (by norm_num)]
  norm_num

theorem roundHalfAway_int (n : ℤ) (h : 0 ≤ n) : roundHalfAway (n : ℚ) = n := by
  unfold roundHalfAway
  rw [if_pos (by exact_mod_cast h), Int.floor_eq_iff]
  constructor <;> linarith

theorem distanceFilter_sample : distanceFilter 3 [⟨0, 1, 0⟩] = .ok [⟨0, 1, 0⟩] := by
  simp [distanceFilter, rnd64_three]

theorem pairShift_sample :
    pairShift Vision.sample [⟨5, 2⟩, ⟨0, 0⟩] [⟨5, 2⟩, ⟨0, 0⟩] [⟨0, 1, 0⟩] =
      .ok ⟨5, 2, [⟨0, 1, 0⟩]⟩ := by
  have h5 : roundHalfAway (5 : ℚ) = 5 := by exact_mod_cast roundHalfAway_int 5 (by norm_num)
  have h2 : roundHalfAway (2 : ℚ) = 2 := by exact_mod_cast roundHalfAway_int 2 (by norm_num)
  simp only [pairShift, Vision.sample, List.mapM_cons, List.mapM_nil, bind, Except.bind, pure,
    Except.pure, getAtInt, getAt]
  simp [List.enum, List.enumFrom, maskStep, getAt, bind, Except.bind, pure, Except.pure,
    rnd32_five, rnd32_two, rnd64_five, rnd64_two, h5, h2]

theorem matchShifts_sample :
    matchShifts Vision.sample 3
      [{ sampleImage with channels := 1 }, { sampleImage with channels := 1 }] 2 =
      .ok ⟨[(5, 2)], [[⟨5, 2⟩, ⟨0, 0⟩], [⟨5, 2⟩, ⟨0, 0⟩]], [[⟨0, 1, 0⟩]]⟩ := by
  have hp := pairShift_sample
  have hd := distanceFilter_sample
  simp only [Vision.sample] at hp
  simp only [matchShifts, firstN, adjacent, Vision.sample, List.length_cons, List.length_nil,
    List.take, List.map_cons, List.map_nil, List.tail_cons, List.zip_cons_cons, List.zip_nil_right,
    List.zip_nil_left, List.mapM_cons, List.mapM_nil, bind, Except.bind, pure, Except.pure, hd,
    le_refl, if_true, Nat.reduceAdd]
  simp only [List.zip_cons_cons, List.zip_nil_right, List.mapM_cons, List.mapM_nil, bind,
    Except.bind, pure, Except.pure, hp, List.map_cons, List.map_nil]
  simp

theorem prepareShifts_sample (draw : Bool) :
    prepareShifts Vision.sample sampleFresh draw =
      .ok (if draw then
        { sampleShifted with match_images := [{ sampleImage with channels := 1 }] }
        else sampleShifted) := by
  have hm := matchShifts_sample
  have ha := accumulate_sample
  have hproj : projectImages Vision.sample sampleFresh =
      { sampleFresh with
        projected_images := [sampleImage, sampleImage]
        projected_gray :=
          [{ sampleImage with channels := 1 }, { sampleImage with channels := 1 }] } := by
    simp [projectImages, sampleFresh, PanoramicImage.new, Vision.sample, RIGHT, LEFT]
  have he : sampleFresh.projected_images.isEmpty = true := rfl
  have hr : sampleFresh.dist_ratio = 3 := rfl
  simp only [prepareShifts, storeShifts, he, if_true, hproj, hr, List.length_cons,
    List.length_nil, Nat.reduceAdd, hm, bind, Except.bind, ha, List.map_cons, List.map_nil]
  cases draw
  · simp [sampleShifted]
    simp [sampleFresh, PanoramicImage.new]
  · simp [sampleShifted, drawAll, adjacent, Vision.sample]
    simp [sampleFresh, PanoramicImage.new]

/-! ## The cache of `get` -/

theorem get_cached (V : Vision) (st : PanoramicImage) (g e draw : Bool)
    (hne : (st.results g e).empty = false) (hd : (draw && st.match_images.isEmpty) = false) :
    get V st g e draw = .ok (st, st.results g e) := by
  simp [get, hne, hd]

theorem get_compute (V : Vision) (st : PanoramicImage) (g e draw : Bool)
    (h : (st.results g e).empty = true ∨ (draw && st.match_images.isEmpty) = true) :
    get V st g e draw =
      (ensureShifts V st draw (draw && st.match_images.isEmpty)).bind (fun st1 =>
        (prepareMaterial V st1 g e).bind (fun st2 =>
          makePanoramic V st2 (material st2 g e) g e)) := by
  have hc : (!(st.results g e).empty && !(draw && st.match_images.isEmpty)) = false := by
    rcases h with h | h <;> simp [h]
  simp only [get, hc, Bool.false_eq_true, if_false]
  rfl

theorem get_cases (V : Vision) (st : PanoramicImage) (g e draw : Bool)
    (r : PanoramicImage × Mat) (h : get V st g e draw = .ok r) :
    ((st.results g e).empty = false ∧ (draw && st.match_images.isEmpty) = false ∧
      r = (st, st.results g e)) ∨
    (((st.results g e).empty = true ∨ (draw && st.match_images.isEmpty) = true) ∧
      ∃ st1 st2, ensureShifts V st draw (draw && st.match_images.isEmpty) = .ok st1 ∧
        prepareMaterial V st1 g e = .ok st2 ∧
        makePanoramic V st2 (material st2 g e) g e = .ok r) := by
  by_cases hc : (st.results g e).empty = false ∧ (draw && st.match_images.isEmpty) = false
  · left
    rw [get_cached V st g e draw hc.1 hc.2] at h
    simp only [Except.ok.injEq] at h
    exact ⟨hc.1, hc.2, h.symm⟩
  · right
    have hc' : (st.results g e).empty = true ∨ (draw && st.match_images.isEmpty) = true := by
      by_contra hn
      push_neg at hn
      exact hc ⟨by simpa using hn.1, by simpa using hn.2⟩
    refine ⟨hc', ?_⟩
    rw [get_compute V st g e draw hc'] at h
    cases h1 : ensureShifts V st draw (draw && st.match_images.isEmpty) with
    | error f => rw [h1] at h; simp [Except.bind] at h
    | ok st1 =>
      rw [h1] at h
      simp only [Except.bind] at h
      cases h2 : prepareMaterial V st1 g e with
      | error f => rw [h2] at h; simp at h
      | ok st2 =>
        rw [h2] at h
        exact ⟨st1, st2, rfl, h2, h⟩

/-- A facade with a computed panorama in every cache entry and no match drawings. -/
theorem cached_entry_nonempty :
    (({ sampleShifted with results := fun _ _ => sampleImage } : PanoramicImage).results
      true false).empty = false := by
  simp [sampleImage, Mat.const, Mat.empty]

/-- C8. When the cache entry `results[g][e]` is not empty, `get(g, e, draw)` returns the
stored entry and leaves the facade as it is, unless `draw` is true and `match_images` is
empty: only in that case is the entry computed again. -/
theorem get_cache_invariant (V : Vision) (st : PanoramicImage) (g e draw : Bool)
    (hne : (st.results g e).empty = false)
    (h : ¬ (draw = true ∧ st.match_images = [])) :
    get V st g e draw = .ok (st, st.results g e) := by
  apply get_cached V st g e draw hne
  cases draw
  · rfl
  · cases hm : st.match_images with
    | nil => exact absurd ⟨rfl, hm⟩ h
    | cons a l => rfl

/-- Witness of C8: a facade with every cache entry computed, asked without drawing. -/
theorem get_cache_invariant_witness :
    ((({ sampleShifted with results := fun _ _ => sampleImage } : PanoramicImage).results
        true false).empty = false ∧
      ¬ (false = true ∧
        ({ sampleShifted with results := fun _ _ => sampleImage } : PanoramicImage).match_images
          = [])) ∧
    get Vision.sample { sampleShifted with results := fun _ _ => sampleImage } true false false
      = .ok ({ sampleShifted with results := fun _ _ => sampleImage },
        ({ sampleShifted with results := fun _ _ => sampleImage } : PanoramicImage).results
          true false) :=
  ⟨⟨cached_entry_nonempty, by simp⟩,
   get_cache_invariant Vision.sample { sampleShifted with results := fun _ _ => sampleImage }
    true false false cached_entry_nonempty (by simp)⟩

/-! ## The phases of `get` -/

theorem prepareShifts_ok (V : Vision) (st st1 : PanoramicImage) (draw : Bool)
    (h : prepareShifts V st draw = .ok st1) :
    ∃ d, matchShifts V st.dist_ratio
        (if st.projected_images.isEmpty then projectImages V st else st).projected_gray
        (if st.projected_images.isEmpty then projectImages V st else st).projected_images.length
        = .ok d ∧
      st1 = storeShifts V (if st.projected_images.isEmpty then projectImages V st else st) d
        draw := by
  unfold prepareShifts at h
  have hdr : (if st.projected_images.isEmpty then projectImages V st else st).dist_ratio
      = st.dist_ratio := by
    split_ifs <;> simp [projectImages]
  simp only [bind, Except.bind, hdr] at h
  cases hm : matchShifts V st.dist_ratio
      (if st.projected_images.isEmpty then projectImages V st else st).projected_gray
      (if st.projected_images.isEmpty then projectImages V st else st).projected_images.length
    with
  | error f => rw [hm] at h; simp at h
  | ok d =>
    rw [hm] at h
    simp only [Except.ok.injEq] at h
    exact ⟨d, rfl, h.symm⟩

theorem storeShifts_match_images (V : Vision) (st : PanoramicImage) (d : ShiftData) :
    (storeShifts V st d false).match_images = st.match_images := by
  simp [storeShifts]

theorem prepareShifts_match_images (V : Vision) (st st1 : PanoramicImage)
    (h : prepareShifts V st false = .ok st1) : st1.match_images = st.match_images := by
  obtain ⟨d, _, rfl⟩ := prepareShifts_ok V st st1 false h
  rw [storeShifts_match_images]
  split_ifs <;> simp [projectImages]

theorem prepareMaterial_match_images (V : Vision) (st st2 : PanoramicImage) (g e : Bool)
    (h : prepareMaterial V st g e = .ok st2) : st2.match_images = st.match_images := by
  unfold prepareMaterial at h
  simp only [bind, Except.bind] at h
  split_ifs at h with h1 h2 h3
  · cases hf : firstN st.projected_gray st.projected_images.length with
    | error f => rw [hf] at h; simp at h
    | ok src => rw [hf] at h; simp only [Except.ok.injEq] at h; subst h; rfl
  · simp only [Except.ok.injEq] at h; subst h; rfl
  · cases hf : firstN st.projected_images st.projected_images.length with
    | error f => rw [hf] at h; simp at h
    | ok src => rw [hf] at h; simp only [Except.ok.injEq] at h; subst h; rfl
  · simp only [Except.ok.injEq] at h; subst h; rfl

theorem get_match_images (V : Vision) (st : PanoramicImage) (g e : Bool)
    (r : PanoramicImage × Mat) (h : get V st g e false = .ok r) :
    r.1.match_images = st.match_images := by
  rcases get_cases V st g e false r h with ⟨_, _, rfl⟩ | ⟨_, st1, st2, h1, h2, h3⟩
  · rfl
  · obtain ⟨_, hr⟩ := makePanoramic_ok V st2 _ g e r h3
    rw [hr]
    simp only
    rw [prepareMaterial_match_images V st1 st2 g e h2]
    unfold ensureShifts at h1
    split_ifs at h1
    · exact prepareShifts_match_images V st st1 h1
    · simp only [Except.ok.injEq] at h1; subst h1; rfl

theorem getAll_match_images (V : Vision) (st : PanoramicImage)
    (r : PanoramicImage × List Mat) (h : getAll V st false = .ok r) :
    r.1.match_images = st.match_images := by
  unfold getAll at h
  simp only [bind, Except.bind] at h
  cases h0 : get V st false false false with
  | error f => rw [h0] at h; simp at h
  | ok r0 =>
    rw [h0] at h
    simp only at h
    cases h1 : get V r0.1 false true false with
    | error f => rw [h1] at h; simp at h
    | ok r1 =>
      rw [h1] at h
      simp only at h
      cases h2 : get V r1.1 true false false with
      | error f => rw [h2] at h; simp at h
      | ok r2 =>
        rw [h2] at h
        simp only at h
        cases h3 : get V r2.1 true true false with
        | error f => rw [h3] at h; simp at h
        | ok r3 =>
          rw [h3] at h
          simp only [Except.ok.injEq] at h
          subst h
          simp only
          rw [get_match_images V _ _ _ r3 h3, get_match_images V _ _ _ r2 h2,
            get_match_images V _ _ _ r1 h1, get_match_images V _ _ _ r0 h0]

theorem runCalls_match_images (V : Vision) (calls : List Call) (st st' : PanoramicImage)
    (hc : ∀ c ∈ calls, c.draw = false) (h : runCalls V st calls = .ok st') :
    st'.match_images = st.match_images := by
  induction calls generalizing st with
  | nil =>
    simp only [runCalls, Except.ok.injEq] at h
    rw [h]
  | cons c cs ih =>
    simp only [runCalls, bind, Except.bind] at h
    cases h1 : runCall V st c with
    | error f => rw [h1] at h; simp at h
    | ok st1 =>
      rw [h1] at h
      simp only at h
      rw [ih st1 (fun c' hc' => hc c' (List.mem_cons_of_mem _ hc')) h]
      have hd := hc c (List.mem_cons_self _ _)
      cases c with
      | get g e d =>
        simp only [Call.draw] at hd
        subst hd
        simp only [runCall, Except.map] at h1
        cases hg : get V st g e false with
        | error f => rw [hg] at h1; simp at h1
        | ok r =>
          rw [hg] at h1
          simp only [Except.ok.injEq] at h1
          rw [← h1]
          exact get_match_images V st g e r hg
      | getAll d =>
        simp only [Call.draw] at hd
        subst hd
        simp only [runCall, Except.map] at h1
        cases hg : getAll V st false with
        | error f => rw [hg] at h1; simp at h1
        | ok r =>
          rw [hg] at h1
          simp only [Except.ok.injEq] at h1
          rw [← h1]
          exact getAll_match_images V st r hg

/-- The shifts and margins that `prepareShifts` stores are those of the accumulation loop
on the shifts of the pairs. -/
theorem prepareShifts_extents (V : Vision) (st st1 : PanoramicImage) (draw : Bool)
    (h : prepareShifts V st draw = .ok st1) :
    ∃ shifts : List (ℤ × ℤ), st1.shift_x = shifts.map Prod.fst ∧
      st1.shift_y = shifts.map Prod.snd ∧
      st1.left_x = (accumulate shifts).left_x ∧ st1.right_x = (accumulate shifts).right_x ∧
      st1.upper_y = (accumulate shifts).upper_y ∧
      st1.lower_y = (accumulate shifts).lower_y := by
  obtain ⟨d, _, rfl⟩ := prepareShifts_ok V st st1 draw h
  refine ⟨d.shifts, ?_, ?_, ?_, ?_, ?_, ?_⟩ <;> cases draw <;> simp [storeShifts]

theorem get_stores (V : Vision) (st : PanoramicImage) (g e : Bool) (r : PanoramicImage × Mat)
    (h : get V st g e false = .ok r) (hne : r.2.empty = false) :
    r.1.results g e = r.2 := by
  rcases get_cases V st g e false r h with ⟨_, _, rfl⟩ | ⟨_, st1, st2, _, _, h3⟩
  · rfl
  · obtain ⟨_, hr⟩ := makePanoramic_ok V st2 _ g e r h3
    rw [hr]
    simp [setResult]

/-- C7. If a call `get(g, e, false)` returned a non-empty panorama, the same call made
right after it returns the identical image and leaves every field of the facade, the call
counters of `prepareShifts`, `equalize` and `makePanoramic` included, as it was. -/
theorem get_idempotent (V : Vision) (st st1 : PanoramicImage) (g e : Bool) (img : Mat)
    (h : get V st g e false = .ok (st1, img)) (hne : img.empty = false) :
    get V st1 g e false = .ok (st1, img) := by
  have hs := get_stores V st g e (st1, img) h hne
  simp only at hs
  have := get_cached V st1 g e false (by rw [hs]; exact hne) (by simp)
  rw [this, hs]

theorem get_sample :
    ∃ img, get Vision.sample sampleFresh true false false =
      .ok ({ sampleShifted with
              results := setResult sampleShifted.results true false img
              calls := { sampleShifted.calls with
                makePanoramic := sampleShifted.calls.makePanoramic + 1 } }, img) ∧
      img.cols = 105 ∧ img.rows = 38 := by
  obtain ⟨img, h⟩ := composite_sample true false (material sampleShifted true false)
    (by simp [material, sampleShifted]) (by
      intro m hm
      simp [material, sampleShifted, sampleImage, Mat.const] at hm
      subst hm
      simp)
  obtain ⟨hc, _⟩ := makePanoramic_ok _ _ _ _ _ _ h
  obtain ⟨_, h2, h3⟩ := composite_size Vision.sample sampleShifted _ sampleImage [sampleImage]
    img rfl hc
  refine ⟨img, ?_, ?_, ?_⟩
  · rw [get_compute _ _ _ _ _ (Or.inl (by simp [sampleFresh, PanoramicImage.new, Mat.nil,
      Mat.empty]))]
    have he : ensureShifts Vision.sample sampleFresh false
        (false && sampleFresh.match_images.isEmpty) = .ok sampleShifted := by
      simp only [ensureShifts]
      rw [if_pos (by simp [sampleFresh, PanoramicImage.new])]
      simpa using prepareShifts_sample false
    have hm : prepareMaterial Vision.sample sampleShifted true false = .ok sampleShifted := by
      simp [prepareMaterial]
    rw [he]
    simp only [Except.bind]
    rw [hm]
    simp only [Except.bind]
    exact h
  · rw [h2]; simp [sampleImage, Mat.const, sampleShifted, sampleFresh, PanoramicImage.new]
  · rw [h3]; simp [sampleImage, Mat.const, sampleShifted, sampleFresh, PanoramicImage.new]

/-- Witness of C7: on a fresh facade of two images the grayscale panorama is computed by
the first call and is not empty; the second call returns the same facade and image. -/
theorem get_idempotent_witness :
    (get Vision.sample sampleFresh true false false).map (fun r => r.2.empty) = .ok false ∧
    (get Vision.sample sampleFresh true false false).bind
      (fun r => get Vision.sample r.1 true false false) =
      get Vision.sample sampleFresh true false false := by
  obtain ⟨img, h, hc, hr⟩ := get_sample
  have hne : img.empty = false := by simp [Mat.empty, hc, hr]
  have h2 := get_idempotent Vision.sample sampleFresh _ true false img h hne
  rw [h]
  exact ⟨by simp [Except.map, hne], by simp only [Except.bind]; exact h2⟩

/-- C10. `matchImages()` is empty on a freshly constructed facade, and it is empty in
every state reached from it through `get` and `getAll` calls that all pass
`draw = false`. -/
theorem matchImages_empty_without_draw (V : Vision) (images : List Mat)
    (half_fov dist_ratio : ℚ) (direction : ℤ) (calls : List Call) (st : PanoramicImage)
    (hc : ∀ c ∈ calls, c.draw = false)
    (h : runCalls V (PanoramicImage.new images half_fov dist_ratio direction) calls = .ok st) :
    matchImages (PanoramicImage.new images half_fov dist_ratio direction) = [] ∧
    matchImages st = [] := by
  refine ⟨rfl, ?_⟩
  unfold matchImages
  rw [runCalls_match_images V calls _ st hc h]
  rfl


theorem runCalls_sample :
    ∃ img, runCalls Vision.sample
      (PanoramicImage.new [sampleImage, sampleImage] (1 / 2) 3 RIGHT)
      [Call.get true false false] =
      .ok { sampleShifted with
              results := setResult sampleShifted.results true false img
              calls := { sampleShifted.calls with
                makePanoramic := sampleShifted.calls.makePanoramic + 1 } } := by
  obtain ⟨img, h, _, _⟩ := get_sample
  refine ⟨img, ?_⟩
  simp only [runCalls, runCall, bind, Except.bind]
  have h' : get Vision.sample (PanoramicImage.new [sampleImage, sampleImage] (1 / 2) 3 RIGHT)
      true false false = _ := h
  rw [h']
  rfl

/-- Witness of C10: a `get` call on a fresh facade of two images, without drawing. -/
theorem matchImages_empty_without_draw_witness :
    (∀ c ∈ [Call.get true false false], c.draw = false) ∧
    (runCalls Vision.sample (PanoramicImage.new [sampleImage, sampleImage] (1 / 2) 3 RIGHT)
      [Call.get true false false]).map matchImages = .ok [] := by
  obtain ⟨img, hr⟩ := runCalls_sample
  have hc : ∀ c ∈ [Call.get true false false], c.draw = false := by
    intro c hc
    simp only [List.mem_singleton] at hc
    subst hc
    rfl
  have := matchImages_empty_without_draw Vision.sample [sampleImage, sampleImage] (1 / 2) 3
    RIGHT [Call.get true false false] _ hc hr
  refine ⟨hc, ?_⟩
  rw [hr]
  simp only [Except.map, this.2]

/-! ## The fields that the panorama depends on -/

theorem stitchStep_congr (V : Vision) (a b : PanoramicImage) (hx : a.shift_x = b.shift_x)
    (hy : a.shift_y = b.shift_y) : stitchStep V a = stitchStep V b := by
  funext mats W H ch N s i
  simp only [stitchStep, hx, hy]

theorem composite_congr (V : Vision) (a b : PanoramicImage) (mats : List Mat)
    (hp : a.projected_images = b.projected_images)
    (hx : a.shift_x = b.shift_x) (hy : a.shift_y = b.shift_y)
    (hl : a.left_x = b.left_x) (hr : a.right_x = b.right_x)
    (hu : a.upper_y = b.upper_y) (hd : a.lower_y = b.lower_y) :
    composite V a mats = composite V b mats := by
  simp only [composite, allocCanvas, stitchStep_congr V a b hx hy, hp, hl, hr, hu, hd]

theorem core_fields (a b : PanoramicImage) (h : core a = core b) :
    a.half_fov = b.half_fov ∧ a.dist_ratio = b.dist_ratio ∧ a.shift_x = b.shift_x ∧
    a.shift_y = b.shift_y ∧ a.left_x = b.left_x ∧ a.right_x = b.right_x ∧
    a.upper_y = b.upper_y ∧ a.lower_y = b.lower_y ∧
    a.original_images = b.original_images ∧ a.projected_images = b.projected_images ∧
    a.projected_gray = b.projected_gray ∧ a.bgr_equalized = b.bgr_equalized ∧
    a.gray_equalized = b.gray_equalized ∧ a.results = b.results := by
  have e0 := congrArg PanoramicImage.half_fov h
  have e1 := congrArg PanoramicImage.dist_ratio h
  have e2 := congrArg PanoramicImage.shift_x h
  have e3 := congrArg PanoramicImage.shift_y h
  have e4 := congrArg PanoramicImage.left_x h
  have e5 := congrArg PanoramicImage.right_x h
  have e6 := congrArg PanoramicImage.upper_y h
  have e7 := congrArg PanoramicImage.lower_y h
  have e8 := congrArg PanoramicImage.original_images h
  have e9 := congrArg PanoramicImage.projected_images h
  have e10 := congrArg PanoramicImage.projected_gray h
  have e11 := congrArg PanoramicImage.bgr_equalized h
  have e12 := congrArg PanoramicImage.gray_equalized h
  have e13 := congrArg PanoramicImage.results h
  exact ⟨e0, e1, e2, e3, e4, e5, e6, e7, e8, e9, e10, e11, e12, e13⟩

theorem core_eq_of_fields (a b : PanoramicImage)
    (h1 : a.half_fov = b.half_fov) (h2 : a.dist_ratio = b.dist_ratio)
    (h3 : a.shift_x = b.shift_x) (h4 : a.shift_y = b.shift_y) (h5 : a.left_x = b.left_x)
    (h6 : a.right_x = b.right_x) (h7 : a.upper_y = b.upper_y) (h8 : a.lower_y = b.lower_y)
    (h9 : a.original_images = b.original_images)
    (h10 : a.projected_images = b.projected_images)
    (h11 : a.projected_gray = b.projected_gray) (h12 : a.bgr_equalized = b.bgr_equalized)
    (h13 : a.gray_equalized = b.gray_equalized) (h14 : a.results = b.results) :
    core a = core b := by
  simp only [core, h1, h2, h3, h4, h5, h6, h7, h8, h9, h10, h11, h12, h13, h14]

theorem material_core (a b : PanoramicImage) (h : core a = core b) (g e : Bool) :
    material a g e = material b g e := by
  obtain ⟨_, _, _, _, _, _, _, _, _, h10, h11, h12, h13, _⟩ := core_fields a b h
  cases g <;> cases e <;> simp [material, h10, h11, h12, h13]

theorem composite_core (V : Vision) (a b : PanoramicImage) (h : core a = core b)
    (mats : List Mat) : composite V a mats = composite V b mats := by
  obtain ⟨_, _, h3, h4, h5, h6, h7, h8, _, h10, _⟩ := core_fields a b h
  exact composite_congr V a b mats h10 h3 h4 h5 h6 h7 h8

theorem makePanoramic_snd (V : Vision) (st : PanoramicImage) (mats : List Mat) (g e : Bool) :
    (makePanoramic V st mats g e).map Prod.snd = composite V st mats := by
  unfold makePanoramic
  cases composite V st mats <;> rfl

theorem prepareMaterial_core (V : Vision) (a b : PanoramicImage) (h : core a = core b)
    (g e : Bool) :
    (∃ f, prepareMaterial V a g e = .error f ∧ prepareMaterial V b g e = .error f) ∨
    (∃ a2 b2, prepareMaterial V a g e = .ok a2 ∧ prepareMaterial V b g e = .ok b2 ∧
      core a2 = core b2) := by
  obtain ⟨h1, h2, h3, h4, h5, h6, h7, h8, h9, h10, h11, h12, h13, h14⟩ := core_fields a b h
  unfold prepareMaterial
  simp only [h10, h11, h12, h13, bind, Except.bind]
  split_ifs with c1 c2 c3
  · cases firstN b.projected_gray b.projected_images.length with
    | error f => exact Or.inl ⟨f, rfl, rfl⟩
    | ok src =>
      refine Or.inr ⟨_, _, rfl, rfl, ?_⟩
      exact core_eq_of_fields _ _ h1 h2 h3 h4 h5 h6 h7 h8 h9 rfl rfl rfl rfl h14
  · exact Or.inr ⟨a, b, rfl, rfl, h⟩
  · cases firstN b.projected_images b.projected_images.length with
    | error f => exact Or.inl ⟨f, rfl, rfl⟩
    | ok src =>
      refine Or.inr ⟨_, _, rfl, rfl, ?_⟩
      exact core_eq_of_fields _ _ h1 h2 h3 h4 h5 h6 h7 h8 h9 rfl rfl rfl rfl h14
  · exact Or.inr ⟨a, b, rfl, rfl, h⟩

/-- The image that `get` computes after the shift phase depends on the facade only through
the fields other than `match_images`. -/
theorem tail_core (V : Vision) (a b : PanoramicImage) (h : core a = core b) (g e : Bool) :
    ((prepareMaterial V a g e).bind
        (fun s => makePanoramic V s (material s g e) g e)).map Prod.snd =
    ((prepareMaterial V b g e).bind
        (fun s => makePanoramic V s (material s g e) g e)).map Prod.snd := by
  rcases prepareMaterial_core V a b h g e with ⟨f, ha, hb⟩ | ⟨a2, b2, ha, hb, hc⟩
  · rw [ha, hb]
  · rw [ha, hb]
    simp only [Except.bind]
    rw [makePanoramic_snd, makePanoramic_snd, material_core a2 b2 hc, composite_core V a2 b2 hc]

theorem storeShifts_core (V : Vision) (st : PanoramicImage) (d : ShiftData) (d1 d2 : Bool) :
    core (storeShifts V st d d1) = core (storeShifts V st d d2) := by
  cases d1 <;> cases d2 <;> simp [core, storeShifts]

theorem prepareShifts_eq (V : Vision) (st : PanoramicImage) (draw : Bool) :
    prepareShifts V st draw =
      (matchShifts V st.dist_ratio
        (if st.projected_images.isEmpty then projectImages V st else st).projected_gray
        (if st.projected_images.isEmpty then projectImages V st else st).projected_images.length
        ).map
      (fun d => storeShifts V
        (if st.projected_images.isEmpty then projectImages V st else st) d draw) := by
  have hdr : (if st.projected_images.isEmpty then projectImages V st else st).dist_ratio
      = st.dist_ratio := by
    split_ifs <;> simp [projectImages]
  unfold prepareShifts
  simp only [bind, Except.bind, hdr]
  cases matchShifts V st.dist_ratio
      (if st.projected_images.isEmpty then projectImages V st else st).projected_gray
      (if st.projected_images.isEmpty then projectImages V st else st).projected_images.length
    <;> rfl

theorem matchShifts_pos (V : Vision) (dr : ℚ) (G : List Mat) (N : ℕ) (d : ShiftData)
    (h : matchShifts V dr G N = .ok d) : N ≠ 0 := by
  intro h0
  subst h0
  simp [matchShifts, firstN, bind, Except.bind] at h

theorem Computed_of_core (V : Vision) (images : List Mat) (hf dr : ℚ)
    (a b : PanoramicImage) (h : core a = core b) (hC : Computed V images hf dr a) :
    Computed V images hf dr b := by
  obtain ⟨h1, h2, h3, h4, h5, h6, h7, h8, h9, h10, h11, h12, h13, h14⟩ := core_fields a b h
  obtain ⟨c1, c2, c3, c4, c5, c6, c7, c8, c9⟩ := hC
  refine ⟨h9 ▸ c1, h1 ▸ c2, h2 ▸ c3, h10 ▸ c4, h11 ▸ c5, ?_, h12 ▸ c7, h13 ▸ c8, ?_⟩
  · obtain ⟨d, e0, e1, e2, e3, e4, e5, e6⟩ := c6
    exact ⟨d, e0, h3 ▸ e1, h4 ▸ e2, h5 ▸ e3, h6 ▸ e4, h7 ▸ e5, h8 ▸ e6⟩
  · intro g e
    rw [← h14, ← material_core a b h, ← composite_core V a b h]
    exact c9 g e

theorem Computed_nonempty (V : Vision) (images : List Mat) (hf dr : ℚ)
    (st : PanoramicImage) (hC : Computed V images hf dr st) :
    st.projected_images.isEmpty = false := by
  obtain ⟨_, _, _, c4, _, ⟨d, e0, _⟩, _⟩ := hC
  have := matchShifts_pos V dr _ _ d e0
  rw [c4]
  cases hP : projOf V images hf with
  | nil => rw [hP] at this; simp at this
  | cons p ps => rfl

theorem grayOf_length (V : Vision) (images : List Mat) (hf : ℚ) :
    (grayOf V images hf).length = (projOf V images hf).length := by
  simp [grayOf]

/-- On a facade whose shifts are computed, `prepareShifts` computes the same shifts
again. -/
theorem prepareShifts_computed (V : Vision) (images : List Mat) (hf dr : ℚ)
    (st : PanoramicImage) (hC : Computed V images hf dr st) (draw : Bool) :
    ∃ st1, prepareShifts V st draw = .ok st1 ∧ core st1 = core st := by
  have hne := Computed_nonempty V images hf dr st hC
  obtain ⟨c1, c2, c3, c4, c5, ⟨d, e0, e1, e2, e3, e4, e5, e6⟩, c7, c8, c9⟩ := hC
  rw [prepareShifts_eq]
  simp only [hne, Bool.false_eq_true, if_false]
  rw [c3, c5, c4, e0]
  refine ⟨_, rfl, ?_⟩
  apply core_eq_of_fields <;> cases draw <;> simp [storeShifts, e1, e2, e3, e4, e5, e6]

theorem prepareShifts_fresh (V : Vision) (images : List Mat) (hf dr : ℚ)
    (st st1 : PanoramicImage) (hF : Fresh images hf dr st) (draw : Bool)
    (h : prepareShifts V st draw = .ok st1) : Computed V images hf dr st1 := by
  obtain ⟨f1, f2, f3, f4, f5, f6, f7, f8⟩ := hF
  obtain ⟨d, hm, rfl⟩ := prepareShifts_ok V st st1 draw h
  have he : st.projected_images.isEmpty = true := by rw [f4]; rfl
  simp only [he, if_true] at hm ⊢
  have hp : (projectImages V st).projected_images = projOf V images hf := by
    simp [projectImages, projOf, f1, f2]
  have hg : (projectImages V st).projected_gray = grayOf V images hf := by
    simp [projectImages, projOf, grayOf, f1, f2]
  rw [hp, hg, f3] at hm
  have key : Computed V images hf dr (storeShifts V (projectImages V st) d false) := by
    refine ⟨?_, ?_, ?_, ?_, ?_, ⟨d, hm, ?_, ?_, ?_, ?_, ?_, ?_⟩, ?_, ?_, ?_⟩
    · simpa [storeShifts, projectImages] using f1
    · simpa [storeShifts, projectImages] using f2
    · simpa [storeShifts, projectImages] using f3
    · simpa [storeShifts] using hp
    · simpa [storeShifts] using hg
    · simp [storeShifts]
    · simp [storeShifts]
    · simp [storeShifts]
    · simp [storeShifts]
    · simp [storeShifts]
    · simp [storeShifts]
    · left; simpa [storeShifts, projectImages] using f6
    · left; simpa [storeShifts, projectImages] using f7
    · intro g e
      left
      simpa [storeShifts, projectImages] using f8 g e
  exact Computed_of_core V images hf dr _ _ (storeShifts_core V _ d false draw) key

theorem firstN_self {α : Type} (xs : List α) (n : ℕ) (h : n = xs.length) :
    firstN xs n = .ok xs := by
  subst h
  simp [firstN]

theorem composite_nil (V : Vision) (st : PanoramicImage) (img : Mat) :
    composite V st [] ≠ .ok img := by
  unfold composite
  cases h : getAt st.projected_images 0 <;> simp [bind, Except.bind, getAt]

theorem prepareMaterial_computed (V : Vision) (images : List Mat) (hf dr : ℚ)
    (st : PanoramicImage) (hC : Computed V images hf dr st) (g e : Bool) :
    ∃ st2, prepareMaterial V st g e = .ok st2 ∧ Computed V images hf dr st2 ∧
      ((st.results g e).empty = false → st2 = st) := by
  have hC' := hC
  obtain ⟨c1, c2, c3, c4, c5, c6, c7, c8, c9⟩ := hC
  have hlen : st.projected_images.length = st.projected_gray.length := by
    rw [c4, c5, grayOf_length]
  unfold prepareMaterial
  simp only [bind, Except.bind]
  split_ifs with k1 k2 k3
  · -- grayscale, equalized, not yet computed
    simp only [Bool.and_eq_true, List.isEmpty_iff] at k2
    rw [firstN_self _ _ hlen]
    refine ⟨_, rfl, ?_, ?_⟩
    · refine ⟨c1, c2, c3, c4, c5, c6, c7, Or.inr (by simp only; rw [c5]), ?_⟩
      intro g' e'
      rcases c9 g' e' with h | h
      · exact Or.inl h
      · by_cases hge : g' = true ∧ e' = true
        · obtain ⟨rfl, rfl⟩ := hge
          simp only [material, k2.2] at h
          exact absurd h (composite_nil V st _)
        · right
          have hm : material { st with
              gray_equalized := List.map (equalize V) st.projected_gray
              calls := { st.calls with equalize := st.calls.equalize + st.projected_images.length } }
              g' e' = material st g' e' := by
            cases g' <;> cases e' <;> simp [material] at hge ⊢
          rw [hm, ← h]
          exact composite_congr V _ _ _ rfl rfl rfl rfl rfl rfl rfl
    · intro hne
      exfalso
      rcases c9 g e with h | h
      · rw [h] at hne; exact absurd hne (by simp)
      · rw [k1, k2.1] at h
        simp only [material, k2.2] at h
        exact composite_nil V st _ h
  · exact ⟨st, rfl, hC', fun _ => rfl⟩
  · simp only [Bool.and_eq_true, List.isEmpty_iff] at k3
    rw [firstN_self _ _ rfl]
    have hg : g = false := by simpa using k1
    refine ⟨_, rfl, ?_, ?_⟩
    · refine ⟨c1, c2, c3, c4, c5, c6, Or.inr (by simp only; rw [c4]), c8, ?_⟩
      intro g' e'
      rcases c9 g' e' with h | h
      · exact Or.inl h
      · by_cases hge : g' = false ∧ e' = true
        · obtain ⟨rfl, rfl⟩ := hge
          simp only [material, k3.2] at h
          exact absurd h (composite_nil V st _)
        · right
          have hm : material { st with
              bgr_equalized := List.map (equalize V) st.projected_images
              calls := { st.calls with equalize := st.calls.equalize + st.projected_images.length } }
              g' e' = material st g' e' := by
            cases g' <;> cases e' <;> simp [material] at hge ⊢
          rw [hm, ← h]
          exact composite_congr V _ _ _ rfl rfl rfl rfl rfl rfl rfl
    · intro hne
      exfalso
      rcases c9 g e with h | h
      · rw [h] at hne; exact absurd hne (by simp)
      · rw [hg, k3.1] at h
        simp only [material, k3.2] at h
        exact composite_nil V st _ h
  · exact ⟨st, rfl, hC', fun _ => rfl⟩

theorem makePanoramic_computed (V : Vision) (images : List Mat) (hf dr : ℚ)
    (st : PanoramicImage) (hC : Computed V images hf dr st) (g e : Bool)
    (r : PanoramicImage × Mat) (h : makePanoramic V st (material st g e) g e = .ok r) :
    Computed V images hf dr r.1 := by
  obtain ⟨hc, hr⟩ := makePanoramic_ok V st _ g e r h
  obtain ⟨c1, c2, c3, c4, c5, c6, c7, c8, c9⟩ := hC
  rw [hr]
  refine ⟨c1, c2, c3, c4, c5, c6, c7, c8, ?_⟩
  intro g' e'
  have hm : ∀ x y, material { st with
      results := setResult st.results g e r.2
      calls := { st.calls with makePanoramic := st.calls.makePanoramic + 1 } } x y
      = material st x y := by
    intro x y
    cases x <;> cases y <;> rfl
  by_cases hge : g' = g ∧ e' = e
  · obtain ⟨rfl, rfl⟩ := hge
    right
    rw [hm]
    simp only [setResult, and_self, if_true]
    rw [← hc]
    exact composite_congr V _ _ _ rfl rfl rfl rfl rfl rfl rfl
  · rcases c9 g' e' with h' | h'
    · left; simpa [setResult, hge] using h'
    · right
      rw [hm]
      simp only [setResult, hge, if_false]
      rw [← h']
      exact composite_congr V _ _ _ rfl rfl rfl rfl rfl rfl rfl

theorem ok_bind {α β : Type} (a : α) (f : α → Except Fault β) :
    (Except.ok a : Except Fault α).bind f = f a := rfl

theorem new_fresh (images : List Mat) (hf dr : ℚ) (direction : ℤ) :
    Fresh (if direction = LEFT then images.reverse else images) hf dr
      (PanoramicImage.new images hf dr direction) :=
  ⟨rfl, rfl, rfl, rfl, rfl, rfl, rfl, fun _ _ => rfl⟩

theorem ensureShifts_inv (V : Vision) (images : List Mat) (hf dr : ℚ)
    (st st1 : PanoramicImage) (hI : Fresh images hf dr st ∨ Computed V images hf dr st)
    (draw sd : Bool) (h : ensureShifts V st draw sd = .ok st1) :
    Computed V images hf dr st1 := by
  rcases hI with hF | hC
  · have hx : st.shift_x.isEmpty = true := by rw [hF.2.2.2.2.1]; rfl
    simp only [ensureShifts, hx, Bool.true_or, if_true] at h
    exact prepareShifts_fresh V images hf dr st st1 hF draw h
  · unfold ensureShifts at h
    split_ifs at h
    · obtain ⟨st1', h1, h2⟩ := prepareShifts_computed V images hf dr st hC draw
      rw [h1] at h
      simp only [Except.ok.injEq] at h
      subst h
      exact Computed_of_core V images hf dr _ _ h2.symm hC
    · simp only [Except.ok.injEq] at h
      subst h
      exact hC

theorem get_inv (V : Vision) (images : List Mat) (hf dr : ℚ) (st : PanoramicImage)
    (hI : Fresh images hf dr st ∨ Computed V images hf dr st) (g e draw : Bool)
    (r : PanoramicImage × Mat) (h : get V st g e draw = .ok r) :
    Computed V images hf dr r.1 := by
  rcases get_cases V st g e draw r h with ⟨hne, _, rfl⟩ | ⟨_, st1, st2, h1, h2, h3⟩
  · rcases hI with hF | hC
    · rw [hF.2.2.2.2.2.2.2 g e] at hne
      exact absurd hne (by simp)
    · exact hC
  · have hC1 := ensureShifts_inv V images hf dr st st1 hI _ _ h1
    obtain ⟨st2', k1, k2, _⟩ := prepareMaterial_computed V images hf dr st1 hC1 g e
    rw [k1] at h2
    simp only [Except.ok.injEq] at h2
    subst h2
    exact makePanoramic_computed V images hf dr st2' k2 g e r h3

theorem runCall_inv (V : Vision) (images : List Mat) (hf dr : ℚ) (st st' : PanoramicImage)
    (hI : Fresh images hf dr st ∨ Computed V images hf dr st) (c : Call)
    (h : runCall V st c = .ok st') : Computed V images hf dr st' := by
  cases c with
  | get g e d =>
    simp only [runCall, Except.map] at h
    cases hg : get V st g e d with
    | error f => rw [hg] at h; simp at h
    | ok r =>
      rw [hg] at h
      simp only [Except.ok.injEq] at h
      rw [← h]
      exact get_inv V images hf dr st hI g e d r hg
  | getAll d =>
    simp only [runCall, Except.map, getAll, bind, Except.bind] at h
    cases h0 : get V st false false d with
    | error f => rw [h0] at h; simp at h
    | ok r0 =>
      rw [h0] at h
      simp only at h
      have i0 := get_inv V images hf dr st hI _ _ _ r0 h0
      cases h1 : get V r0.1 false true d with
      | error f => rw [h1] at h; simp at h
      | ok r1 =>
        rw [h1] at h
        simp only at h
        have i1 := get_inv V images hf dr _ (Or.inr i0) _ _ _ r1 h1
        cases h2 : get V r1.1 true false d with
        | error f => rw [h2] at h; simp at h
        | ok r2 =>
          rw [h2] at h
          simp only at h
          have i2 := get_inv V images hf dr _ (Or.inr i1) _ _ _ r2 h2
          cases h3 : get V r2.1 true true d with
          | error f => rw [h3] at h; simp at h
          | ok r3 =>
            rw [h3] at h
            simp only [Except.ok.injEq] at h
            rw [← h]
            exact get_inv V images hf dr _ (Or.inr i2) _ _ _ r3 h3

theorem runCalls_inv (V : Vision) (images : List Mat) (hf dr : ℚ) (calls : List Call)
    (st st' : PanoramicImage) (hI : Fresh images hf dr st ∨ Computed V images hf dr st)
    (h : runCalls V st calls = .ok st') :
    Fresh images hf dr st' ∨ Computed V images hf dr st' := by
  induction calls generalizing st with
  | nil =>
    simp only [runCalls, Except.ok.injEq] at h
    rw [← h]; exact hI
  | cons c cs ih =>
    simp only [runCalls, bind, Except.bind] at h
    cases h1 : runCall V st c with
    | error f => rw [h1] at h; simp at h
    | ok st1 =>
      rw [h1] at h
      exact ih st1 (Or.inr (runCall_inv V images hf dr st st1 hI c h1)) h

/-! ## Exactness and sign of the rounding -/

theorem roundHalfEven_intCast (m : ℤ) : roundHalfEven (m : ℚ) = m :=
  roundHalfEven_eq_of_near _ m (by simp)

theorem fpRound_intCast (p : ℕ) (emin : ℤ) (z : ℤ) (hemin : emin ≤ 0)
    (hz : |z| < 2 ^ p) : fpRound p emin (z : ℚ) = z := by
  rcases eq_or_ne z 0 with rfl | hne
  · simp [fpRound_zero]
  have habs : (1 : ℚ) ≤ |(z : ℚ)| := by
    have : (1 : ℤ) ≤ |z| := Int.one_le_abs hne
    exact_mod_cast this
  have hpos : (0 : ℚ) < |(z : ℚ)| := lt_of_lt_of_le one_pos habs
  have hlt : |(z : ℚ)| < 2 ^ p := by exact_mod_cast hz
  have he0 : 0 ≤ Int.log 2 |(z : ℚ)| :=
    (Int.zpow_le_iff_le_log (R := ℚ) (b := 2) (by norm_num) hpos).mp (by simpa using habs)
  have hep : Int.log 2 |(z : ℚ)| < p :=
    (Int.lt_zpow_iff_log_lt (R := ℚ) (b := 2) (by norm_num) hpos).mp (by
      simpa using hlt)
  have hlo : (2 : ℚ) ^ (Int.log 2 |(z : ℚ)|) ≤ |(z : ℚ)| := by
    have := Int.zpow_log_le_self (R := ℚ) (b := 2) (by norm_num) hpos
    exact_mod_cast this
  have hhi : |(z : ℚ)| < (2 : ℚ) ^ (Int.log 2 |(z : ℚ)| + 1) := by
    have := Int.lt_zpow_succ_log_self (R := ℚ) (b := 2) (by norm_num) |(z : ℚ)|
    exact_mod_cast this
  obtain ⟨k, hk⟩ : ∃ k : ℕ, Int.log 2 |(z : ℚ)| - ((p : ℤ) - 1) = -(k : ℤ) :=
    ⟨((p : ℤ) - 1 - Int.log 2 |(z : ℚ)|).toNat, by omega⟩
  have hulp : (2 : ℚ) ^ (Int.log 2 |(z : ℚ)| - ((p : ℤ) - 1)) = ((2 : ℚ) ^ k)⁻¹ := by
    rw [hk, zpow_neg, zpow_natCast]
  have h2k : (0 : ℚ) < 2 ^ k := by positivity
  rw [fpRound_eq_of p emin (z : ℚ) (Int.log 2 |(z : ℚ)|) (z * 2 ^ k) hlo hhi (by omega) (by
    rw [hulp]
    have : (z : ℚ) / ((2 : ℚ) ^ k)⁻¹ - ((z * 2 ^ k : ℤ) : ℚ) = 0 := by
      push_cast; field_simp
    rw [this]; norm_num)]
  rw [hulp]
  push_cast
  field_simp

theorem rnd64_intCast (z : ℤ) (hz : |z| < 2 ^ 53) : rnd64 (z : ℚ) = z :=
  fpRound_intCast 53 (-1022) z (by norm_num) hz

theorem rnd32_intCast (z : ℤ) (hz : |z| < 2 ^ 24) : rnd32 (z : ℚ) = z :=
  fpRound_intCast 24 (-126) z (by norm_num) hz

theorem roundHalfEven_nonneg (q : ℚ) (h : 0 ≤ q) : 0 ≤ roundHalfEven q := by
  have hf : 0 ≤ ⌊q⌋ := Int.floor_nonneg.mpr h
  unfold roundHalfEven
  simp only
  split_ifs <;> omega

theorem fpRound_nonneg (p : ℕ) (emin : ℤ) (q : ℚ) (h : 0 ≤ q) : 0 ≤ fpRound p emin q := by
  unfold fpRound
  split_ifs with h0
  · exact le_refl _
  · simp only
    have hu : (0 : ℚ) < 2 ^ (max (Int.log 2 |q|) emin - ((p : ℤ) - 1)) := by positivity
    have := roundHalfEven_nonneg _ (div_nonneg h hu.le)
    exact mul_nonneg (by exact_mod_cast this) hu.le

theorem roundHalfAway_intCast (n : ℤ) : roundHalfAway (n : ℚ) = n := by
  unfold roundHalfAway
  split_ifs with h
  · rw [Int.floor_eq_iff]; constructor <;> linarith
  · rw [Int.ceil_eq_iff]; constructor <;> linarith

theorem roundHalfAway_nonneg (q : ℚ) (h : 0 ≤ q) : 0 ≤ roundHalfAway q := by
  unfold roundHalfAway
  rw [if_pos h]
  exact Int.floor_nonneg.mpr (by linarith)

theorem roundHalfAway_sub_le (q : ℚ) : |(roundHalfAway q : ℚ) - q| ≤ 1 / 2 := by
  unfold roundHalfAway
  split_ifs with h
  · have h1 := Int.floor_le (q + 1 / 2)
    have h2 := Int.lt_floor_add_one (q + 1 / 2)
    rw [abs_le]; constructor <;> linarith
  · have h1 := Int.le_ceil (q - 1 / 2)
    have h2 := Int.ceil_lt_add_one (q - 1 / 2)
    rw [abs_le]; constructor <;> linarith

/-! ## The inlier loop -/

theorem mapM_length {α β : Type} (f : α → Except Fault β) :
    ∀ (xs : List α) (ys : List β), xs.mapM f = .ok ys → ys.length = xs.length := by
  intro xs
  induction xs with
  | nil => intro ys h; simp only [List.mapM_nil, pure, Except.pure] at h; cases h; rfl
  | cons x xs ih =>
    intro ys h
    simp only [List.mapM_cons, bind, Except.bind, pure, Except.pure] at h
    cases hx : f x with
    | error f0 => rw [hx] at h; cases h
    | ok y =>
      rw [hx] at h; simp only at h
      cases hxs : xs.mapM f with
      | error f0 => rw [hxs] at h; cases h
      | ok ys0 =>
        rw [hxs] at h; simp only at h; cases h
        simp [ih ys0 hxs]

theorem inlierPairs_cons_zero (l r : KeyPoint) (ls rs : List KeyPoint) (bs : List ℤ) :
    inlierPairs (l :: ls) (r :: rs) (0 :: bs) = inlierPairs ls rs bs := by
  simp [inlierPairs]

theorem inlierPairs_cons_one (l r : KeyPoint) (ls rs : List KeyPoint) (b : ℤ) (bs : List ℤ)
    (hb : b ≠ 0) :
    inlierPairs (l :: ls) (r :: rs) (b :: bs) = (l, r) :: inlierPairs ls rs bs := by
  simp [inlierPairs, hb]

theorem maskLoop_char (ms : List DMatch) (left right : List KeyPoint)
    (hl : left.length = ms.length) (hr : right.length = ms.length) :
    ∀ (mask : List ℤ) (k : ℕ) (acc : MeanAcc), k + mask.length ≤ ms.length →
      ∃ acc2, (List.enumFrom k mask).foldlM (maskStep ms left right) acc = .ok acc2 ∧
        acc2.sum_dx = floatSum acc.sum_dx
          ((inlierPairs (left.drop k) (right.drop k) mask).map dispX) ∧
        acc2.sum_dy = floatSum acc.sum_dy
          ((inlierPairs (left.drop k) (right.drop k) mask).map dispY) ∧
        acc2.count_dx = acc.count_dx + (inlierPairs (left.drop k) (right.drop k) mask).length ∧
        acc2.count_dy = acc.count_dy + (inlierPairs (left.drop k) (right.drop k) mask).length := by
  intro mask
  induction mask with
  | nil =>
    intro k acc _
    refine ⟨acc, rfl, ?_, ?_, ?_, ?_⟩ <;> simp [inlierPairs, floatSum]
  | cons b bs ih =>
    intro k acc hk
    simp only [List.length_cons] at hk
    have hkl : k < left.length := by omega
    have hkr : k < right.length := by omega
    have hkm : k < ms.length := by omega
    have dl : left.drop k = left.get ⟨k, hkl⟩ :: left.drop (k + 1) := by
      rw [List.drop_eq_getElem_cons hkl]; rfl
    have dr : right.drop k = right.get ⟨k, hkr⟩ :: right.drop (k + 1) := by
      rw [List.drop_eq_getElem_cons hkr]; rfl
    simp only [List.enumFrom_cons, List.foldlM_cons]
    by_cases hb : b = 0
    · subst hb
      obtain ⟨acc2, h0, h1, h2, h3, h4⟩ := ih (k + 1) acc (by omega)
      refine ⟨acc2, ?_, ?_, ?_, ?_, ?_⟩
      · simp only [maskStep, if_true, bind, Except.bind]
        exact h0
      all_goals rw [dl, dr, inlierPairs_cons_zero]
      · exact h1
      · exact h2
      · exact h3
      · exact h4
    · obtain ⟨acc2, h0, h1, h2, h3, h4⟩ := ih (k + 1)
        { sum_dx := rnd64 (acc.sum_dx + rnd32 ((left.get ⟨k, hkl⟩).x - (right.get ⟨k, hkr⟩).x))
          sum_dy := rnd64 (acc.sum_dy + rnd32 ((left.get ⟨k, hkl⟩).y - (right.get ⟨k, hkr⟩).y))
          count_dx := acc.count_dx + 1
          count_dy := acc.count_dy + 1
          homography_matches := acc.homography_matches ++ [ms.get ⟨k, hkm⟩] } (by omega)
      refine ⟨acc2, ?_, ?_, ?_, ?_, ?_⟩
      · simp only [maskStep, if_neg hb, getAt_of_lt ms k hkm, getAt_of_lt left k hkl,
          getAt_of_lt right k hkr, bind, Except.bind]
        exact h0
      all_goals rw [dl, dr, inlierPairs_cons_one _ _ _ _ _ _ hb]
      · rw [h1]; simp [floatSum, dispX]
      · rw [h2]; simp [floatSum, dispY]
      · rw [h3]; simp only [List.length_cons]; push_cast; ring
      · rw [h4]; simp only [List.length_cons]; push_cast; ring

/-- The estimate of a pair whose match points exist: the rounded floating-point means of the
inlier displacements, provided there is an inlier. -/
theorem pairShift_char (V : Vision) (kl kr : List KeyPoint) (ms : List DMatch)
    (left right : List KeyPoint)
    (hl : ms.mapM (fun m => getAtInt kl m.queryIdx) = .ok left)
    (hr : ms.mapM (fun m => getAtInt kr m.trainIdx) = .ok right)
    (hmask : (V.findHomography left right).length ≤ ms.length)
    (hin : inlierPairs left right (V.findHomography left right) ≠ []) :
    ∃ est, pairShift V kl kr ms = .ok est ∧
      est.shift_x = roundHalfAway
        (floatMean ((inlierPairs left right (V.findHomography left right)).map dispX)) ∧
      est.shift_y = roundHalfAway
        (floatMean ((inlierPairs left right (V.findHomography left right)).map dispY)) := by
  have ll := mapM_length _ ms left hl
  have lr := mapM_length _ ms right hr
  obtain ⟨acc, h0, h1, h2, h3, h4⟩ := maskLoop_char ms left right ll lr
    (V.findHomography left right) 0 ⟨0, 0, 0, 0, []⟩ (by omega)
  simp only [List.drop_zero, zero_add] at h1 h2 h3 h4
  have hpos : 0 < (inlierPairs left right (V.findHomography left right)).length :=
    List.length_pos.mpr hin
  have hc : ¬ (acc.count_dx = 0 ∨ acc.count_dy = 0) := by
    rw [h3, h4]; omega
  have he : pairShift V kl kr ms = .ok
      { shift_x := roundHalfAway (rnd64 (acc.sum_dx / acc.count_dx))
        shift_y := roundHalfAway (rnd64 (acc.sum_dy / acc.count_dy))
        homography_matches := acc.homography_matches } := by
    unfold pairShift
    rw [hl, hr]
    simp only [bind, Except.bind, List.enum]
    rw [h0]
    simp only [if_neg hc]
  refine ⟨_, he, ?_, ?_⟩
  · simp only [floatMean, h1, h3, List.length_map]
  · simp only [floatMean, h2, h4, List.length_map]

theorem pairShift_no_inlier (V : Vision) (kl kr : List KeyPoint) (ms : List DMatch)
    (left right : List KeyPoint)
    (hl : ms.mapM (fun m => getAtInt kl m.queryIdx) = .ok left)
    (hr : ms.mapM (fun m => getAtInt kr m.trainIdx) = .ok right)
    (hmask : (V.findHomography left right).length ≤ ms.length)
    (hin : inlierPairs left right (V.findHomography left right) = []) :
    pairShift V kl kr ms = .error .notANumber := by
  have ll := mapM_length _ ms left hl
  have lr := mapM_length _ ms right hr
  obtain ⟨acc, h0, h1, h2, h3, h4⟩ := maskLoop_char ms left right ll lr
    (V.findHomography left right) 0 ⟨0, 0, 0, 0, []⟩ (by omega)
  simp only [List.drop_zero, zero_add, hin, List.length_nil, Nat.cast_zero] at h3 h4
  unfold pairShift
  rw [hl, hr]
  simp only [bind, Except.bind, List.enum]
  rw [h0]
  simp only [h3, true_or, if_true]

/-! ## The distance filter -/

theorem foldl_min_spec (ms : List DMatch) :
    ∀ a : ℚ,
      ms.foldl (fun acc m => if m.distance < acc then m.distance else acc) a ≤ a ∧
      (∀ x ∈ ms, ms.foldl (fun acc m => if m.distance < acc then m.distance else acc) a
        ≤ x.distance) ∧
      (ms.foldl (fun acc m => if m.distance < acc then m.distance else acc) a = a ∨
        ∃ x ∈ ms, x.distance =
          ms.foldl (fun acc m => if m.distance < acc then m.distance else acc) a) := by
  induction ms with
  | nil => intro a; simp
  | cons m ms ih =>
    intro a
    simp only [List.foldl_cons, List.mem_cons, forall_eq_or_imp, exists_eq_or_imp]
    obtain ⟨h1, h2, h3⟩ := ih (if m.distance < a then m.distance else a)
    have hle : (if m.distance < a then m.distance else a) ≤ a := by
      split_ifs with h
      · exact h.le
      · exact le_refl _
    have hlem : (if m.distance < a then m.distance else a) ≤ m.distance := by
      split_ifs with h
      · exact le_refl _
      · exact not_lt.mp h
    refine ⟨h1.trans hle, ⟨h1.trans hlem, h2⟩, ?_⟩
    rcases h3 with h3 | h3
    · by_cases h : m.distance < a
      · right; left; rw [h3, if_pos h]
      · left; rw [h3, if_neg h]
    · right; right; exact h3

/-- C13: for every non-empty match list and every `dist_ratio` the filter returns, in the
original order, exactly the matches whose distance is at most the `double` product
`max(1.0, m) * dist_ratio`, where `m` is the least distance of the whole list: one threshold
for the pair, the same for every match. -/
theorem global_distance_filter (dist_ratio : ℚ) (ms : List DMatch) (h : ms ≠ []) :
    ∃ m : ℚ, (∃ x ∈ ms, x.distance = m) ∧ (∀ x ∈ ms, m ≤ x.distance) ∧
      distanceFilter dist_ratio ms =
        .ok (ms.filter (fun x => decide (x.distance ≤ rnd64 (max 1 m * dist_ratio)))) := by
  cases ms with
  | nil => exact absurd rfl h
  | cons m0 rest =>
    obtain ⟨h1, h2, h3⟩ := foldl_min_spec (m0 :: rest) m0.distance
    refine ⟨_, ?_, h2, rfl⟩
    rcases h3 with h3 | h3
    · exact ⟨m0, List.mem_cons_self _ _, h3.symm⟩
    · exact h3

/-- Witness of C13: three matches at distances 3, 1/2 and 7 with `dist_ratio = 2`. -/
theorem global_distance_filter_witness :
    ∃ m : ℚ, (∃ x ∈ [(⟨0, 0, 3⟩ : DMatch), ⟨1, 1, 1 / 2⟩, ⟨2, 2, 7⟩], x.distance = m) ∧
      (∀ x ∈ [(⟨0, 0, 3⟩ : DMatch), ⟨1, 1, 1 / 2⟩, ⟨2, 2, 7⟩], m ≤ x.distance) ∧
      distanceFilter 2 [⟨0, 0, 3⟩, ⟨1, 1, 1 / 2⟩, ⟨2, 2, 7⟩] =
        .ok (([(⟨0, 0, 3⟩ : DMatch), ⟨1, 1, 1 / 2⟩, ⟨2, 2, 7⟩]).filter
          (fun x => decide (x.distance ≤ rnd64 (max 1 m * 2)))) :=
  global_distance_filter 2 [⟨0, 0, 3⟩, ⟨1, 1, 1 / 2⟩, ⟨2, 2, 7⟩] (by simp)

/-! ## The mean displacement -/

theorem rnd32_eq_of_round (q : ℚ) (e m : ℤ) (hlo : (2:ℚ) ^ e ≤ |q|)
    (hhi : |q| < (2:ℚ) ^ (e + 1)) (he : -126 ≤ e)
    (hm : roundHalfEven (q / 2 ^ (e - 23)) = m) :
    rnd32 q = m * 2 ^ (e - 23) := by
  have hpos : 0 < |q| := lt_of_lt_of_le (by positivity) hlo
  have hq : q ≠ 0 := abs_pos.mp hpos
  have hlog : Int.log 2 |q| = e := by
    apply le_antisymm
    · have := (Int.lt_zpow_iff_log_lt (R := ℚ) (b := 2) (by norm_num) hpos (x := e + 1)).mp
        (by exact_mod_cast hhi)
      omega
    · exact (Int.zpow_le_iff_le_log (R := ℚ) (b := 2) (by norm_num) hpos).mp (by exact_mod_cast hlo)
  unfold rnd32 fpRound
  rw [if_neg hq]
  simp only [hlog, max_eq_left he]
  norm_num
  left
  exact_mod_cast hm

theorem floatSum_const (c : ℤ) (hc : |c| < 2 ^ 24) :
    ∀ (ds : List ℚ) (k : ℕ), (∀ d ∈ ds, d = (c : ℚ)) → k + ds.length < 2 ^ 29 →
      floatSum (((k : ℤ) * c : ℤ) : ℚ) ds = ((((k + ds.length : ℕ) : ℤ) * c : ℤ) : ℚ) := by
  intro ds
  induction ds with
  | nil => intro k _ _; simp [floatSum]
  | cons d ds ih =>
    intro k hd hk
    simp only [List.length_cons] at hk
    have hdc : d = (c : ℚ) := hd d (List.mem_cons_self _ _)
    have hstep : rnd64 ((((k : ℤ) * c : ℤ) : ℚ) + rnd32 d) = ((((k + 1 : ℕ) : ℤ) * c : ℤ) : ℚ) := by
      rw [hdc, rnd32_intCast c hc]
      have : (((k : ℤ) * c : ℤ) : ℚ) + (c : ℚ) = ((((k + 1 : ℕ) : ℤ) * c : ℤ) : ℚ) := by
        push_cast; ring
      rw [this]
      apply rnd64_intCast
      rw [abs_mul]
      have h1 : |((k + 1 : ℕ) : ℤ)| < 2 ^ 29 := by
        rw [abs_of_nonneg (by positivity)]
        have : k + 1 < 2 ^ 29 := by omega
        exact_mod_cast this
      have h0 : (0 : ℤ) ≤ |c| := abs_nonneg c
      calc |((k + 1 : ℕ) : ℤ)| * |c| ≤ 2 ^ 29 * |c| :=
            mul_le_mul_of_nonneg_right h1.le h0
        _ ≤ 2 ^ 29 * (2 ^ 24 - 1) := mul_le_mul_of_nonneg_left (by omega) (by norm_num)
        _ < 2 ^ 53 := by norm_num
    have := ih (k + 1) (fun x hx => hd x (List.mem_cons_of_mem _ hx)) (by omega)
    simp only [floatSum, List.foldl_cons] at this ⊢
    rw [hstep, this]
    congr 2
    simp only [List.length_cons]
    push_cast
    ring

theorem floatMean_const (c : ℤ) (hc : |c| < 2 ^ 24) (ds : List ℚ) (hne : ds ≠ [])
    (hd : ∀ d ∈ ds, d = (c : ℚ)) (hn : ds.length < 2 ^ 29) : floatMean ds = c := by
  have h := floatSum_const c hc ds 0 hd (by omega)
  simp only [Nat.cast_zero, zero_mul, Int.cast_zero, zero_add] at h
  have hpos : (0 : ℚ) < ((ds.length : ℤ) : ℚ) := by
    have := List.length_pos.mpr hne
    exact_mod_cast this
  unfold floatMean
  rw [h]
  have : ((((ds.length : ℕ) : ℤ) * c : ℤ) : ℚ) / ((ds.length : ℤ) : ℚ) = (c : ℚ) := by
    rw [Int.cast_mul]
    exact mul_div_cancel_left₀ _ hpos.ne'
  rw [this]
  exact rnd64_intCast c (lt_of_lt_of_le hc (by norm_num))

theorem floatSum_nonneg (ds : List ℚ) : ∀ s0 : ℚ, 0 ≤ s0 → (∀ d ∈ ds, 0 ≤ d) →
    0 ≤ floatSum s0 ds := by
  induction ds with
  | nil => intro s0 h _; simpa [floatSum] using h
  | cons d ds ih =>
    intro s0 h hd
    simp only [floatSum, List.foldl_cons]
    apply ih
    · exact fpRound_nonneg _ _ _
        (add_nonneg h (fpRound_nonneg _ _ _ (hd d (List.mem_cons_self _ _))))
    · exact fun x hx => hd x (List.mem_cons_of_mem _ hx)

theorem floatMean_nonneg (ds : List ℚ) (hd : ∀ d ∈ ds, 0 ≤ d) : 0 ≤ floatMean ds := by
  unfold floatMean
  apply fpRound_nonneg
  apply div_nonneg (floatSum_nonneg ds 0 (le_refl _) hd)
  exact_mod_cast Nat.zero_le _

/-! ## The estimate of pair `i` is what `prepareShifts` stores at index `i` -/

theorem mapM_getElem_some {α β : Type} (f : α → Except Fault β) :
    ∀ (xs : List α) (ys : List β), xs.mapM f = .ok ys →
      ∀ (i : ℕ) (x : α), xs[i]? = some x → ∃ y, f x = .ok y ∧ ys[i]? = some y := by
  intro xs
  induction xs with
  | nil => intro ys _ i x hx; simp at hx
  | cons a xs ih =>
    intro ys h i x hx
    simp only [List.mapM_cons, bind, Except.bind, pure, Except.pure] at h
    cases ha : f a with
    | error f0 => rw [ha] at h; cases h
    | ok y =>
      rw [ha] at h; simp only at h
      cases hxs : xs.mapM f with
      | error f0 => rw [hxs] at h; cases h
      | ok ys0 =>
        rw [hxs] at h; simp only at h; cases h
        cases i with
        | zero =>
          simp only [List.getElem?_cons_zero, Option.some.injEq] at hx
          subst hx
          exact ⟨y, ha, by simp⟩
        | succ j =>
          simp only [List.getElem?_cons_succ] at hx
          obtain ⟨y2, h1, h2⟩ := ih ys0 hxs j x hx
          exact ⟨y2, h1, by simpa using h2⟩

theorem matchShifts_pair (V : Vision) (dr : ℚ) (G : List Mat) (N : ℕ) (d : ShiftData)
    (h : matchShifts V dr G N = .ok d) (i : ℕ) (ga gb : Mat)
    (ha : G[i]? = some ga) (hb : G[i + 1]? = some gb) (hi : i + 1 < N) :
    ∃ close est,
      distanceFilter dr (V.bfMatch (V.detectAndCompute ga).2 (V.detectAndCompute gb).2) =
        .ok close ∧
      pairShift V (V.detectAndCompute ga).1 (V.detectAndCompute gb).1 close = .ok est ∧
      d.shifts[i]? = some (est.shift_x, est.shift_y) := by
  unfold matchShifts at h
  simp only [bind, Except.bind] at h
  cases hf : firstN G N with
  | error f => rw [hf] at h; simp at h
  | ok grays =>
    rw [hf] at h
    simp only at h
    have hg : grays = G.take N := by
      unfold firstN at hf
      split_ifs at hf
      simp only [Except.ok.injEq] at hf
      exact hf.symm
    split_ifs at h with hN0
    cases hc : ((adjacent (grays.map V.detectAndCompute)).map
        (fun p => V.bfMatch p.1.2 p.2.2)).mapM (distanceFilter dr) with
    | error f => rw [hc] at h; simp at h
    | ok close =>
      rw [hc] at h
      simp only at h
      cases he : ((adjacent (grays.map V.detectAndCompute)).zip close).mapM
          (fun p => pairShift V p.1.1.1 p.1.2.1 p.2) with
      | error f => rw [he] at h; simp at h
      | ok est =>
        rw [he] at h
        simp only [Except.ok.injEq] at h
        have hadj : (adjacent (grays.map V.detectAndCompute))[i]? =
            some (V.detectAndCompute ga, V.detectAndCompute gb) := by
          rw [adjacent, List.getElem?_zip_eq_some]
          constructor
          · simp [hg, List.getElem?_take, ha, show i < N by omega]
          · simp [hg, List.getElem?_take, hb, hi]
        obtain ⟨c, hc1, hc2⟩ := mapM_getElem_some _ _ _ hc i
          (V.bfMatch (V.detectAndCompute ga).2 (V.detectAndCompute gb).2) (by simp [hadj])
        obtain ⟨e0, he1, he2⟩ := mapM_getElem_some _ _ _ he i
          ((V.detectAndCompute ga, V.detectAndCompute gb), c) (by
            rw [List.getElem?_zip_eq_some]; exact ⟨hadj, hc2⟩)
        refine ⟨c, e0, hc1, he1, ?_⟩
        rw [← h]
        simp [he2]

theorem rnd32_tie_example : rnd32 33554434 = 33554432 := by
  rw [rnd32_eq_of_round 33554434 25 8388608 (by norm_num) (by norm_num [abs_of_pos])
    (by norm_num) (roundHalfEven_tie 8388608 _ (by decide) (by norm_num))]
  norm_num

theorem rnd64_of_int (z : ℤ) (q : ℚ) (hq : q = z) (hz : |z| < 2 ^ 53) : rnd64 q = q := by
  rw [hq]; exact rnd64_intCast z hz

theorem rnd32_of_int (z : ℤ) (q : ℚ) (hq : q = z) (hz : |z| < 2 ^ 24) : rnd32 q = q := by
  rw [hq]; exact rnd32_intCast z hz

theorem roundHalfAway_of_int (z : ℤ) (q : ℚ) (hq : q = z) : roundHalfAway q = z := by
  rw [hq]; exact roundHalfAway_intCast z

/-- C14, the claim as stated fails. One inlier joins the left point at column 33554436 to the
right point at column 2, so its displacement is the integer pair `(33554434, 0)`; the `float`
difference of the two columns is 33554432, and that is the stored horizontal shift, two pixels
away from the displacement. -/
theorem large_offset_breaks_recovery :
    inlierPairs [⟨33554436, 0⟩] [⟨2, 0⟩]
        (Vision.sample.findHomography [⟨33554436, 0⟩] [⟨2, 0⟩]) = [(⟨33554436, 0⟩, ⟨2, 0⟩)] ∧
    dispX (⟨33554436, 0⟩, ⟨2, 0⟩) = ((33554434 : ℤ) : ℚ) ∧
    dispY (⟨33554436, 0⟩, ⟨2, 0⟩) = ((0 : ℤ) : ℚ) ∧
    pairShift Vision.sample [⟨33554436, 0⟩] [⟨2, 0⟩] [⟨0, 0, 0⟩] =
      .ok ⟨33554432, 0, [⟨0, 0, 0⟩]⟩ ∧
    ¬ |(33554432 : ℤ) - 33554434| ≤ 1 := by
  have e1 : rnd64 33554432 = 33554432 := rnd64_of_int 33554432 _ (by norm_num) (by norm_num)
  have e2 : roundHalfAway (33554432 : ℚ) = 33554432 :=
    roundHalfAway_of_int 33554432 _ (by norm_num)
  have e3 : roundHalfAway (0 : ℚ) = 0 := roundHalfAway_of_int 0 _ (by norm_num)
  have e4 : rnd64 0 = 0 := fpRound_zero _ _
  have e5 : rnd32 0 = 0 := fpRound_zero _ _
  have e6 : ((33554436 : ℚ) - 2) = 33554434 := by norm_num
  refine ⟨by simp [inlierPairs, Vision.sample], by norm_num [dispX], by norm_num [dispY], ?_,
    by norm_num⟩
  simp only [pairShift, Vision.sample, List.mapM_cons, List.mapM_nil, bind, Except.bind, pure,
    Except.pure, getAtInt, getAt]
  simp [List.enum, List.enumFrom, maskStep, getAt, bind, Except.bind, pure, Except.pure,
    e6, rnd32_tie_example, e1, e2, e3, e4, e5]

/-- C14, amended. For an adjacent pair with at least one inlier in which every inlier has the
same displacement (left point minus right point), equal to the integers `(dx0, dy0)` with
`|dx0|, |dy0| < 2^24`, and with fewer than `2^29` inliers, the estimate that `prepareShifts`
computes for the pair (and stores as `shift_x[i]`, `shift_y[i]`, see `matchShifts_pair`) is
`(dx0, dy0)` exactly, hence within one pixel in each coordinate. -/
theorem shift_recovery (V : Vision) (kl kr : List KeyPoint) (ms : List DMatch)
    (left right : List KeyPoint) (dx0 dy0 : ℤ)
    (hl : ms.mapM (fun m => getAtInt kl m.queryIdx) = .ok left)
    (hr : ms.mapM (fun m => getAtInt kr m.trainIdx) = .ok right)
    (hmask : (V.findHomography left right).length ≤ ms.length)
    (hin : inlierPairs left right (V.findHomography left right) ≠ [])
    (hsame : ∀ p ∈ inlierPairs left right (V.findHomography left right),
      dispX p = (dx0 : ℚ) ∧ dispY p = (dy0 : ℚ))
    (hx : |dx0| < 2 ^ 24) (hy : |dy0| < 2 ^ 24)
    (hn : (inlierPairs left right (V.findHomography left right)).length < 2 ^ 29) :
    ∃ est, pairShift V kl kr ms = .ok est ∧ est.shift_x = dx0 ∧ est.shift_y = dy0 ∧
      |est.shift_x - dx0| ≤ 1 ∧ |est.shift_y - dy0| ≤ 1 := by
  obtain ⟨est, he, h1, h2⟩ := pairShift_char V kl kr ms left right hl hr hmask hin
  have mx : floatMean ((inlierPairs left right (V.findHomography left right)).map dispX) = dx0 :=
    floatMean_const dx0 hx _ (by simpa using hin)
      (by
        intro d hd
        obtain ⟨p, hp, rfl⟩ := List.mem_map.mp hd
        exact (hsame p hp).1)
      (by simpa using hn)
  have my : floatMean ((inlierPairs left right (V.findHomography left right)).map dispY) = dy0 :=
    floatMean_const dy0 hy _ (by simpa using hin)
      (by
        intro d hd
        obtain ⟨p, hp, rfl⟩ := List.mem_map.mp hd
        exact (hsame p hp).2)
      (by simpa using hn)
  rw [mx, roundHalfAway_intCast] at h1
  rw [my, roundHalfAway_intCast] at h2
  exact ⟨est, he, h1, h2, by rw [h1]; simp, by rw [h2]; simp⟩

/-- Witness of C14 (amended): one inlier from `(5, 2)` to `(0, 0)` gives the shift `(5, 2)`. -/
theorem shift_recovery_witness :
    ∃ est, pairShift Vision.sample [⟨5, 2⟩, ⟨0, 0⟩] [⟨5, 2⟩, ⟨0, 0⟩] [⟨0, 1, 0⟩] = .ok est ∧
      est.shift_x = 5 ∧ est.shift_y = 2 ∧ |est.shift_x - 5| ≤ 1 ∧ |est.shift_y - 2| ≤ 1 :=
  shift_recovery Vision.sample [⟨5, 2⟩, ⟨0, 0⟩] [⟨5, 2⟩, ⟨0, 0⟩] [⟨0, 1, 0⟩]
    [⟨5, 2⟩] [⟨0, 0⟩] 5 2 (by rfl) (by rfl) (by simp [Vision.sample])
    (by simp [inlierPairs, Vision.sample])
    (by simp [inlierPairs, Vision.sample, dispX, dispY])
    (by norm_num) (by norm_num) (by simp [inlierPairs, Vision.sample])

/-- C15, the claim as stated fails. One inlier joins the left point at column `300.5` to the
right point at column `10 + 2^-20` (both are `float` values): the `float` difference is
`290.5`, so the computed mean is `290.5` and the stored shift is `291`, while the exact
displacement, which is the exact mean, is `290.5 - 2^-20`, more than `1/2` away from it. -/
theorem rounded_shift_off_exact_mean :
    inlierPairs [⟨601 / 2, 50⟩] [⟨10 + 1 / 2 ^ 20, 50⟩]
        (Vision.sample.findHomography [⟨601 / 2, 50⟩] [⟨10 + 1 / 2 ^ 20, 50⟩]) =
      [(⟨601 / 2, 50⟩, ⟨10 + 1 / 2 ^ 20, 50⟩)] ∧
    pairShift Vision.sample [⟨601 / 2, 50⟩] [⟨10 + 1 / 2 ^ 20, 50⟩] [⟨0, 0, 0⟩] =
      .ok ⟨291, 0, [⟨0, 0, 0⟩]⟩ ∧
    exactMean ([((⟨601 / 2, 50⟩ : KeyPoint), (⟨10 + 1 / 2 ^ 20, 50⟩ : KeyPoint))].map dispX) =
      581 / 2 - 1 / 2 ^ 20 ∧
    ¬ |((291 : ℤ) : ℚ) - (581 / 2 - 1 / 2 ^ 20)| ≤ 1 / 2 := by
  have e0 : rnd64 0 = 0 := fpRound_zero _ _
  have e0f : rnd32 0 = 0 := fpRound_zero _ _
  have e1 : rnd32 (601 / 2 - (10 + 1 / 2 ^ 20)) = 581 / 2 := by
    rw [rnd32_eq_of (601 / 2 - (10 + 1 / 2 ^ 20)) 8 9519104 (by norm_num [abs_of_pos])
      (by norm_num [abs_of_pos]) (by norm_num) (by norm_num [abs_of_pos])]
    norm_num
  have e2 : rnd64 (581 / 2) = 581 / 2 := by
    rw [rnd64_eq_of (581 / 2) 8 (581 * 2 ^ 43) (by norm_num [abs_of_pos])
      (by norm_num [abs_of_pos]) (by norm_num) (by norm_num)]
    norm_num
  have e3 : roundHalfAway (581 / 2 : ℚ) = 291 := by
    unfold roundHalfAway
    rw [if_pos (by norm_num), Int.floor_eq_iff]
    constructor <;> norm_num
  have e4 : roundHalfAway (0 : ℚ) = 0 := roundHalfAway_of_int 0 _ (by norm_num)
  refine ⟨by simp [inlierPairs, Vision.sample], ?_, by norm_num [exactMean, dispX], ?_⟩
  · simp only [pairShift, Vision.sample, List.mapM_cons, List.mapM_nil, bind, Except.bind, pure,
      Except.pure, getAtInt, getAt]
    have e5 : rnd32 (601 / 2 - (10 + (2 ^ 20 : ℚ)⁻¹)) = 581 / 2 := by simpa using e1
    simp [List.enum, List.enumFrom, maskStep, getAt, bind, Except.bind, pure, Except.pure,
      e0, e0f, e5, e2, e3, e4]
  · rw [abs_of_pos (by norm_num)]; norm_num

/-- C15, amended. For an adjacent pair with at least one inlier, `shift_x[i]` and
`shift_y[i]` (the estimate of the pair, see `matchShifts_pair`) are the means of the inliers'
x and y displacements as the code computes them (each displacement a `float` difference,
summed and divided in `double`), rounded to the nearest integer, halfway cases away from
zero, not truncated: each differs from that computed mean by at most `1/2`. -/
theorem shift_is_rounded_mean (V : Vision) (kl kr : List KeyPoint) (ms : List DMatch)
    (left right : List KeyPoint)
    (hl : ms.mapM (fun m => getAtInt kl m.queryIdx) = .ok left)
    (hr : ms.mapM (fun m => getAtInt kr m.trainIdx) = .ok right)
    (hmask : (V.findHomography left right).length ≤ ms.length)
    (hin : inlierPairs left right (V.findHomography left right) ≠ []) :
    ∃ est, pairShift V kl kr ms = .ok est ∧
      est.shift_x = roundHalfAway
        (floatMean ((inlierPairs left right (V.findHomography left right)).map dispX)) ∧
      est.shift_y = roundHalfAway
        (floatMean ((inlierPairs left right (V.findHomography left right)).map dispY)) ∧
      |(est.shift_x : ℚ) -
        floatMean ((inlierPairs left right (V.findHomography left right)).map dispX)| ≤ 1 / 2 ∧
      |(est.shift_y : ℚ) -
        floatMean ((inlierPairs left right (V.findHomography left right)).map dispY)| ≤ 1 / 2 := by
  obtain ⟨est, he, h1, h2⟩ := pairShift_char V kl kr ms left right hl hr hmask hin
  refine ⟨est, he, h1, h2, ?_, ?_⟩
  · rw [h1]; exact roundHalfAway_sub_le _
  · rw [h2]; exact roundHalfAway_sub_le _

/-- Witness of C15 (amended): the inlier of the counterexample. -/
theorem shift_is_rounded_mean_witness :
    ∃ est, pairShift Vision.sample [⟨601 / 2, 50⟩] [⟨10 + 1 / 2 ^ 20, 50⟩] [⟨0, 0, 0⟩] = .ok est ∧
      est.shift_x = roundHalfAway (floatMean ((inlierPairs [⟨601 / 2, 50⟩]
        [⟨10 + 1 / 2 ^ 20, 50⟩] (Vision.sample.findHomography [⟨601 / 2, 50⟩]
          [⟨10 + 1 / 2 ^ 20, 50⟩])).map dispX)) ∧
      est.shift_y = roundHalfAway (floatMean ((inlierPairs [⟨601 / 2, 50⟩]
        [⟨10 + 1 / 2 ^ 20, 50⟩] (Vision.sample.findHomography [⟨601 / 2, 50⟩]
          [⟨10 + 1 / 2 ^ 20, 50⟩])).map dispY)) ∧
      |(est.shift_x : ℚ) - floatMean ((inlierPairs [⟨601 / 2, 50⟩]
        [⟨10 + 1 / 2 ^ 20, 50⟩] (Vision.sample.findHomography [⟨601 / 2, 50⟩]
          [⟨10 + 1 / 2 ^ 20, 50⟩])).map dispX)| ≤ 1 / 2 ∧
      |(est.shift_y : ℚ) - floatMean ((inlierPairs [⟨601 / 2, 50⟩]
        [⟨10 + 1 / 2 ^ 20, 50⟩] (Vision.sample.findHomography [⟨601 / 2, 50⟩]
          [⟨10 + 1 / 2 ^ 20, 50⟩])).map dispY)| ≤ 1 / 2 :=
  shift_is_rounded_mean Vision.sample [⟨601 / 2, 50⟩] [⟨10 + 1 / 2 ^ 20, 50⟩] [⟨0, 0, 0⟩]
    [⟨601 / 2, 50⟩] [⟨10 + 1 / 2 ^ 20, 50⟩] (by rfl) (by rfl)
    (by simp [Vision.sample]) (by simp [inlierPairs, Vision.sample])

/-- C16. In canonical order the images progress rightward: every inlier's left point lies at
or to the right of its right point. Then the horizontal shift that `prepareShifts` computes for
the pair is `>= 0`, and when every horizontal shift is `>= 0` the margin `left_x` is 0. The
vertical shift may be negative: the pair with the single inlier from `(5, 0)` to `(0, 2)` has
the shift `(5, -2)`. -/
theorem horizontal_shift_nonneg (V : Vision) (kl kr : List KeyPoint) (ms : List DMatch)
    (left right : List KeyPoint)
    (hl : ms.mapM (fun m => getAtInt kl m.queryIdx) = .ok left)
    (hr : ms.mapM (fun m => getAtInt kr m.trainIdx) = .ok right)
    (hmask : (V.findHomography left right).length ≤ ms.length)
    (hin : inlierPairs left right (V.findHomography left right) ≠ [])
    (hcanon : ∀ p ∈ inlierPairs left right (V.findHomography left right), p.2.x ≤ p.1.x) :
    (∃ est, pairShift V kl kr ms = .ok est ∧ 0 ≤ est.shift_x) ∧
    (∀ shifts : List (ℤ × ℤ), (∀ s ∈ shifts, 0 ≤ s.1) → (accumulate shifts).left_x = 0) ∧
    pairShift Vision.sample [⟨5, 0⟩] [⟨0, 2⟩] [⟨0, 0, 0⟩] = .ok ⟨5, -2, [⟨0, 0, 0⟩]⟩ := by
  obtain ⟨est, he, h1, _⟩ := pairShift_char V kl kr ms left right hl hr hmask hin
  refine ⟨⟨est, he, ?_⟩, ?_, ?_⟩
  · rw [h1]
    apply roundHalfAway_nonneg
    apply floatMean_nonneg
    intro d hd
    obtain ⟨p, hp, rfl⟩ := List.mem_map.mp hd
    have := hcanon p hp
    unfold dispX
    linarith
  · intro shifts hs
    obtain ⟨_, _, ⟨hmem, hlb⟩, _⟩ := accumulate_spec shifts
    obtain ⟨k, _, hk⟩ := hmem
    have h0 : (0 : ℤ) ≤ ((shifts.map Prod.fst).take k).sum := by
      apply List.sum_nonneg
      intro x hx
      obtain ⟨s, hs1, rfl⟩ := List.mem_map.mp (List.mem_of_mem_take hx)
      exact hs s hs1
    have h1 := hlb (zero_mem_prefixSums (shifts.map Prod.fst))
    omega
  · have e0 : rnd64 0 = 0 := fpRound_zero _ _
    have e1 : rnd32 5 = 5 := rnd32_five
    have e2 : rnd64 5 = 5 := rnd64_five
    have e3 : rnd32 (-2) = -2 := rnd32_of_int (-2) _ (by norm_num) (by norm_num)
    have e4 : rnd64 (-2) = -2 := rnd64_of_int (-2) _ (by norm_num) (by norm_num)
    have e5 : roundHalfAway (5 : ℚ) = 5 := roundHalfAway_of_int 5 _ (by norm_num)
    have e6 : roundHalfAway (-2 : ℚ) = -2 := roundHalfAway_of_int (-2) _ (by norm_num)
    simp only [pairShift, Vision.sample, List.mapM_cons, List.mapM_nil, bind, Except.bind, pure,
      Except.pure, getAtInt, getAt]
    simp [List.enum, List.enumFrom, maskStep, getAt, bind, Except.bind, pure, Except.pure,
      e0, e1, e2, e3, e4, e5, e6]

/-- Witness of C16: one inlier from `(5, 0)` to `(0, 2)`. -/
theorem horizontal_shift_nonneg_witness :
    (∃ est, pairShift Vision.sample [⟨5, 0⟩] [⟨0, 2⟩] [⟨0, 0, 0⟩] = .ok est ∧ 0 ≤ est.shift_x) ∧
    (∀ shifts : List (ℤ × ℤ), (∀ s ∈ shifts, 0 ≤ s.1) → (accumulate shifts).left_x = 0) ∧
    pairShift Vision.sample [⟨5, 0⟩] [⟨0, 2⟩] [⟨0, 0, 0⟩] = .ok ⟨5, -2, [⟨0, 0, 0⟩]⟩ :=
  horizontal_shift_nonneg Vision.sample [⟨5, 0⟩] [⟨0, 2⟩] [⟨0, 0, 0⟩] [⟨5, 0⟩] [⟨0, 2⟩]
    (by rfl) (by rfl) (by simp [Vision.sample]) (by simp [inlierPairs, Vision.sample])
    (by simp [inlierPairs, Vision.sample])

/-! ## Pairs without correspondences -/

theorem rnd64_half : rnd64 (1 / 2) = 1 / 2 := by
  rw [rnd64_eq_of (1 / 2) (-1) (2 ^ 52) (by norm_num [abs_of_pos])
    (by norm_num [abs_of_pos]) (by norm_num) (by norm_num)]
  norm_num

theorem matchShifts_two (V : Vision) (dr : ℚ) (g0 g1 : Mat) :
    matchShifts V dr [g0, g1] 2 =
      (distanceFilter dr (V.bfMatch (V.detectAndCompute g0).2 (V.detectAndCompute g1).2)).bind
        (fun close =>
          (pairShift V (V.detectAndCompute g0).1 (V.detectAndCompute g1).1 close).bind
            (fun e => .ok
              { shifts := [(e.shift_x, e.shift_y)]
                key_points := [(V.detectAndCompute g0).1, (V.detectAndCompute g1).1]
                all_matches := [e.homography_matches] })) := by
  simp only [matchShifts, firstN, adjacent, List.length_cons, List.length_nil,
    List.take, List.map_cons, List.map_nil, List.tail_cons, List.zip_cons_cons, List.zip_nil_right,
    List.zip_nil_left, List.mapM_cons, List.mapM_nil, bind, Except.bind, pure, Except.pure,
    le_refl, if_true, Nat.reduceAdd]
  cases hd : distanceFilter dr (V.bfMatch (V.detectAndCompute g0).2 (V.detectAndCompute g1).2) with
  | error f => simp
  | ok close =>
    simp only [List.zip_cons_cons, List.zip_nil_right, List.mapM_cons, List.mapM_nil, bind,
      Except.bind, pure, Except.pure, List.map_cons, List.map_nil]
    cases hp : pairShift V (V.detectAndCompute g0).1 (V.detectAndCompute g1).1 close with
    | error f => simp
    | ok e => simp

theorem projectImages_sample (V : Vision) (h : V.cylindricalProj = Vision.sample.cylindricalProj)
    (hg : V.cvtColorBGR2GRAY = Vision.sample.cvtColorBGR2GRAY) :
    projectImages V sampleFresh =
      { sampleFresh with
        projected_images := [sampleImage, sampleImage]
        projected_gray :=
          [{ sampleImage with channels := 1 }, { sampleImage with channels := 1 }] } := by
  simp [projectImages, sampleFresh, PanoramicImage.new, Vision.sample, RIGHT, LEFT, h, hg]

theorem get_of_prepareShifts_error (V : Vision) (st : PanoramicImage) (g e draw : Bool)
    (f : Fault) (h0 : (st.results g e).empty = true) (hs : st.shift_x = [])
    (h : prepareShifts V st draw = .error f) : get V st g e draw = .error f := by
  unfold get
  simp only [ensureShifts, hs, List.isEmpty_nil, Bool.true_or, if_true, h, bind, Except.bind]
  simp [h0]

theorem prepareShifts_sampleFresh (V : Vision)
    (h : V.cylindricalProj = Vision.sample.cylindricalProj)
    (hg : V.cvtColorBGR2GRAY = Vision.sample.cvtColorBGR2GRAY) (draw : Bool) :
    prepareShifts V sampleFresh draw =
      (matchShifts V 3
        [{ sampleImage with channels := 1 }, { sampleImage with channels := 1 }] 2).map
      (fun d => storeShifts V (projectImages V sampleFresh) d draw) := by
  have he : sampleFresh.projected_images.isEmpty = true := rfl
  have hr : sampleFresh.dist_ratio = 3 := rfl
  rw [prepareShifts_eq, he, if_pos rfl, hr, projectImages_sample V h hg]
  rfl

/-- C17, the code at a pair without inliers. With one match per pair and a robust fit that
rejects it, the inlier count is 0: the mean is the quotient `0.0 / 0`, whose conversion to
`int` is undefined, so `prepareShifts` and `get` stop with that fault and raise no
insufficient-correspondence error. The distance filter can leave no match (`dist_ratio = 1/4`,
one match at distance 2); the robust fit is then given two empty point sets, which OpenCV
rejects with an exception of its own, and only in the model, whose robust fit is a total
function, is the same quotient taken with no match and an empty mask. -/
theorem no_inlier_divides_by_zero (g e draw : Bool) :
    pairShift Vision.noInliers [⟨5, 2⟩, ⟨0, 0⟩] [⟨5, 2⟩, ⟨0, 0⟩] [⟨0, 1, 0⟩] =
      .error .notANumber ∧
    prepareShifts Vision.noInliers sampleFresh draw = .error .notANumber ∧
    get Vision.noInliers sampleFresh g e draw = .error .notANumber ∧
    distanceFilter (1 / 4) [⟨0, 1, 2⟩] = .ok [] ∧
    pairShift Vision.sample [⟨5, 2⟩, ⟨0, 0⟩] [⟨5, 2⟩, ⟨0, 0⟩] [] = .error .notANumber := by
  have hp : pairShift Vision.noInliers [⟨5, 2⟩, ⟨0, 0⟩] [⟨5, 2⟩, ⟨0, 0⟩] [⟨0, 1, 0⟩] =
      .error .notANumber :=
    pairShift_no_inlier Vision.noInliers _ _ _ [⟨5, 2⟩] [⟨0, 0⟩] (by rfl) (by rfl)
      (by simp [Vision.noInliers]) (by simp [inlierPairs, Vision.noInliers])
  have hs : prepareShifts Vision.noInliers sampleFresh draw = .error .notANumber := by
    rw [prepareShifts_sampleFresh Vision.noInliers rfl rfl, matchShifts_two]
    have hd : distanceFilter 3 (Vision.noInliers.bfMatch
        (Vision.noInliers.detectAndCompute { sampleImage with channels := 1 }).2
        (Vision.noInliers.detectAndCompute { sampleImage with channels := 1 }).2) =
        .ok [⟨0, 1, 0⟩] := distanceFilter_sample
    rw [hd, ok_bind]
    have hk : (Vision.noInliers.detectAndCompute { sampleImage with channels := 1 }).1 =
        [⟨5, 2⟩, ⟨0, 0⟩] := rfl
    rw [hk, hp]
    rfl
  refine ⟨hp, hs, get_of_prepareShifts_error _ _ g e draw _ rfl rfl hs, ?_, ?_⟩
  · have : (1 : ℚ) ⊔ 2 = 2 := by norm_num
    simp [distanceFilter, this, rnd64_half]
    norm_num [rnd64_half]
  · exact pairShift_no_inlier Vision.sample _ _ _ [] [] (by rfl) (by rfl)
      (by simp [Vision.sample]) (by simp [inlierPairs, Vision.sample])

/-- C18, the code at an empty match list. The search for the minimum distance starts from
`matches[0].distance`, read without a test for emptiness: when the images yield no features
the match list is empty, the read is outside the vector, and `prepareShifts` and `get` stop
with that fault and report no failure of their own. -/
theorem empty_match_list_read (dist_ratio : ℚ) (g e draw : Bool) :
    distanceFilter dist_ratio [] = .error .indexOutOfRange ∧
    prepareShifts Vision.noFeatures sampleFresh draw = .error .indexOutOfRange ∧
    get Vision.noFeatures sampleFresh g e draw = .error .indexOutOfRange := by
  have hs : prepareShifts Vision.noFeatures sampleFresh draw = .error .indexOutOfRange := by
    rw [prepareShifts_sampleFresh Vision.noFeatures rfl rfl, matchShifts_two]
    rfl
  exact ⟨rfl, hs, get_of_prepareShifts_error _ _ g e draw _ rfl rfl hs⟩

/-! ## A facade of one image -/

theorem matchShifts_one (V : Vision) (dr : ℚ) (g0 : Mat) :
    matchShifts V dr [g0] 1 = .ok ⟨[], [(V.detectAndCompute g0).1], []⟩ := by
  simp only [matchShifts, firstN, adjacent, List.length_cons, List.length_nil, List.take,
    List.map_cons, List.map_nil, List.tail_cons, List.zip_nil_right, List.mapM_nil, bind,
    Except.bind, pure, Except.pure, le_refl, if_true, Nat.reduceAdd]
  simp

theorem blendSeam_empty (V : Vision) (channels : ℕ) (mat : Mat) (sm : Seam)
    (height curr_x curr_y : ℤ) (canvas : Mat) (h : sm.smooth_end ≤ sm.smooth_start) :
    blendSeam V channels mat sm height curr_x curr_y canvas = canvas := by
  have he : intRange sm.smooth_start sm.smooth_end = [] := by
    have : (sm.smooth_end - sm.smooth_start).toNat = 0 := by omega
    simp [intRange, this]
  unfold blendSeam
  rw [he]
  simp only [List.foldl_nil]
  induction (intRange 0 height) with
  | nil => rfl
  | cons r rs ih => simp

theorem composite_single (V : Vision) (st : PanoramicImage) (p0 m : Mat)
    (hp : st.projected_images = [p0]) (hx : st.shift_x = [])
    (hl : st.left_x = 0) (hr : st.right_x = 0) (hu : st.upper_y = 0) (hd : st.lower_y = 0)
    (hH : 0 ≤ p0.rows) (hW : 0 ≤ p0.cols) (hmr : p0.rows ≤ m.rows) (hmc : p0.cols ≤ m.cols) :
    composite V st [m] = .ok
      { rows := p0.rows, cols := p0.cols, channels := m.channels,
        px := fun y x => if 0 ≤ y ∧ y < p0.rows ∧ 0 ≤ x ∧ x < p0.cols then m.px y x
          else V.uninit y x } := by
  have hs : seamAt p0.cols 0 0 = ⟨0, 0, 0, 0, 0, 0⟩ := by simp [seamAt]
  have hr1 : List.range 1 = [0] := rfl
  simp only [composite, hp, getAt, List.getElem?_cons_zero, bind, Except.bind, allocCanvas,
    hl, hr, hu, hd, List.length_singleton, hr1, List.foldlM_cons, List.foldlM_nil,
    pure, Except.pure, stitchStep, prevShift, hx, lt_irrefl, if_false, hs]
  simp [blendInBounds, Mat.validRange, hH, hW, hmr, hmc, not_lt.mpr hH, not_lt.mpr hW,
    Mat.roi, stitchCanvas, paste, blendSeam_empty]

theorem prepareShifts_single (V : Vision) (im : Mat) (hf dr : ℚ) (dir : ℤ) (draw : Bool) :
    prepareShifts V (PanoramicImage.new [im] hf dr dir) draw =
      .ok (storeShifts V (projectImages V (PanoramicImage.new [im] hf dr dir))
        ⟨[], [(V.detectAndCompute (V.cvtColorBGR2GRAY (V.cylindricalProj im hf))).1], []⟩
        draw) := by
  have ho : (PanoramicImage.new [im] hf dr dir).original_images = [im] := by
    simp [PanoramicImage.new]
  have he : (PanoramicImage.new [im] hf dr dir).projected_images.isEmpty = true := rfl
  rw [prepareShifts_eq, he, if_pos rfl]
  have hg : (projectImages V (PanoramicImage.new [im] hf dr dir)).projected_gray =
      [V.cvtColorBGR2GRAY (V.cylindricalProj im hf)] := by
    simp [projectImages, ho]; rfl
  have hpl : (projectImages V (PanoramicImage.new [im] hf dr dir)).projected_images.length = 1 := by
    simp [projectImages, ho]
  rw [hg, hpl, matchShifts_one]
  rfl

theorem get_single (V : Vision) (im : Mat) (hf dr : ℚ) (dir : ℤ) (g e draw : Bool)
    (hH : 0 ≤ (V.cylindricalProj im hf).rows) (hW : 0 ≤ (V.cylindricalProj im hf).cols)
    (hmr : (V.cylindricalProj im hf).rows ≤ (singleMaterial V im hf g e).rows)
    (hmc : (V.cylindricalProj im hf).cols ≤ (singleMaterial V im hf g e).cols) :
    (get V (PanoramicImage.new [im] hf dr dir) g e draw).map Prod.snd = .ok
      { rows := (V.cylindricalProj im hf).rows, cols := (V.cylindricalProj im hf).cols,
        channels := (singleMaterial V im hf g e).channels,
        px := fun y x =>
          if 0 ≤ y ∧ y < (V.cylindricalProj im hf).rows ∧
              0 ≤ x ∧ x < (V.cylindricalProj im hf).cols then
            (singleMaterial V im hf g e).px y x
          else V.uninit y x } := by
  have hnew : PanoramicImage.new [im] hf dr dir = PanoramicImage.new [im] hf dr RIGHT := by
    simp [PanoramicImage.new]
  have hne : ¬ (RIGHT = LEFT) := by decide
  rw [get_compute V (PanoramicImage.new [im] hf dr dir) g e draw (Or.inl rfl)]
  have hes : ensureShifts V (PanoramicImage.new [im] hf dr dir) draw
      (draw && (PanoramicImage.new [im] hf dr dir).match_images.isEmpty) =
      prepareShifts V (PanoramicImage.new [im] hf dr dir) draw := by
    simp [ensureShifts, PanoramicImage.new]
  rw [hes, prepareShifts_single, ok_bind, hnew]
  have key : ∀ st2 : PanoramicImage,
      st2.projected_images = [V.cylindricalProj im hf] → st2.shift_x = [] →
      st2.left_x = 0 → st2.right_x = 0 → st2.upper_y = 0 → st2.lower_y = 0 →
      material st2 g e = [singleMaterial V im hf g e] →
      (makePanoramic V st2 (material st2 g e) g e).map Prod.snd = .ok
        { rows := (V.cylindricalProj im hf).rows, cols := (V.cylindricalProj im hf).cols,
          channels := (singleMaterial V im hf g e).channels,
          px := fun y x =>
            if 0 ≤ y ∧ y < (V.cylindricalProj im hf).rows ∧
                0 ≤ x ∧ x < (V.cylindricalProj im hf).cols then
              (singleMaterial V im hf g e).px y x
            else V.uninit y x } := by
    intro st2 h1 h2 h3 h4 h5 h6 h7
    rw [h7, makePanoramic_of_composite V st2 _ g e _
      (composite_single V st2 _ _ h1 h2 h3 h4 h5 h6 hH hW hmr hmc)]
    rfl
  have hacc : accumulate [] = ⟨0, 0, 0, 0, 0, 0⟩ := rfl
  cases g <;> cases e <;> cases draw <;>
    simp only [prepareMaterial, storeShifts, projectImages, if_neg hne, List.map_cons, List.map_nil,
      List.length_singleton, firstN, List.isEmpty_nil, List.isEmpty_cons, Bool.and_true,
      Bool.and_false, Bool.false_eq_true, if_false, if_true, le_refl, List.take, bind,
      Except.bind, hacc, PanoramicImage.new, Bool.true_and, Bool.false_and] <;>
    exact key _ rfl rfl rfl rfl rfl rfl rfl

/-! ## The shifts are computed once -/

theorem getAll_cases (V : Vision) (st : PanoramicImage) (d : Bool)
    (r : PanoramicImage × List Mat) (h : getAll V st d = .ok r) :
    ∃ r0 r1 r2 r3, get V st false false d = .ok r0 ∧ get V r0.1 false true d = .ok r1 ∧
      get V r1.1 true false d = .ok r2 ∧ get V r2.1 true true d = .ok r3 ∧
      r = (r3.1, [r0.2, r1.2, V.cvtColorGRAY2BGR r2.2, V.cvtColorGRAY2BGR r3.2]) := by
  simp only [getAll, bind, Except.bind] at h
  cases h0 : get V st false false d with
  | error f => rw [h0] at h; simp at h
  | ok r0 =>
    rw [h0] at h
    simp only at h
    cases h1 : get V r0.1 false true d with
    | error f => rw [h1] at h; simp at h
    | ok r1 =>
      rw [h1] at h
      simp only at h
      cases h2 : get V r1.1 true false d with
      | error f => rw [h2] at h; simp at h
      | ok r2 =>
        rw [h2] at h
        simp only at h
        cases h3 : get V r2.1 true true d with
        | error f => rw [h3] at h; simp at h
        | ok r3 =>
          rw [h3] at h
          simp only [Except.ok.injEq] at h
          exact ⟨r0, r1, r2, r3, rfl, h1, h2, h3, h.symm⟩

theorem matchShifts_length (V : Vision) (dr : ℚ) (G : List Mat) (N : ℕ) (d : ShiftData)
    (h : matchShifts V dr G N = .ok d) : d.shifts.length = N - 1 := by
  unfold matchShifts at h
  simp only [bind, Except.bind] at h
  cases hf : firstN G N with
  | error f => rw [hf] at h; simp at h
  | ok grays =>
    rw [hf] at h
    simp only at h
    have hgl : grays.length = N := by
      unfold firstN at hf
      split_ifs at hf with hN
      simp only [Except.ok.injEq] at hf
      rw [← hf, List.length_take]
      omega
    split_ifs at h with hN0
    cases hc : ((adjacent (grays.map V.detectAndCompute)).map
        (fun p => V.bfMatch p.1.2 p.2.2)).mapM (distanceFilter dr) with
    | error f => rw [hc] at h; simp at h
    | ok close =>
      rw [hc] at h
      simp only at h
      have hcl := mapM_length _ _ _ hc
      cases he : ((adjacent (grays.map V.detectAndCompute)).zip close).mapM
          (fun p => pairShift V p.1.1.1 p.1.2.1 p.2) with
      | error f => rw [he] at h; simp at h
      | ok est =>
        rw [he] at h
        simp only [Except.ok.injEq] at h
        have hel := mapM_length _ _ _ he
        rw [← h]
        simp only [List.length_map, hel, List.length_zip, hcl, adjacent, List.length_tail, hgl]
        omega

theorem prepareMaterial_keeps (V : Vision) (a b : PanoramicImage) (g e : Bool)
    (h : prepareMaterial V a g e = .ok b) :
    shiftData b = shiftData a ∧ b.calls.prepareShifts = a.calls.prepareShifts := by
  unfold prepareMaterial at h
  simp only [bind, Except.bind] at h
  split_ifs at h
  · cases hf : firstN a.projected_gray a.projected_images.length with
    | error f => rw [hf] at h; simp at h
    | ok src =>
      rw [hf] at h
      simp only [Except.ok.injEq] at h
      rw [← h]; exact ⟨rfl, rfl⟩
  · simp only [Except.ok.injEq] at h
    rw [← h]; exact ⟨rfl, rfl⟩
  · cases hf : firstN a.projected_images a.projected_images.length with
    | error f => rw [hf] at h; simp at h
    | ok src =>
      rw [hf] at h
      simp only [Except.ok.injEq] at h
      rw [← h]; exact ⟨rfl, rfl⟩
  · simp only [Except.ok.injEq] at h
    rw [← h]; exact ⟨rfl, rfl⟩

theorem tail_keeps (V : Vision) (a b : PanoramicImage) (g e : Bool)
    (r : PanoramicImage × Mat) (h1 : prepareMaterial V a g e = .ok b)
    (h2 : makePanoramic V b (material b g e) g e = .ok r) :
    shiftData r.1 = shiftData a ∧ r.1.calls.prepareShifts = a.calls.prepareShifts := by
  obtain ⟨k1, k2⟩ := prepareMaterial_keeps V a b g e h1
  obtain ⟨_, hr⟩ := makePanoramic_ok V b _ g e r h2
  rw [hr, ← k1, ← k2]
  exact ⟨rfl, rfl⟩

theorem get_keeps_shifts (V : Vision) (st : PanoramicImage) (g e : Bool)
    (r : PanoramicImage × Mat) (hne : st.shift_x ≠ []) (h : get V st g e false = .ok r) :
    shiftData r.1 = shiftData st ∧ r.1.calls.prepareShifts = st.calls.prepareShifts := by
  rcases get_cases V st g e false r h with ⟨_, _, hr⟩ | ⟨_, st1, st2, h1, h2, h3⟩
  · rw [hr]; exact ⟨rfl, rfl⟩
  · have he : st.shift_x.isEmpty = false := by
      cases hs : st.shift_x with
      | nil => exact absurd hs hne
      | cons x xs => rfl
    simp only [ensureShifts, he, Bool.false_and, Bool.or_false, Bool.false_eq_true, if_false,
      Except.ok.injEq] at h1
    subst h1
    exact tail_keeps V st st2 g e r h2 h3

theorem get_first (V : Vision) (images : List Mat) (hf dr : ℚ) (dir : ℤ) (g e : Bool)
    (r : PanoramicImage × Mat) (hN : 2 ≤ images.length)
    (h : get V (PanoramicImage.new images hf dr dir) g e false = .ok r) :
    r.1.shift_x ≠ [] ∧ r.1.calls.prepareShifts = 1 := by
  rcases get_cases V _ g e false r h with ⟨hc, _, _⟩ | ⟨_, st1, st2, h1, h2, h3⟩
  · exact absurd hc (by simp [PanoramicImage.new, Mat.nil, Mat.empty])
  · obtain ⟨k1, k2⟩ := tail_keeps V st1 st2 g e r h2 h3
    have hes : ensureShifts V (PanoramicImage.new images hf dr dir) false
        (false && (PanoramicImage.new images hf dr dir).match_images.isEmpty) =
        prepareShifts V (PanoramicImage.new images hf dr dir) false := by
      simp [ensureShifts, PanoramicImage.new]
    rw [hes, prepareShifts_eq] at h1
    have he : (PanoramicImage.new images hf dr dir).projected_images.isEmpty = true := rfl
    rw [he, if_pos rfl] at h1
    cases hm : matchShifts V (PanoramicImage.new images hf dr dir).dist_ratio
        (projectImages V (PanoramicImage.new images hf dr dir)).projected_gray
        (projectImages V (PanoramicImage.new images hf dr dir)).projected_images.length with
    | error f => rw [hm] at h1; simp [Except.map] at h1
    | ok d =>
      rw [hm] at h1
      simp only [Except.map, Except.ok.injEq] at h1
      have hl := matchShifts_length V _ _ _ d hm
      have hpl : (projectImages V (PanoramicImage.new images hf dr dir)).projected_images.length
          = images.length := by
        simp only [projectImages, PanoramicImage.new, List.length_map]
        split_ifs <;> simp
      rw [hpl] at hl
      have hx : r.1.shift_x = d.shifts.map Prod.fst := by
        have := congrArg (fun t => t.1) k1
        simp only [shiftData] at this
        rw [this, ← h1]
        simp [storeShifts]
      refine ⟨?_, ?_⟩
      · intro h0
        rw [hx] at h0
        have := congrArg List.length h0
        simp only [List.length_map, List.length_nil] at this
        omega
      · rw [k2, ← h1]
        simp [storeShifts, projectImages, PanoramicImage.new]

theorem shiftData_nonempty (a b : PanoramicImage) (h : shiftData b = shiftData a)
    (hne : a.shift_x ≠ []) : b.shift_x ≠ [] := by
  have := congrArg (fun t => t.1) h
  simp only [shiftData] at this
  rw [this]; exact hne

theorem runCall_keeps (V : Vision) (st st' : PanoramicImage) (c : Call)
    (hne : st.shift_x ≠ []) (hd : c.draw = false) (h : runCall V st c = .ok st') :
    shiftData st' = shiftData st ∧ st'.calls.prepareShifts = st.calls.prepareShifts := by
  cases c with
  | get g e d =>
    simp only [Call.draw] at hd
    subst hd
    simp only [runCall, Except.map] at h
    cases hg : get V st g e false with
    | error f => rw [hg] at h; simp at h
    | ok r =>
      rw [hg] at h
      simp only [Except.ok.injEq] at h
      rw [← h]
      exact get_keeps_shifts V st g e r hne hg
  | getAll d =>
    simp only [Call.draw] at hd
    subst hd
    simp only [runCall, Except.map] at h
    cases hg : getAll V st false with
    | error f => rw [hg] at h; simp at h
    | ok r =>
      rw [hg] at h
      simp only [Except.ok.injEq] at h
      obtain ⟨r0, r1, r2, r3, h0, h1, h2, h3, hr⟩ := getAll_cases V st false r hg
      obtain ⟨a0, b0⟩ := get_keeps_shifts V st _ _ r0 hne h0
      obtain ⟨a1, b1⟩ := get_keeps_shifts V _ _ _ r1 (shiftData_nonempty _ _ a0 hne) h1
      have n1 := shiftData_nonempty _ _ a1 (shiftData_nonempty _ _ a0 hne)
      obtain ⟨a2, b2⟩ := get_keeps_shifts V _ _ _ r2 n1 h2
      obtain ⟨a3, b3⟩ := get_keeps_shifts V _ _ _ r3 (shiftData_nonempty _ _ a2 n1) h3
      rw [← h, hr]
      exact ⟨by rw [a3, a2, a1, a0], by rw [b3, b2, b1, b0]⟩

theorem runCalls_keeps (V : Vision) (cs : List Call) :
    ∀ (st st' : PanoramicImage), st.shift_x ≠ [] → (∀ c ∈ cs, c.draw = false) →
      runCalls V st cs = .ok st' →
      shiftData st' = shiftData st ∧ st'.calls.prepareShifts = st.calls.prepareShifts := by
  induction cs with
  | nil =>
    intro st st' _ _ h
    simp only [runCalls, Except.ok.injEq] at h
    rw [← h]; exact ⟨rfl, rfl⟩
  | cons c cs ih =>
    intro st st' hne hd h
    simp only [runCalls, bind, Except.bind] at h
    cases h1 : runCall V st c with
    | error f => rw [h1] at h; simp at h
    | ok s1 =>
      rw [h1] at h
      obtain ⟨a, b⟩ := runCall_keeps V st s1 c hne (hd c (List.mem_cons_self _ _)) h1
      obtain ⟨a2, b2⟩ := ih s1 st' (shiftData_nonempty _ _ a hne)
        (fun c' hc' => hd c' (List.mem_cons_of_mem _ hc')) h
      exact ⟨by rw [a2, a], by rw [b2, b]⟩

theorem runCall_first (V : Vision) (images : List Mat) (hf dr : ℚ) (dir : ℤ) (c : Call)
    (st1 : PanoramicImage) (hN : 2 ≤ images.length) (hd : c.draw = false)
    (h : runCall V (PanoramicImage.new images hf dr dir) c = .ok st1) :
    st1.shift_x ≠ [] ∧ st1.calls.prepareShifts = 1 := by
  cases c with
  | get g e d =>
    simp only [Call.draw] at hd
    subst hd
    simp only [runCall, Except.map] at h
    cases hg : get V (PanoramicImage.new images hf dr dir) g e false with
    | error f => rw [hg] at h; simp at h
    | ok r =>
      rw [hg] at h
      simp only [Except.ok.injEq] at h
      rw [← h]
      exact get_first V images hf dr dir g e r hN hg
  | getAll d =>
    simp only [Call.draw] at hd
    subst hd
    simp only [runCall, Except.map] at h
    cases hg : getAll V (PanoramicImage.new images hf dr dir) false with
    | error f => rw [hg] at h; simp at h
    | ok r =>
      rw [hg] at h
      simp only [Except.ok.injEq] at h
      obtain ⟨r0, r1, r2, r3, h0, h1, h2, h3, hr⟩ := getAll_cases V _ false r hg
      obtain ⟨hne, hc⟩ := get_first V images hf dr dir _ _ r0 hN h0
      obtain ⟨a1, b1⟩ := get_keeps_shifts V _ _ _ r1 hne h1
      have n1 := shiftData_nonempty _ _ a1 hne
      obtain ⟨a2, b2⟩ := get_keeps_shifts V _ _ _ r2 n1 h2
      have n2 := shiftData_nonempty _ _ a2 n1
      obtain ⟨a3, b3⟩ := get_keeps_shifts V _ _ _ r3 n2 h3
      rw [← h, hr]
      exact ⟨shiftData_nonempty _ _ a3 n2, by rw [b3, b2, b1, hc]⟩

/-- C20. On a facade of `N >= 2` images, in every sequence of `get` (and `getAll`) calls that
all pass `draw = false` and all return, `prepareShifts` is invoked exactly once, during the
first call: the invocation count is 0 at construction, 1 after the first call and still 1
after every later call, and the stored `shift_x`, `shift_y` and margins after every later
call are those stored by the first call. -/
theorem shifts_computed_once (V : Vision) (images : List Mat) (half_fov dist_ratio : ℚ)
    (direction : ℤ) (c : Call) (cs : List Call) (st1 st : PanoramicImage)
    (hN : 2 ≤ images.length) (hc : c.draw = false) (hcs : ∀ c' ∈ cs, c'.draw = false)
    (h1 : runCall V (PanoramicImage.new images half_fov dist_ratio direction) c = .ok st1)
    (h : runCalls V st1 cs = .ok st) :
    (PanoramicImage.new images half_fov dist_ratio direction).calls.prepareShifts = 0 ∧
    st1.calls.prepareShifts = 1 ∧ st.calls.prepareShifts = 1 ∧
    shiftData st = shiftData st1 := by
  obtain ⟨hne, hone⟩ := runCall_first V images half_fov dist_ratio direction c st1 hN hc h1
  obtain ⟨a, b⟩ := runCalls_keeps V cs st1 st hne hcs h
  exact ⟨rfl, hone, by rw [b, hone], a⟩

/-! ## The returned image does not depend on the cache -/

theorem prepareMaterial_material (V : Vision) (images : List Mat) (hf dr : ℚ)
    (st st2 : PanoramicImage) (hC : Computed V images hf dr st) (g e : Bool)
    (h : prepareMaterial V st g e = .ok st2) :
    material st2 g e = canonMaterial V images hf g e ∧
      st2.projected_images = st.projected_images := by
  obtain ⟨c1, c2, c3, c4, c5, c6, c7, c8, c9⟩ := hC
  have hlen : st.projected_images.length = st.projected_gray.length := by
    rw [c4, c5, grayOf_length]
  unfold prepareMaterial at h
  simp only [bind, Except.bind] at h
  split_ifs at h with k1 k2 k3
  · rw [firstN_self st.projected_gray _ hlen] at h
    simp only [Except.ok.injEq] at h
    simp only [Bool.and_eq_true] at k2
    rw [k1, k2.1, ← h]
    simp [material, canonMaterial, c5]
  · simp only [Except.ok.injEq] at h
    rw [← h, k1]
    refine ⟨?_, rfl⟩
    cases e with
    | false => simp [material, canonMaterial, c5]
    | true =>
      rcases c8 with c8 | c8
      · rw [c8] at k2; simp at k2
      · simp [material, canonMaterial, c8]
  · rw [firstN_self st.projected_images _ rfl] at h
    simp only [Except.ok.injEq] at h
    simp only [Bool.and_eq_true] at k3
    have hg : g = false := by simpa using k1
    rw [hg, k3.1, ← h]
    simp [material, canonMaterial, c4]
  · simp only [Except.ok.injEq] at h
    have hg : g = false := by simpa using k1
    rw [← h, hg]
    refine ⟨?_, rfl⟩
    cases e with
    | false => simp [material, canonMaterial, c4]
    | true =>
      rcases c7 with c7 | c7
      · rw [c7] at k3; simp at k3
      · simp [material, canonMaterial, c7]

theorem composite_canon (V : Vision) (images : List Mat) (hf dr : ℚ) (st : PanoramicImage)
    (hC : Computed V images hf dr st) (g e : Bool) :
    composite V st (canonMaterial V images hf g e) = canonImage V images hf dr g e := by
  obtain ⟨c1, c2, c3, c4, c5, ⟨d, e0, e1, e2, e3, e4, e5, e6⟩, c7, c8, c9⟩ := hC
  have hne : ¬ (RIGHT = LEFT) := by decide
  unfold canonImage
  rw [e0, ok_bind]
  apply composite_congr
  · rw [c4]; simp [storeShifts, projectImages, PanoramicImage.new, projOf, if_neg hne]
  · rw [e1]; simp [storeShifts]
  · rw [e2]; simp [storeShifts]
  · rw [e3]; simp [storeShifts]
  · rw [e4]; simp [storeShifts]
  · rw [e5]; simp [storeShifts]
  · rw [e6]; simp [storeShifts]

theorem tail_canon (V : Vision) (images : List Mat) (hf dr : ℚ) (st : PanoramicImage)
    (hC : Computed V images hf dr st) (g e : Bool) :
    ((prepareMaterial V st g e).bind
        (fun s => makePanoramic V s (material s g e) g e)).map Prod.snd =
      canonImage V images hf dr g e := by
  obtain ⟨st2, k1, k2, _⟩ := prepareMaterial_computed V images hf dr st hC g e
  obtain ⟨m1, _⟩ := prepareMaterial_material V images hf dr st st2 hC g e k1
  rw [k1, ok_bind, makePanoramic_snd, m1]
  exact composite_canon V images hf dr st2 k2 g e

theorem ensureShifts_computed (V : Vision) (images : List Mat) (hf dr : ℚ)
    (st : PanoramicImage) (hC : Computed V images hf dr st) (draw sd : Bool) :
    ∃ a, ensureShifts V st draw sd = .ok a ∧ core a = core st := by
  unfold ensureShifts
  split_ifs
  · exact prepareShifts_computed V images hf dr st hC draw
  · exact ⟨st, rfl, rfl⟩

theorem get_canon_computed (V : Vision) (images : List Mat) (hf dr : ℚ) (st : PanoramicImage)
    (hC : Computed V images hf dr st) (g e draw : Bool) :
    (get V st g e draw).map Prod.snd = canonImage V images hf dr g e := by
  by_cases hc : (st.results g e).empty = false ∧ (draw && st.match_images.isEmpty) = false
  · rw [get_cached V st g e draw hc.1 hc.2]
    rcases hC.2.2.2.2.2.2.2.2 g e with h | h
    · rw [h] at hc; exact absurd hc.1 (by simp)
    · have hm : material st g e = canonMaterial V images hf g e := by
        obtain ⟨c1, c2, c3, c4, c5, c6, c7, c8, c9⟩ := hC
        cases g <;> cases e
        · simp [material, canonMaterial, c4]
        · rcases c7 with c7 | c7
          · simp only [material, c7] at h
            exact absurd h (composite_nil V st _)
          · simp [material, canonMaterial, c7]
        · simp [material, canonMaterial, c5]
        · rcases c8 with c8 | c8
          · simp only [material, c8] at h
            exact absurd h (composite_nil V st _)
          · simp [material, canonMaterial, c8]
      rw [← composite_canon V images hf dr st hC g e, ← hm, h]
      rfl
  · have hc' : (st.results g e).empty = true ∨ (draw && st.match_images.isEmpty) = true := by
      by_contra hn
      push_neg at hn
      exact hc ⟨by simpa using hn.1, by simpa using hn.2⟩
    rw [get_compute V st g e draw hc']
    obtain ⟨a, ha, hca⟩ := ensureShifts_computed V images hf dr st hC draw
      (draw && st.match_images.isEmpty)
    rw [ha, ok_bind, tail_core V a st hca g e]
    exact tail_canon V images hf dr st hC g e

theorem get_canon_fresh (V : Vision) (images : List Mat) (hf dr : ℚ) (st : PanoramicImage)
    (hF : Fresh images hf dr st) (g e draw : Bool) :
    (get V st g e draw).map Prod.snd = canonImage V images hf dr g e := by
  have hF' := hF
  obtain ⟨f1, f2, f3, f4, f5, f6, f7, f8⟩ := hF
  rw [get_compute V st g e draw (Or.inl (f8 g e))]
  have hx : st.shift_x.isEmpty = true := by rw [f5]; rfl
  have hes : ensureShifts V st draw (draw && st.match_images.isEmpty) =
      prepareShifts V st draw := by
    simp [ensureShifts, hx]
  rw [hes]
  cases hp : prepareShifts V st draw with
  | error f =>
    have he : st.projected_images.isEmpty = true := by rw [f4]; rfl
    have hpg : (projectImages V st).projected_gray = grayOf V images hf := by
      simp [projectImages, projOf, grayOf, f1, f2]
    have hpp : (projectImages V st).projected_images = projOf V images hf := by
      simp [projectImages, projOf, f1, f2]
    rw [prepareShifts_eq, he, if_pos rfl, hpg, hpp, f3] at hp
    unfold canonImage
    cases hm : matchShifts V dr (grayOf V images hf) (projOf V images hf).length with
    | error f0 =>
      rw [hm] at hp
      simp only [Except.map, Except.error.injEq] at hp
      rw [hp]; rfl
    | ok d => rw [hm] at hp; simp [Except.map] at hp
  | ok a =>
    rw [ok_bind]
    exact tail_canon V images hf dr a (prepareShifts_fresh V images hf dr st a hF' draw hp) g e

theorem get_canon (V : Vision) (images : List Mat) (hf dr : ℚ) (st : PanoramicImage)
    (hI : Fresh images hf dr st ∨ Computed V images hf dr st) (g e draw : Bool) :
    (get V st g e draw).map Prod.snd = canonImage V images hf dr g e := by
  rcases hI with hF | hC
  · exact get_canon_fresh V images hf dr st hF g e draw
  · exact get_canon_computed V images hf dr st hC g e draw

theorem map_snd_ok {α β : Type} (x : Except Fault (α × β)) (r : α × β) (h : x = .ok r) :
    x.map Prod.snd = .ok r.2 := by
  rw [h]; rfl

theorem map_snd_error {α β : Type} (x : Except Fault (α × β)) (f : Fault)
    (h : x = .error f) : x.map Prod.snd = .error f := by
  rw [h]; rfl

theorem getAll_canon (V : Vision) (images : List Mat) (hf dr : ℚ) (st : PanoramicImage)
    (hI : Fresh images hf dr st ∨ Computed V images hf dr st) (draw : Bool) :
    (getAll V st draw).map Prod.snd =
      (canonImage V images hf dr false false).bind (fun i0 =>
        (canonImage V images hf dr false true).bind (fun i1 =>
          (canonImage V images hf dr true false).bind (fun i2 =>
            (canonImage V images hf dr true true).bind (fun i3 =>
              .ok [i0, i1, V.cvtColorGRAY2BGR i2, V.cvtColorGRAY2BGR i3])))) := by
  rw [← get_canon V images hf dr st hI false false draw]
  unfold getAll
  simp only [bind]
  cases h0 : get V st false false draw with
  | error f => rfl
  | ok r0 =>
    have i0 := get_inv V images hf dr st hI _ _ _ r0 h0
    rw [ok_bind, map_snd_ok _ _ rfl, ok_bind,
      ← get_canon V images hf dr r0.1 (Or.inr i0) false true draw]
    cases h1 : get V r0.1 false true draw with
    | error f => rfl
    | ok r1 =>
      have i1 := get_inv V images hf dr _ (Or.inr i0) _ _ _ r1 h1
      rw [ok_bind, map_snd_ok _ _ rfl, ok_bind,
        ← get_canon V images hf dr r1.1 (Or.inr i1) true false draw]
      cases h2 : get V r1.1 true false draw with
      | error f => rfl
      | ok r2 =>
        have i2 := get_inv V images hf dr _ (Or.inr i1) _ _ _ r2 h2
        rw [ok_bind, map_snd_ok _ _ rfl, ok_bind,
          ← get_canon V images hf dr r2.1 (Or.inr i2) true true draw]
        cases h3 : get V r2.1 true true draw with
        | error f => rfl
        | ok r3 => rfl

theorem canonImage_sample (g e : Bool) :
    ∃ img, canonImage Vision.sample [sampleImage, sampleImage] (1 / 2) 3 g e = .ok img := by
  have hne : ¬ (RIGHT = LEFT) := by decide
  have hg : grayOf Vision.sample [sampleImage, sampleImage] (1 / 2) =
      [{ sampleImage with channels := 1 }, { sampleImage with channels := 1 }] := by
    simp [grayOf, projOf, Vision.sample]
  have hp : projOf Vision.sample [sampleImage, sampleImage] (1 / 2) =
      [sampleImage, sampleImage] := by
    simp [projOf, Vision.sample]
  have hmats : ∀ m ∈ canonMaterial Vision.sample [sampleImage, sampleImage] (1 / 2) g e,
      (40 : ℤ) ≤ m.rows ∧ (100 : ℤ) ≤ m.cols := by
    intro m hm
    cases g <;> cases e <;>
      simp only [canonMaterial, hp, hg, List.map_cons, List.map_nil, List.mem_cons,
        List.mem_singleton, or_self, List.not_mem_nil, or_false] at hm <;>
      subst hm <;> simp [equalize, Vision.sample, sampleImage, Mat.const]
  have hlen : 2 ≤ (canonMaterial Vision.sample [sampleImage, sampleImage] (1 / 2) g e).length := by
    cases g <;> cases e <;>
      simp only [canonMaterial, hp, hg, List.map_cons, List.map_nil, List.length_cons,
        List.length_nil, Nat.reduceAdd, le_refl]
  obtain ⟨img, h⟩ := composite_sample g e _ hlen hmats
  obtain ⟨hc, _⟩ := makePanoramic_ok _ _ _ _ _ _ h
  refine ⟨img, ?_⟩
  unfold canonImage
  rw [hg, hp]
  simp only [List.length_cons, List.length_nil, Nat.reduceAdd]
  rw [matchShifts_sample, ok_bind, ← hc]
  apply composite_congr <;>
    simp [storeShifts, projectImages, PanoramicImage.new, if_neg hne, sampleShifted,
      sampleFresh, Vision.sample, accumulate_sample]

/-- C19, the claim as stated fails. On a facade of the single 100 x 40 sample image,
`get(false, false, false)` returns a panorama of 40 rows and 100 columns, which is not
empty. -/
theorem single_image_returns_panorama :
    (get Vision.sample (PanoramicImage.new [sampleImage] (1 / 2) 3 RIGHT) false false false).map
      (fun r => (r.2.rows, r.2.cols, r.2.empty)) = .ok (40, 100, false) := by
  have h := get_single Vision.sample sampleImage (1 / 2) 3 RIGHT false false false
    (by simp [Vision.sample, sampleImage, Mat.const])
    (by simp [Vision.sample, sampleImage, Mat.const])
    (by simp [singleMaterial]) (by simp [singleMaterial])
  cases hg : get Vision.sample (PanoramicImage.new [sampleImage] (1 / 2) 3 RIGHT)
      false false false with
  | error f => rw [hg] at h; simp [Except.map] at h
  | ok r =>
    rw [hg] at h
    simp only [Except.map, Except.ok.injEq] at h
    simp [Except.map, h, Vision.sample, sampleImage, Mat.const, Mat.empty]

/-- C19, amended. Constructing the facade with exactly one source image and calling `get`
raises no configuration error. When the projected image has non-negative size and the image
the variant is stitched from is at least as large, `get` returns a panorama: it has the size of
the projected image, and inside that size its pixels are those of the variant's image. -/
theorem single_image_panorama (V : Vision) (im : Mat) (half_fov dist_ratio : ℚ)
    (direction : ℤ) (g e draw : Bool)
    (hH : 0 ≤ (V.cylindricalProj im half_fov).rows)
    (hW : 0 ≤ (V.cylindricalProj im half_fov).cols)
    (hmr : (V.cylindricalProj im half_fov).rows ≤ (singleMaterial V im half_fov g e).rows)
    (hmc : (V.cylindricalProj im half_fov).cols ≤ (singleMaterial V im half_fov g e).cols) :
    ∃ r, get V (PanoramicImage.new [im] half_fov dist_ratio direction) g e draw = .ok r ∧
      r.2.rows = (V.cylindricalProj im half_fov).rows ∧
      r.2.cols = (V.cylindricalProj im half_fov).cols ∧
      r.2.channels = (singleMaterial V im half_fov g e).channels ∧
      ∀ y x, 0 ≤ y → y < (V.cylindricalProj im half_fov).rows →
        0 ≤ x → x < (V.cylindricalProj im half_fov).cols →
        r.2.px y x = (singleMaterial V im half_fov g e).px y x := by
  have h := get_single V im half_fov dist_ratio direction g e draw hH hW hmr hmc
  cases hg : get V (PanoramicImage.new [im] half_fov dist_ratio direction) g e draw with
  | error f => rw [hg] at h; simp [Except.map] at h
  | ok r =>
    rw [hg] at h
    simp only [Except.map, Except.ok.injEq] at h
    refine ⟨r, rfl, ?_, ?_, ?_, ?_⟩
    · rw [h]
    · rw [h]
    · rw [h]
    · intro y x h1 h2 h3 h4
      rw [h]
      simp [h1, h2, h3, h4]

/-- Witness of C19 (amended): the grayscale equalized variant of a facade of one sample image,
constructed with `direction = LEFT` and asked with `draw = true`. -/
theorem single_image_panorama_witness :
    ∃ r, get Vision.sample (PanoramicImage.new [sampleImage] (1 / 2) 3 LEFT) true true true
        = .ok r ∧
      r.2.rows = (Vision.sample.cylindricalProj sampleImage (1 / 2)).rows ∧
      r.2.cols = (Vision.sample.cylindricalProj sampleImage (1 / 2)).cols ∧
      r.2.channels = (singleMaterial Vision.sample sampleImage (1 / 2) true true).channels ∧
      ∀ y x, 0 ≤ y → y < (Vision.sample.cylindricalProj sampleImage (1 / 2)).rows →
        0 ≤ x → x < (Vision.sample.cylindricalProj sampleImage (1 / 2)).cols →
        r.2.px y x = (singleMaterial Vision.sample sampleImage (1 / 2) true true).px y x :=
  single_image_panorama Vision.sample sampleImage (1 / 2) 3 LEFT true true true
    (by simp [Vision.sample, sampleImage, Mat.const])
    (by simp [Vision.sample, sampleImage, Mat.const])
    (by simp [singleMaterial, equalize, Vision.sample, sampleImage, Mat.const])
    (by simp [singleMaterial, equalize, Vision.sample, sampleImage, Mat.const])

/-- Witness of C20: two `get(true, false, false)` calls on a fresh facade of two images; after
both, `prepareShifts` has been invoked once and the shift is `(5, 2)`. -/
theorem shifts_computed_once_witness :
    (runCalls Vision.sample (PanoramicImage.new [sampleImage, sampleImage] (1 / 2) 3 RIGHT)
      [Call.get true false false, Call.get true false false]).map
      (fun s => (s.calls.prepareShifts, shiftData s)) = .ok (1, [5], [2], 0, 5, 0, 2) := by
  obtain ⟨img, hg, hc, hr⟩ := get_sample
  have hg' : get Vision.sample (PanoramicImage.new [sampleImage, sampleImage] (1 / 2) 3 RIGHT)
      true false false = _ := hg
  have h1 : runCall Vision.sample (PanoramicImage.new [sampleImage, sampleImage] (1 / 2) 3 RIGHT)
      (Call.get true false false) = .ok { sampleShifted with
        results := setResult sampleShifted.results true false img
        calls := { sampleShifted.calls with
          makePanoramic := sampleShifted.calls.makePanoramic + 1 } } := by
    simp only [runCall, hg']; rfl
  have hne : img.empty = false := by simp [Mat.empty, hc, hr]
  have h2 : runCalls Vision.sample { sampleShifted with
        results := setResult sampleShifted.results true false img
        calls := { sampleShifted.calls with
          makePanoramic := sampleShifted.calls.makePanoramic + 1 } }
      [Call.get true false false] = .ok { sampleShifted with
        results := setResult sampleShifted.results true false img
        calls := { sampleShifted.calls with
          makePanoramic := sampleShifted.calls.makePanoramic + 1 } } := by
    simp only [runCalls, runCall, bind, Except.bind]
    rw [get_cached _ _ _ _ _ (by simpa [setResult] using hne) (by simp)]
    rfl
  have T := shifts_computed_once Vision.sample [sampleImage, sampleImage] (1 / 2) 3 RIGHT
    (Call.get true false false) [Call.get true false false] _ _ (by simp) rfl
    (by simp [Call.draw]) h1 h2
  have hrun : runCalls Vision.sample
      (PanoramicImage.new [sampleImage, sampleImage] (1 / 2) 3 RIGHT)
      [Call.get true false false, Call.get true false false] = .ok { sampleShifted with
        results := setResult sampleShifted.results true false img
        calls := { sampleShifted.calls with
          makePanoramic := sampleShifted.calls.makePanoramic + 1 } } := by
    have : runCalls Vision.sample
        (PanoramicImage.new [sampleImage, sampleImage] (1 / 2) 3 RIGHT)
        [Call.get true false false, Call.get true false false] =
        (runCall Vision.sample (PanoramicImage.new [sampleImage, sampleImage] (1 / 2) 3 RIGHT)
          (Call.get true false false)).bind
          (fun s => runCalls Vision.sample s [Call.get true false false]) := rfl
    rw [this, h1, ok_bind, h2]
  rw [hrun]
  simp only [Except.map, T.2.2.1]
  rfl

/-! ## The size of a filter -/

theorem tmod_two_cases (size : ℤ) :
    (Int.tmod size 2 = 0 ∧ size % 2 = 0) ∨ (Int.tmod size 2 ≠ 0 ∧ size % 2 = 1) := by
  rcases Int.emod_two_eq_zero_or_one size with h | h
  · left
    refine ⟨?_, h⟩
    have := Int.dvd_of_emod_eq_zero h
    exact Int.tmod_eq_zero_of_dvd this
  · right
    refine ⟨?_, h⟩
    intro h0
    have hd : (2 : ℤ) ∣ size := Int.dvd_of_tmod_eq_zero h0
    have := Int.emod_eq_zero_of_dvd hd
    omega

theorem forceOdd_spec (size : ℤ) :
    (if Int.tmod size 2 = 0 then size + 1 else size) % 2 = 1 ∧
    (size % 2 = 1 → (if Int.tmod size 2 = 0 then size + 1 else size) = size) ∧
    (size % 2 = 0 → (if Int.tmod size 2 = 0 then size + 1 else size) = size + 1) ∧
    (-2 ^ 31 ≤ size → size < 2 ^ 31 →
      -2 ^ 31 ≤ (if Int.tmod size 2 = 0 then size + 1 else size) ∧
      (if Int.tmod size 2 = 0 then size + 1 else size) < 2 ^ 31) := by
  rcases tmod_two_cases size with ⟨h1, h2⟩ | ⟨h1, h2⟩
  · rw [if_pos h1]
    refine ⟨by omega, by omega, fun _ => rfl, by omega⟩
  · rw [if_neg h1]
    refine ⟨h2, fun _ => rfl, by omega, by omega⟩

/-- C21. For every integer `size`, after `Filter(size)` and after `setSize(size)` on any
filter, `getSize()` returns an odd number: `size` when `size` is odd and `size + 1` when
`size` is even. For an `int` argument the result is an `int` (the increment does not
overflow). -/
theorem filter_size_forced_odd (size : ℤ) (f : Filter) :
    ((Filter.new size).getSize % 2 = 1 ∧
      (size % 2 = 1 → (Filter.new size).getSize = size) ∧
      (size % 2 = 0 → (Filter.new size).getSize = size + 1) ∧
      (-2 ^ 31 ≤ size → size < 2 ^ 31 →
        -2 ^ 31 ≤ (Filter.new size).getSize ∧ (Filter.new size).getSize < 2 ^ 31)) ∧
    ((f.setSize size).getSize % 2 = 1 ∧
      (size % 2 = 1 → (f.setSize size).getSize = size) ∧
      (size % 2 = 0 → (f.setSize size).getSize = size + 1) ∧
      (-2 ^ 31 ≤ size → size < 2 ^ 31 →
        -2 ^ 31 ≤ (f.setSize size).getSize ∧ (f.setSize size).getSize < 2 ^ 31)) :=
  ⟨forceOdd_spec size, forceOdd_spec size⟩

/-- C22, the code at `BilateralFilter(5, 1, 1)` (the call of `lab3.cpp`). The body of the
constructor overwrites the size set by the base constructor with 15: `getSize()` returns 15
for every `filter_size`, while `Filter(5)`, `GaussianFilter(5, 1)` and `MedianFilter(5)` have
size 5; `setSigmaSpace` sets the size to 15 again after a `setSize`. -/
theorem bilateral_size_is_fifteen (filter_size : ℤ) (sigma_range sigma_space sigma : ℚ) :
    (BilateralFilter.new 5 1 1).getSize = 15 ∧
    (Filter.new 5).getSize = 5 ∧
    (GaussianFilter.new 5 1).getSize = 5 ∧
    (MedianFilter.new 5).getSize = 5 ∧
    (BilateralFilter.new filter_size sigma_range sigma_space).getSize = 15 ∧
    ((BilateralFilter.new filter_size sigma_range sigma_space).setSigmaSpace sigma).getSize
      = 15 ∧
    ({ BilateralFilter.new 5 1 1 with
        toFilter := (BilateralFilter.new 5 1 1).toFilter.setSize 7 }.setSigmaSpace
          sigma).getSize = 15 := by
  refine ⟨rfl, by decide, by decide, by decide, rfl, rfl, rfl⟩

/-! ## The example image of the calibration -/

theorem exampleImage_eq (n : ℕ) (h : n < 2 ^ 31) :
    exampleImage n = if 1 ≤ n ∧ n ≤ 16 then (n : ℤ) else 16 := by
  unfold exampleImage
  by_cases h0 : n = 0
  · subst h0
    simp
  · have hm : ((n : ℤ) - 1) % 2 ^ 64 = (n : ℤ) - 1 := by
      apply Int.emod_eq_of_lt <;> omega
    simp only [hm]
    by_cases h16 : n ≤ 16
    · rw [if_pos (by omega), if_pos ⟨by omega, h16⟩]
      unfold Int.bmod
      have : ((n : ℤ) % ((2 ^ 32 : ℕ) : ℤ)) = n := by
        apply Int.emod_eq_of_lt <;> (norm_num; try omega)
      simp only [this]
      rw [if_pos (by norm_num; omega)]
    · rw [if_neg (by omega), if_neg (by omega)]
      decide

theorem exampleAccess_small {α β : Type} (images : List α) (points : List β)
    (h1 : 1 ≤ images.length) (h2 : images.length ≤ 16) :
    exampleAccess images points = .error .indexOutOfRange := by
  unfold exampleAccess
  rw [exampleImage_eq _ (by omega), if_pos ⟨h1, h2⟩]
  have : getAtInt images (images.length : ℤ) = .error .indexOutOfRange := by
    simp [getAtInt, getAt]
  rw [this]
  rfl

/-- C24, the code at a list of fewer than 17 images. For `1 <= n <= 16` images
`EXAMPLE_IMAGE` is `n`, the size of the list and not the index `n - 1` of the last image, so
`checkerboard_images[EXAMPLE_IMAGE]` and `image_points[EXAMPLE_IMAGE]` are read one past the
end; only lists of at least 17 images are read in bounds (at index 16). -/
theorem example_image_past_end :
    exampleImage 5 = 5 ∧
    exampleAccess [(0 : ℕ), 1, 2, 3, 4] [(0 : ℕ), 1, 2, 3, 4] = .error .indexOutOfRange ∧
    (∀ n : ℕ, 1 ≤ n ∧ n ≤ 16 → exampleImage n = n) ∧
    (∀ n : ℕ, 17 ≤ n ∧ n < 2 ^ 31 → exampleImage n = 16) ∧
    (∀ (images points : List ℕ), 1 ≤ images.length ∧ images.length ≤ 16 →
      exampleAccess images points = .error .indexOutOfRange) := by
  refine ⟨by decide, exampleAccess_small _ _ (by simp) (by simp), ?_, ?_, ?_⟩
  · rintro n ⟨h1, h2⟩
    rw [exampleImage_eq n (by omega), if_pos ⟨h1, h2⟩]
  · rintro n ⟨h1, h2⟩
    rw [exampleImage_eq n h2, if_neg (by omega)]
  · rintro images points ⟨h1, h2⟩
    exact exampleAccess_small images points h1 h2

/-! ## The vertical crop -/

/-- C23. With the margins computed from a shift sequence by the accumulation loop of
`prepareShifts`, a row `y` lies in the crop range
`[lower_y - upper_y, total_height + upper_y - lower_y)` of `makePanoramic` if and only if it
lies in the vertical paste range `[curr_y, curr_y + height)` of every image of the stitching
loop: a removed row is missed by at least one image, a kept row is covered by all. -/
theorem crop_keeps_common_rows (shifts : List (ℤ × ℤ)) (height y : ℤ) :
    ((accumulate shifts).lower_y - (accumulate shifts).upper_y ≤ y ∧
      y < (height + (accumulate shifts).lower_y - (accumulate shifts).upper_y) +
            (accumulate shifts).upper_y - (accumulate shifts).lower_y) ↔
    ∀ i, i < shifts.length + 1 →
      (placement (accumulate shifts).left_x (accumulate shifts).upper_y
          (shifts.map Prod.fst) (shifts.map Prod.snd) (shifts.length + 1) i).2 ≤ y ∧
      y < (placement (accumulate shifts).left_x (accumulate shifts).upper_y
          (shifts.map Prod.fst) (shifts.map Prod.snd) (shifts.length + 1) i).2 + height := by
  obtain ⟨_, _, _, _, hu, hd⟩ := accumulate_spec shifts
  have hpl : ∀ i, i < shifts.length + 1 →
      (placement (accumulate shifts).left_x (accumulate shifts).upper_y
          (shifts.map Prod.fst) (shifts.map Prod.snd) (shifts.length + 1) i).2 =
        -(accumulate shifts).upper_y + ((shifts.map Prod.snd).take i).sum := by
    intro i hi
    rw [placement_eq _ _ _ _ _ _ (by simp) (by simp) hi]
  constructor
  · rintro ⟨h1, h2⟩ i hi
    rw [hpl i hi]
    have hy := take_sum_mem_prefixSums (shifts.map Prod.snd) i (by simp; omega)
    have h3 := hu.2 hy
    have h4 := hd.2 hy
    constructor <;> linarith
  · intro h
    obtain ⟨k1, hk1, e1⟩ := hu.1
    obtain ⟨k2, hk2, e2⟩ := hd.1
    simp only [List.length_map] at hk1 hk2
    have a1 := h k1 (by omega)
    have a2 := h k2 (by omega)
    rw [hpl k1 (by omega), ← e1] at a1
    rw [hpl k2 (by omega), ← e2] at a2
    constructor <;> linarith

/-! ## The span of the blend -/

theorem seamAt_span (W : ℤ) (i : ℕ) (prev : ℤ) :
    (seamAt W i prev).smooth_span = (((seamAt W i prev).smooth_half_span * 2 : ℤ) : ℚ) ∧
    (seamAt W i prev).smooth_start =
      (seamAt W i prev).curr_junction - (seamAt W i prev).smooth_half_span ∧
    (seamAt W i prev).smooth_end =
      (seamAt W i prev).curr_junction + (seamAt W i prev).smooth_half_span := by
  simp [seamAt]

/-- C26. Whenever the body of the blend loop runs, that is for a column `c` with
`smooth_start <= c < smooth_end`, the divisor `smooth_span = 2 * smooth_half_span` of the blend
weight is strictly positive, for every integer width and shift. When the span is zero or
negative there is no such column and the blend leaves the canvas as it is; for the first
image the span is 0. -/
theorem blend_span_positive (W : ℤ) (i : ℕ) (prev c : ℤ)
    (hc : c ∈ intRange (seamAt W i prev).smooth_start (seamAt W i prev).smooth_end) :
    0 < (seamAt W i prev).smooth_span ∧
    (seamAt W i prev).smooth_span = (((seamAt W i prev).smooth_half_span * 2 : ℤ) : ℚ) ∧
    (∀ (W1 : ℤ) (j : ℕ) (p : ℤ), (seamAt W1 j p).smooth_span ≤ 0 →
      intRange (seamAt W1 j p).smooth_start (seamAt W1 j p).smooth_end = [] ∧
      ∀ (V : Vision) (ch : ℕ) (mat : Mat) (height cx cy : ℤ) (canvas : Mat),
        blendSeam V ch mat (seamAt W1 j p) height cx cy canvas = canvas) ∧
    (∀ (W1 p : ℤ), (seamAt W1 0 p).smooth_span = 0) := by
  obtain ⟨s1, s2, s3⟩ := seamAt_span W i prev
  rw [mem_intRange, s2, s3] at hc
  refine ⟨?_, s1, ?_, ?_⟩
  · rw [s1]
    have : 0 < (seamAt W i prev).smooth_half_span * 2 := by omega
    exact_mod_cast this
  · intro W1 j p hsp
    obtain ⟨t1, t2, t3⟩ := seamAt_span W1 j p
    rw [t1] at hsp
    have hh : (seamAt W1 j p).smooth_half_span * 2 ≤ 0 := by exact_mod_cast hsp
    have hle : (seamAt W1 j p).smooth_end ≤ (seamAt W1 j p).smooth_start := by
      rw [t2, t3]; omega
    refine ⟨?_, fun V ch mat height cx cy canvas =>
      blendSeam_empty V ch mat _ height cx cy canvas hle⟩
    have : ((seamAt W1 j p).smooth_end - (seamAt W1 j p).smooth_start).toNat = 0 := by omega
    simp [intRange, this]
  · intro W1 p
    simp [seamAt]

/-- Witness of C26: column 23 of the seam `20 .. 29` of two images of width 100 shifted by
50. -/
theorem blend_span_positive_witness :
    (23 : ℤ) ∈ intRange (seamAt 100 1 50).smooth_start (seamAt 100 1 50).smooth_end ∧
    0 < (seamAt 100 1 50).smooth_span := by
  have hc : (23 : ℤ) ∈ intRange (seamAt 100 1 50).smooth_start (seamAt 100 1 50).smooth_end := by
    rw [mem_intRange, seamAt_example.1, seamAt_example.2.1]
    constructor <;> norm_num
  exact ⟨hc, (blend_span_positive 100 1 50 23 hc).1⟩

/-! ## The best match and the distance filter -/

theorem roundHalfEven_ge_of_le (n : ℤ) (q : ℚ) (h : (n : ℚ) ≤ q) : n ≤ roundHalfEven q := by
  have hf : n ≤ ⌊q⌋ := Int.le_floor.mpr h
  unfold roundHalfEven
  simp only
  split_ifs <;> omega

theorem fpRound_fix_div (p : ℕ) (emin : ℤ) (M : ℚ) (hM : fpRound p emin M = M) (h0 : M ≠ 0) :
    M / 2 ^ (max (Int.log 2 |M|) emin - ((p : ℤ) - 1)) =
      (roundHalfEven (M / 2 ^ (max (Int.log 2 |M|) emin - ((p : ℤ) - 1))) : ℚ) := by
  have hu : (0 : ℚ) < 2 ^ (max (Int.log 2 |M|) emin - ((p : ℤ) - 1)) := by positivity
  unfold fpRound at hM
  rw [if_neg h0] at hM
  simp only at hM
  rw [div_eq_iff hu.ne']
  exact hM.symm

theorem fpRound_ge_of_fix (p : ℕ) (emin : ℤ) (M x : ℚ) (hp : 1 ≤ p)
    (hM : fpRound p emin M = M) (h0 : 0 < M) (hx : M ≤ x) : M ≤ fpRound p emin x := by
  have hxpos : 0 < x := lt_of_lt_of_le h0 hx
  have hlog : Int.log 2 |M| ≤ Int.log 2 |x| := by
    rw [abs_of_pos h0, abs_of_pos hxpos]
    exact Int.log_mono_right h0 hx
  have hux : (0 : ℚ) < 2 ^ (max (Int.log 2 |x|) emin - ((p : ℤ) - 1)) := by positivity
  have hfx : fpRound p emin x =
      (roundHalfEven (x / 2 ^ (max (Int.log 2 |x|) emin - ((p : ℤ) - 1))) : ℚ) *
        2 ^ (max (Int.log 2 |x|) emin - ((p : ℤ) - 1)) := by
    unfold fpRound
    rw [if_neg hxpos.ne']
  rw [hfx]
  rcases eq_or_lt_of_le (max_le_max hlog (le_refl emin)) with heq | hlt
  · -- the same spacing
    have hd := fpRound_fix_div p emin M hM h0.ne'
    rw [heq] at hd
    have hle : M / 2 ^ (max (Int.log 2 |x|) emin - ((p : ℤ) - 1)) ≤
        x / 2 ^ (max (Int.log 2 |x|) emin - ((p : ℤ) - 1)) :=
      div_le_div_of_nonneg_right hx hux.le
    rw [hd] at hle
    have hk := roundHalfEven_ge_of_le _ _ hle
    have hk' : ((roundHalfEven (M / 2 ^ (max (Int.log 2 |x|) emin - ((p : ℤ) - 1))) : ℤ) : ℚ) ≤
        (roundHalfEven (x / 2 ^ (max (Int.log 2 |x|) emin - ((p : ℤ) - 1))) : ℚ) := by
      exact_mod_cast hk
    calc M = M / 2 ^ (max (Int.log 2 |x|) emin - ((p : ℤ) - 1)) *
          2 ^ (max (Int.log 2 |x|) emin - ((p : ℤ) - 1)) := by field_simp
      _ = (roundHalfEven (M / 2 ^ (max (Int.log 2 |x|) emin - ((p : ℤ) - 1))) : ℚ) *
          2 ^ (max (Int.log 2 |x|) emin - ((p : ℤ) - 1)) := by rw [← hd]
      _ ≤ _ := mul_le_mul_of_nonneg_right hk' hux.le
  · -- `x` lies in a higher binade
    have hex : max (Int.log 2 |x|) emin = Int.log 2 |x| := by
      apply max_eq_left
      have := le_max_right (Int.log 2 |M|) emin
      omega
    have hlx : Int.log 2 |M| + 1 ≤ Int.log 2 |x| := by
      have := le_max_left (Int.log 2 |M|) emin
      omega
    rw [hex]
    have hxlo : (2 : ℚ) ^ (Int.log 2 |x|) ≤ x := by
      have := Int.zpow_log_le_self (R := ℚ) (b := 2) (by norm_num) (abs_pos.mpr hxpos.ne')
      rw [abs_of_pos hxpos] at this ⊢
      exact_mod_cast this
    have hMhi : M < (2 : ℚ) ^ (Int.log 2 |x|) := by
      have h1 := Int.lt_zpow_succ_log_self (R := ℚ) (b := 2) (by norm_num) |M|
      rw [abs_of_pos h0] at h1
      have h2 : (2 : ℚ) ^ (Int.log 2 M + 1) ≤ 2 ^ (Int.log 2 |x|) := by
        apply zpow_le_zpow_right₀ (by norm_num)
        rw [abs_of_pos h0] at hlx
        exact hlx
      exact lt_of_lt_of_le (by exact_mod_cast h1) h2
    have hu : (0 : ℚ) < 2 ^ (Int.log 2 |x| - ((p : ℤ) - 1)) := by positivity
    obtain ⟨k, hk⟩ : ∃ k : ℕ, (p : ℤ) - 1 = k := ⟨p - 1, by omega⟩
    have hint : (((2 : ℤ) ^ k : ℤ) : ℚ) ≤ x / 2 ^ (Int.log 2 |x| - ((p : ℤ) - 1)) := by
      rw [le_div_iff₀ hu]
      have : (((2 : ℤ) ^ k : ℤ) : ℚ) * 2 ^ (Int.log 2 |x| - ((p : ℤ) - 1)) =
          2 ^ (Int.log 2 |x|) := by
        push_cast
        rw [hk, ← zpow_natCast, ← zpow_add₀ (by norm_num)]
        congr 1
        ring
      rw [this]
      exact hxlo
    have hr := roundHalfEven_ge_of_le _ _ hint
    have hr' : (((2 : ℤ) ^ k : ℤ) : ℚ) ≤
        (roundHalfEven (x / 2 ^ (Int.log 2 |x| - ((p : ℤ) - 1))) : ℚ) := by
      exact_mod_cast hr
    have : (2 : ℚ) ^ (Int.log 2 |x|) ≤
        (roundHalfEven (x / 2 ^ (Int.log 2 |x| - ((p : ℤ) - 1))) : ℚ) *
          2 ^ (Int.log 2 |x| - ((p : ℤ) - 1)) := by
      have e : (((2 : ℤ) ^ k : ℤ) : ℚ) * 2 ^ (Int.log 2 |x| - ((p : ℤ) - 1)) =
          2 ^ (Int.log 2 |x|) := by
        push_cast
        rw [hk, ← zpow_natCast, ← zpow_add₀ (by norm_num)]
        congr 1
        ring
      rw [← e]
      exact mul_le_mul_of_nonneg_right hr' hu.le
    linarith

theorem rnd64_of_rnd32 (q : ℚ) (h : rnd32 q = q) : rnd64 q = q := by
  rcases eq_or_ne q 0 with rfl | hq
  · exact fpRound_zero _ _
  have hd := fpRound_fix_div 24 (-126) q h hq
  have hle : max (Int.log 2 |q|) (-1022) ≤ max (Int.log 2 |q|) (-126) :=
    max_le_max (le_refl _) (by norm_num)
  obtain ⟨n, hn⟩ : ∃ n : ℕ, max (Int.log 2 |q|) (-126) - ((24 : ℕ) - 1 : ℤ) -
      (max (Int.log 2 |q|) (-1022) - ((53 : ℕ) - 1 : ℤ)) = n :=
    ⟨(max (Int.log 2 |q|) (-126) - ((24 : ℕ) - 1 : ℤ) -
      (max (Int.log 2 |q|) (-1022) - ((53 : ℕ) - 1 : ℤ))).toNat, by
        rw [Int.toNat_of_nonneg]
        push_cast
        omega⟩
  have h32 : (0 : ℚ) < 2 ^ (max (Int.log 2 |q|) (-126) - ((24 : ℕ) - 1 : ℤ)) := by positivity
  have h64 : (0 : ℚ) < 2 ^ (max (Int.log 2 |q|) (-1022) - ((53 : ℕ) - 1 : ℤ)) := by positivity
  have hsplit : (2 : ℚ) ^ (max (Int.log 2 |q|) (-126) - ((24 : ℕ) - 1 : ℤ)) =
      2 ^ (max (Int.log 2 |q|) (-1022) - ((53 : ℕ) - 1 : ℤ)) * 2 ^ n := by
    rw [← zpow_natCast, ← zpow_add₀ (by norm_num), ← hn]
    congr 1
    ring
  have hint : q / 2 ^ (max (Int.log 2 |q|) (-1022) - ((53 : ℕ) - 1 : ℤ)) =
      ((roundHalfEven (q / 2 ^ (max (Int.log 2 |q|) (-126) - ((24 : ℕ) - 1 : ℤ))) * 2 ^ n : ℤ) : ℚ) := by
    rw [div_eq_iff h64.ne', Int.cast_mul, Int.cast_pow, Int.cast_ofNat, ← hd, mul_assoc,
      mul_comm ((2 : ℚ) ^ n), ← hsplit]
    field_simp
  unfold rnd64 fpRound
  rw [if_neg hq]
  simp only
  rw [hint, roundHalfEven_intCast, ← hint]
  field_simp

/-- C27. For every non-empty match list whose distances are `float` values and every
`dist_ratio >= 1`, the distance filter of `prepareShifts` returns a non-empty list that
contains every match of minimum distance (the distances need not be non-negative for this).
For `dist_ratio < 1` the filtered list can be empty: with `dist_ratio = 1/4` the single match
at distance 2 is removed. -/
theorem best_match_survives (dist_ratio : ℚ) (ms : List DMatch) (hne : ms ≠ [])
    (hfloat : ∀ x ∈ ms, rnd32 x.distance = x.distance) (hr : 1 ≤ dist_ratio) :
    (∃ out, distanceFilter dist_ratio ms = .ok out ∧ out ≠ [] ∧
      ∀ x ∈ ms, (∀ y ∈ ms, x.distance ≤ y.distance) → x ∈ out) ∧
    distanceFilter (1 / 4) [⟨0, 1, 2⟩] = .ok [] := by
  constructor
  · cases ms with
    | nil => exact absurd rfl hne
    | cons m0 rest =>
      obtain ⟨h1, h2, h3⟩ := foldl_min_spec (m0 :: rest) m0.distance
      have hatt : ∃ z ∈ m0 :: rest, z.distance =
          (m0 :: rest).foldl (fun acc m => if m.distance < acc then m.distance else acc)
            m0.distance := by
        rcases h3 with h3 | h3
        · exact ⟨m0, List.mem_cons_self _ _, h3.symm⟩
        · exact h3
      obtain ⟨z, hz, hzd⟩ := hatt
      have hthr : (m0 :: rest).foldl (fun acc m => if m.distance < acc then m.distance else acc)
            m0.distance ≤
          rnd64 (max 1 ((m0 :: rest).foldl
            (fun acc m => if m.distance < acc then m.distance else acc) m0.distance) *
              dist_ratio) := by
        rw [← hzd]
        have hfix : rnd64 (max 1 z.distance) = max 1 z.distance := by
          rcases le_total 1 z.distance with hc | hc
          · rw [max_eq_right hc]; exact rnd64_of_rnd32 _ (hfloat z hz)
          · rw [max_eq_left hc]
            exact_mod_cast rnd64_intCast 1 (by norm_num)
        have hMpos : (0 : ℚ) < max 1 z.distance := lt_of_lt_of_le one_pos (le_max_left _ _)
        have hmul : max 1 z.distance ≤ max 1 z.distance * dist_ratio := by
          nlinarith
        have := fpRound_ge_of_fix 53 (-1022) _ _ (by norm_num) hfix hMpos hmul
        exact le_trans (le_max_right _ _) this
      have hin : ∀ x ∈ m0 :: rest, (∀ y ∈ m0 :: rest, x.distance ≤ y.distance) →
          x ∈ (m0 :: rest).filter (fun x => decide (x.distance ≤ rnd64 (max 1
            ((m0 :: rest).foldl (fun acc m => if m.distance < acc then m.distance else acc)
              m0.distance) * dist_ratio))) := by
        intro x hx hmin
        rw [List.mem_filter]
        refine ⟨hx, ?_⟩
        simp only [decide_eq_true_eq]
        have := hmin z hz
        rw [hzd] at this
        exact le_trans this hthr
      refine ⟨_, rfl, ?_, hin⟩
      have hzin := hin z hz (fun y hy => by rw [hzd]; exact h2 y hy)
      exact List.ne_nil_of_mem hzin
  · have : (1 : ℚ) ⊔ 2 = 2 := by norm_num
    simp [distanceFilter, this, rnd64_half]
    norm_num [rnd64_half]

/-- Witness of C27: three matches at the `float` distances 3, 1/2 and 7 with
`dist_ratio = 2`. -/
theorem best_match_survives_witness :
    (∃ out, distanceFilter 2 [⟨0, 0, 3⟩, ⟨1, 1, 1 / 2⟩, ⟨2, 2, 7⟩] = .ok out ∧ out ≠ [] ∧
      ∀ x ∈ [(⟨0, 0, 3⟩ : DMatch), ⟨1, 1, 1 / 2⟩, ⟨2, 2, 7⟩],
        (∀ y ∈ [(⟨0, 0, 3⟩ : DMatch), ⟨1, 1, 1 / 2⟩, ⟨2, 2, 7⟩], x.distance ≤ y.distance) →
          x ∈ out) ∧
    distanceFilter (1 / 4) [⟨0, 1, 2⟩] = .ok [] :=
  best_match_survives 2 [⟨0, 0, 3⟩, ⟨1, 1, 1 / 2⟩, ⟨2, 2, 7⟩] (by simp)
    (by
      have e3 : rnd32 3 = 3 := rnd32_of_int 3 _ (by norm_num) (by norm_num)
      have e7 : rnd32 7 = 7 := rnd32_of_int 7 _ (by norm_num) (by norm_num)
      have eh : rnd32 (1 / 2) = 1 / 2 := by
        rw [rnd32_eq_of (1 / 2) (-1) (2 ^ 23) (by norm_num [abs_of_pos])
          (by norm_num [abs_of_pos]) (by norm_num) (by norm_num)]
        norm_num
      intro x hx
      simp only [List.mem_cons, List.mem_singleton, List.not_mem_nil, or_false] at hx
      rcases hx with rfl | rfl | rfl
      · exact e3
      · exact eh
      · exact e7)
    (by norm_num)

/-! ## The seam of two images that overlap in one column -/

theorem seamAt_unit_gap (W : ℤ) (i : ℕ) (hi : 0 < i) :
    (seamAt W i (W - 1)).smooth_start = -1 ∧ (seamAt W i (W - 1)).smooth_end = 1 ∧
    (seamAt W i (W - 1)).curr_piece_left = 1 := by
  have e : W - (W - 1) = 1 := by ring
  obtain ⟨h1, _, _, h4, h5⟩ := seamAt_pos W i (W - 1) hi (by omega) (by omega)
  rw [e] at h1 h4 h5
  exact ⟨by rw [h4]; decide, by rw [h5]; decide, by rw [h1]; decide⟩

theorem stitchStep_unit_gap (V : Vision) (st : PanoramicImage) (mats : List Mat) (W H : ℤ)
    (ch N : ℕ) (s : Stitch) (i : ℕ) (mat : Mat) (hi : 0 < i)
    (hm : getAt mats i = .ok mat) (hp : getAt st.shift_x (i - 1) = .ok (W - 1))
    (hH : 0 < H) :
    stitchStep V st mats W H ch N s i = .error .pixelOutOfBounds := by
  obtain ⟨f1, f2, _⟩ := seamAt_unit_gap W i hi
  have hprev : prevShift st.shift_x i = .ok (W - 1) := by
    simp [prevShift, hi, hp]
  have hb : blendInBounds mat s.canvas (seamAt W i (W - 1)) H s.curr_x s.curr_y = false := by
    simp only [blendInBounds, decide_eq_false_iff_not, f1, f2]
    omega
  simp only [stitchStep, hm, hprev, bind, Except.bind, hb, Bool.not_false, if_true]

theorem stitchStep_first_returns (V : Vision) (st : PanoramicImage) (mats : List Mat)
    (W H : ℤ) (ch N : ℕ) (s : Stitch) (mat : Mat)
    (hm : getAt mats 0 = .ok mat) (hmr : H ≤ mat.rows) (hmc : W ≤ mat.cols)
    (hidx : ¬ (0 + 1 < N ∧ (st.shift_x.length ≤ 0 ∨ st.shift_y.length ≤ 0)))
    (hH : 0 ≤ H) (hW0 : 0 ≤ W)
    (hcx : 0 ≤ s.curr_x) (hcx' : s.curr_x + W ≤ s.canvas.cols)
    (hcy : 0 ≤ s.curr_y) (hcy' : s.curr_y + H ≤ s.canvas.rows) :
    ∃ s', stitchStep V st mats W H ch N s 0 = .ok s' := by
  obtain ⟨f1, f2, f3⟩ := seamAt_zero W 0
  have hprev : prevShift st.shift_x 0 = .ok 0 := by simp [prevShift]
  have hb : blendInBounds mat s.canvas (seamAt W 0 0) H s.curr_x s.curr_y = true := by
    simp only [blendInBounds, decide_eq_true_eq, f2, f3]
    right; left; exact le_refl _
  have hv1 : mat.validRange 0 H (seamAt W 0 0).curr_piece_left W = true := by
    simp only [Mat.validRange, decide_eq_true_eq, f1]
    exact ⟨le_refl _, hH, hmr, le_refl _, hW0, hmc⟩
  have hv2 : s.canvas.validRange s.curr_y (s.curr_y + H)
      (s.curr_x + (seamAt W 0 0).curr_piece_left) (s.curr_x + W) = true := by
    simp only [Mat.validRange, decide_eq_true_eq, f1]
    refine ⟨hcy, ?_, hcy', ?_, ?_, hcx'⟩ <;> omega
  simp only [stitchStep, hm, hprev, bind, Except.bind, hb, hv1, hv2, Bool.not_true,
    Bool.false_eq_true, if_false, if_neg hidx]
  exact ⟨_, rfl⟩

theorem composite_unit_gap (V : Vision) (st : PanoramicImage) (p0 p1 m0 m1 : Mat) (sy : ℤ)
    (hp : st.projected_images = [p0, p1])
    (hx : st.shift_x = [p0.cols - 1]) (hy : st.shift_y = [sy])
    (hl : st.left_x = 0) (hr : st.right_x = p0.cols - 1)
    (hu : st.upper_y = min 0 sy) (hd : st.lower_y = max 0 sy)
    (hH : 0 < p0.rows) (hW : 1 ≤ p0.cols)
    (hmr : p0.rows ≤ m0.rows) (hmc : p0.cols ≤ m0.cols) :
    composite V st [m0, m1] = .error .pixelOutOfBounds := by
  have hr2 : List.range 2 = [0, 1] := rfl
  have hal : allocCanvas V st p0.cols p0.rows m0.channels =
      .ok ⟨p0.rows + st.lower_y - st.upper_y, p0.cols + st.right_x - st.left_x,
        m0.channels, V.uninit⟩ := by
    unfold allocCanvas
    rw [if_neg]
    rw [hl, hr, hu, hd]
    have := min_le_left 0 sy
    have := le_max_left 0 sy
    omega
  obtain ⟨s1, hs1⟩ := stitchStep_first_returns V st [m0, m1] p0.cols p0.rows m0.channels 2
    ⟨⟨p0.rows + st.lower_y - st.upper_y, p0.cols + st.right_x - st.left_x,
        m0.channels, V.uninit⟩, -st.left_x, -st.upper_y⟩ m0 rfl hmr hmc
    (by simp [hx, hy]) hH.le (by omega)
    (by simp only; omega) (by simp only; rw [hl, hr]; omega)
    (by simp only; rw [hu]; have := min_le_left 0 sy; omega)
    (by simp only; rw [hu, hd]; have := le_max_left 0 sy; omega)
  have hs2 := stitchStep_unit_gap V st [m0, m1] p0.cols p0.rows m0.channels 2 s1 1 m1
    (by norm_num) rfl (by rw [hx]; rfl) hH
  simp only [composite, hp, getAt, List.getElem?_cons_zero, bind, Except.bind, hal,
    List.length_cons, List.length_nil, Nat.reduceAdd, hr2, List.foldlM_cons, List.foldlM_nil,
    pure, Except.pure]
  rw [hs1]
  simp only
  rw [hs2]

theorem pairShift_unit_gap :
    pairShift Vision.unitGap [⟨99, 0⟩, ⟨0, 0⟩] [⟨99, 0⟩, ⟨0, 0⟩] [⟨0, 1, 0⟩] =
      .ok ⟨99, 0, [⟨0, 1, 0⟩]⟩ := by
  have e0 : rnd64 0 = 0 := fpRound_zero _ _
  have e0f : rnd32 0 = 0 := fpRound_zero _ _
  have e1 : rnd32 99 = 99 := rnd32_of_int 99 _ (by norm_num) (by norm_num)
  have e2 : rnd64 99 = 99 := rnd64_of_int 99 _ (by norm_num) (by norm_num)
  have e3 : roundHalfAway (99 : ℚ) = 99 := roundHalfAway_of_int 99 _ (by norm_num)
  have e4 : roundHalfAway (0 : ℚ) = 0 := roundHalfAway_of_int 0 _ (by norm_num)
  simp only [pairShift, Vision.unitGap, Vision.sample, List.mapM_cons, List.mapM_nil, bind,
    Except.bind, pure, Except.pure, getAtInt, getAt]
  simp [List.enum, List.enumFrom, maskStep, getAt, bind, Except.bind, pure, Except.pure,
    e0, e0f, e1, e2, e3, e4]

theorem prepareShifts_unit_gap (draw : Bool) :
    prepareShifts Vision.unitGap sampleFresh draw =
      .ok (storeShifts Vision.unitGap (projectImages Vision.unitGap sampleFresh)
        ⟨[(99, 0)], [[⟨99, 0⟩, ⟨0, 0⟩], [⟨99, 0⟩, ⟨0, 0⟩]], [[⟨0, 1, 0⟩]]⟩ draw) := by
  rw [prepareShifts_sampleFresh Vision.unitGap rfl rfl, matchShifts_two]
  have hd : distanceFilter 3 (Vision.unitGap.bfMatch
      (Vision.unitGap.detectAndCompute { sampleImage with channels := 1 }).2
      (Vision.unitGap.detectAndCompute { sampleImage with channels := 1 }).2) =
      .ok [⟨0, 1, 0⟩] := distanceFilter_sample
  rw [hd, ok_bind]
  have hk : (Vision.unitGap.detectAndCompute { sampleImage with channels := 1 }).1 =
      [⟨99, 0⟩, ⟨0, 0⟩] := rfl
  rw [hk, pairShift_unit_gap]
  rfl

theorem get_unit_gap (g e draw : Bool) :
    get Vision.unitGap sampleFresh g e draw = .error .pixelOutOfBounds := by
  have hne : ¬ (RIGHT = LEFT) := by decide
  rw [get_compute Vision.unitGap sampleFresh g e draw (Or.inl rfl)]
  have hes : ensureShifts Vision.unitGap sampleFresh draw
      (draw && sampleFresh.match_images.isEmpty) =
      prepareShifts Vision.unitGap sampleFresh draw := by
    simp [ensureShifts, sampleFresh, PanoramicImage.new]
  rw [hes, prepareShifts_unit_gap, ok_bind]
  have hacc : accumulate [((99 : ℤ), (0 : ℤ))] = ⟨99, 0, 0, 99, 0, 0⟩ := by decide
  have key : ∀ (st2 : PanoramicImage) (m0 m1 : Mat),
      st2.projected_images = [sampleImage, sampleImage] → st2.shift_x = [99] →
      st2.shift_y = [0] → st2.left_x = 0 → st2.right_x = 99 → st2.upper_y = 0 →
      st2.lower_y = 0 → material st2 g e = [m0, m1] → m0.rows = 40 → m0.cols = 100 →
      makePanoramic Vision.unitGap st2 (material st2 g e) g e = .error .pixelOutOfBounds := by
    intro st2 m0 m1 h1 h2 h3 h4 h5 h6 h7 h8 h9 h10
    have hc := composite_unit_gap Vision.unitGap st2 sampleImage sampleImage m0 m1 0 h1
      (by rw [h2]; rfl) h3 h4 (by rw [h5]; rfl) (by rw [h6]; rfl) (by rw [h7]; rfl)
      (by decide) (by decide) (by rw [h9]; decide) (by rw [h10]; decide)
    rw [h8]
    simp only [makePanoramic, hc, bind, Except.bind]
  cases g <;> cases e <;> cases draw <;>
    simp only [prepareMaterial, storeShifts, projectImages, sampleFresh, if_neg hne,
      List.map_cons, List.map_nil, List.length_cons, List.length_nil, Nat.reduceAdd, firstN,
      List.isEmpty_nil, List.isEmpty_cons, Bool.and_true, Bool.and_false, Bool.false_eq_true,
      if_false, if_true, le_refl, List.take, bind, Except.bind, hacc, PanoramicImage.new,
      Bool.true_and, Bool.false_and] <;>
    exact key _ _ _ rfl rfl rfl rfl rfl rfl rfl rfl rfl rfl

/-- C25, the code at two images of width 100 that overlap in one column (`s = W - 1 = 99`).
Then `junction = 0` and `curr_piece_left = round(0.6) = 1`, so `smooth_start = -1` and
`smooth_end = 1`: the blend loop runs for the column `c = -1`, which is outside the image, and
the reads of `material_images[i]` at column `-1` are out of bounds. `get` on two such images
stops at that access. For every other `s` with `0 <= s <= W < 2^31` the columns of the seam
lie in `0 .. W - 1`. -/
theorem seam_window_unit_gap (g e draw : Bool) :
    (seamAt 100 1 99).smooth_start = -1 ∧ (seamAt 100 1 99).smooth_end = 1 ∧
    (-1 : ℤ) ∈ intRange (seamAt 100 1 99).smooth_start (seamAt 100 1 99).smooth_end ∧
    prepareShifts Vision.unitGap sampleFresh draw =
      .ok (storeShifts Vision.unitGap (projectImages Vision.unitGap sampleFresh)
        ⟨[(99, 0)], [[⟨99, 0⟩, ⟨0, 0⟩], [⟨99, 0⟩, ⟨0, 0⟩]], [[⟨0, 1, 0⟩]]⟩ draw) ∧
    get Vision.unitGap sampleFresh g e draw = .error .pixelOutOfBounds ∧
    (∀ (W s c : ℤ) (i : ℕ), 0 ≤ s ∧ s ≤ W ∧ W < 2 ^ 31 ∧ W - s ≠ 1 ∧
      c ∈ intRange (seamAt W i s).smooth_start (seamAt W i s).smooth_end → 0 ≤ c ∧ c < W) := by
  have h := seamAt_unit_gap 100 1 (by norm_num)
  have e99 : (100 : ℤ) - 1 = 99 := by norm_num
  rw [e99] at h
  refine ⟨h.1, h.2.1, ?_, prepareShifts_unit_gap draw, get_unit_gap g e draw, ?_⟩
  · rw [mem_intRange, h.1, h.2.1]; constructor <;> norm_num
  · rintro W s c i ⟨h0, h1, h2, h3, hc⟩
    obtain ⟨f1, f2, f3, f4, f5⟩ := seamAt_facts W i s (Or.inr ⟨h0, h1, h3, h2⟩) (by omega)
    rw [mem_intRange] at hc
    have hend : (seamAt W i s).curr_piece_left ≤ W := f5
    omega

/-! ## The content of fresh memory -/

theorem blendPixel_lib (V1 V2 : Vision) (hV : V1.addWeighted = V2.addWeighted) (ch : ℕ)
    (o c : ℕ → ℕ) (a : ℚ) : blendPixel V1 ch o c a = blendPixel V2 ch o c a := by
  simp only [blendPixel, hV]

theorem blendAt_pointwise (V1 V2 : Vision) (hV : V1.addWeighted = V2.addWeighted) (ch : ℕ)
    (mat : Mat) (sm : Seam) (cx cy : ℤ) (a b : Mat) (r c y x : ℤ)
    (h : a.px y x = b.px y x) :
    (blendAt V1 ch mat sm cx cy a r c).px y x = (blendAt V2 ch mat sm cx cy b r c).px y x := by
  simp only [blendAt, Mat.set]
  by_cases hc : y = cy + r ∧ x = cx + c
  · rw [if_pos hc, if_pos hc]
    obtain ⟨rfl, rfl⟩ := hc
    rw [h, blendPixel_lib V1 V2 hV]
  · rw [if_neg hc, if_neg hc]
    exact h

theorem blendRow_pointwise (V1 V2 : Vision) (hV : V1.addWeighted = V2.addWeighted) (ch : ℕ)
    (mat : Mat) (sm : Seam) (cx cy r y x : ℤ) (L : List ℤ) (a b : Mat)
    (h : a.px y x = b.px y x) :
    (L.foldl (fun cv c => blendAt V1 ch mat sm cx cy cv r c) a).px y x =
      (L.foldl (fun cv c => blendAt V2 ch mat sm cx cy cv r c) b).px y x := by
  induction L generalizing a b with
  | nil => exact h
  | cons c L ih =>
    simp only [List.foldl_cons]
    exact ih _ _ (blendAt_pointwise V1 V2 hV ch mat sm cx cy a b r c y x h)

theorem blendRows_pointwise (V1 V2 : Vision) (hV : V1.addWeighted = V2.addWeighted) (ch : ℕ)
    (mat : Mat) (sm : Seam) (cx cy y x : ℤ) (L R : List ℤ) (a b : Mat)
    (h : a.px y x = b.px y x) :
    (R.foldl (fun cv r => L.foldl (fun cv c => blendAt V1 ch mat sm cx cy cv r c) cv) a).px y x
      = (R.foldl (fun cv r => L.foldl (fun cv c => blendAt V2 ch mat sm cx cy cv r c) cv)
          b).px y x := by
  induction R generalizing a b with
  | nil => exact h
  | cons r R ih =>
    simp only [List.foldl_cons]
    exact ih _ _ (blendRow_pointwise V1 V2 hV ch mat sm cx cy r y x L a b h)

/-- The value that one iteration of the stitching loop leaves in a canvas element depends on
the canvas only through the value of that element, and not at all where the image is
pasted. -/
theorem stitchCanvas_pointwise (V1 V2 : Vision) (hV : V1.addWeighted = V2.addWeighted)
    (ch : ℕ) (mat : Mat) (sm : Seam) (W H cx cy : ℤ) (a b : Mat) (y x : ℤ)
    (h : a.px y x = b.px y x ∨
      (cy ≤ y ∧ y < cy + H ∧ cx + sm.curr_piece_left ≤ x ∧ x < cx + W)) :
    (stitchCanvas V1 ch mat sm W H cx cy a).px y x =
      (stitchCanvas V2 ch mat sm W H cx cy b).px y x := by
  simp only [stitchCanvas, paste]
  by_cases hc : cy ≤ y ∧ y < cy + H ∧ cx + sm.curr_piece_left ≤ x ∧ x < cx + W
  · rw [if_pos hc, if_pos hc]
  · rw [if_neg hc, if_neg hc]
    rcases h with h | h
    · exact blendRows_pointwise V1 V2 hV ch mat sm cx cy y x _ _ a b h
    · exact absurd h hc

theorem seamAt_prevShift (W : ℤ) (xs : List ℤ) (i : ℕ) (prev : ℤ)
    (h : prevShift xs i = .ok prev) : seamAt W i prev = seamAt W i (xs.getD (i - 1) 0) := by
  rcases Nat.eq_zero_or_pos i with h0 | h0
  · subst h0
    simp [seamAt]
  · simp only [prevShift, if_pos h0, getAt] at h
    cases hx : xs[i - 1]? with
    | none => rw [hx] at h; simp at h
    | some v =>
      rw [hx] at h
      simp only [Except.ok.injEq] at h
      rw [List.getD_eq_getElem?_getD, hx, Option.getD_some, h]

/-- One iteration of the stitching loop on two canvases of the same size: the two runs stop
alike, and where the canvases agreed before, or the image is pasted, they agree after. -/
theorem stitchStep_agree (V1 V2 : Vision) (hV : V1.addWeighted = V2.addWeighted)
    (st : PanoramicImage) (mats : List Mat) (W H : ℤ) (ch N : ℕ) (c1 c2 : Mat) (cx cy : ℤ)
    (i : ℕ) (hr : c1.rows = c2.rows) (hc : c1.cols = c2.cols)
    (hch : c1.channels = c2.channels) :
    (∃ f, stitchStep V1 st mats W H ch N ⟨c1, cx, cy⟩ i = .error f ∧
      stitchStep V2 st mats W H ch N ⟨c2, cx, cy⟩ i = .error f) ∨
    (∃ t1 t2, stitchStep V1 st mats W H ch N ⟨c1, cx, cy⟩ i = .ok t1 ∧
      stitchStep V2 st mats W H ch N ⟨c2, cx, cy⟩ i = .ok t2 ∧
      t1.curr_x = t2.curr_x ∧ t1.curr_y = t2.curr_y ∧
      t1.canvas.rows = t2.canvas.rows ∧ t1.canvas.cols = t2.canvas.cols ∧
      t1.canvas.channels = t2.canvas.channels ∧
      ∀ y x, (c1.px y x = c2.px y x ∨
          (cy ≤ y ∧ y < cy + H ∧
            cx + (seamAt W i (st.shift_x.getD (i - 1) 0)).curr_piece_left ≤ x ∧ x < cx + W)) →
        t1.canvas.px y x = t2.canvas.px y x) := by
  unfold stitchStep
  cases hm : getAt mats i with
  | error f => exact Or.inl ⟨f, rfl, rfl⟩
  | ok mat =>
    cases hp : prevShift st.shift_x i with
    | error f => exact Or.inl ⟨f, rfl, rfl⟩
    | ok prev =>
      have hsm := seamAt_prevShift W st.shift_x i prev hp
      have hb : blendInBounds mat c1 (seamAt W i prev) H cx cy =
          blendInBounds mat c2 (seamAt W i prev) H cx cy := by
        simp only [blendInBounds, hr, hc]
      have hv : c1.validRange cy (cy + H) (cx + (seamAt W i prev).curr_piece_left) (cx + W) =
          c2.validRange cy (cy + H) (cx + (seamAt W i prev).curr_piece_left) (cx + W) := by
        simp only [Mat.validRange, hr, hc]
      simp only [bind, Except.bind, hb, hv]
      split_ifs with k1 k2 k3 k4
      · exact Or.inl ⟨_, rfl, rfl⟩
      · exact Or.inl ⟨_, rfl, rfl⟩
      · exact Or.inl ⟨_, rfl, rfl⟩
      · exact Or.inl ⟨_, rfl, rfl⟩
      · refine Or.inr ⟨_, _, rfl, rfl, rfl, rfl, ?_, ?_, ?_, ?_⟩
        · rw [(stitchCanvas_size V1 ch mat _ W H cx cy c1).1,
            (stitchCanvas_size V2 ch mat _ W H cx cy c2).1, hr]
        · rw [(stitchCanvas_size V1 ch mat _ W H cx cy c1).2.1,
            (stitchCanvas_size V2 ch mat _ W H cx cy c2).2.1, hc]
        · rw [(stitchCanvas_size V1 ch mat _ W H cx cy c1).2.2,
            (stitchCanvas_size V2 ch mat _ W H cx cy c2).2.2, hch]
        · intro y x hyx
          rw [← hsm] at hyx
          exact stitchCanvas_pointwise V1 V2 hV ch mat _ W H cx cy c1 c2 y x hyx

/-- The stitching loop on two canvases of the same size: the two runs stop alike, and the
final canvases agree in every element that one of the images was pasted to. -/
theorem stitchLoop_agree (V1 V2 : Vision) (hV : V1.addWeighted = V2.addWeighted)
    (st : PanoramicImage) (mats : List Mat) (W H : ℤ) (ch N : ℕ) (c1 c2 : Mat)
    (hr : c1.rows = c2.rows) (hc : c1.cols = c2.cols) (hch : c1.channels = c2.channels)
    (k : ℕ) :
    (∃ f, (List.range k).foldlM (stitchStep V1 st mats W H ch N)
        ⟨c1, -st.left_x, -st.upper_y⟩ = .error f ∧
      (List.range k).foldlM (stitchStep V2 st mats W H ch N)
        ⟨c2, -st.left_x, -st.upper_y⟩ = .error f) ∨
    (∃ t1 t2, (List.range k).foldlM (stitchStep V1 st mats W H ch N)
        ⟨c1, -st.left_x, -st.upper_y⟩ = .ok t1 ∧
      (List.range k).foldlM (stitchStep V2 st mats W H ch N)
        ⟨c2, -st.left_x, -st.upper_y⟩ = .ok t2 ∧
      t1.curr_x = t2.curr_x ∧ t1.curr_y = t2.curr_y ∧
      t1.canvas.rows = t2.canvas.rows ∧ t1.canvas.cols = t2.canvas.cols ∧
      t1.canvas.channels = t2.canvas.channels ∧
      ∀ y x, pasted st W H N k y x → t1.canvas.px y x = t2.canvas.px y x) := by
  induction k with
  | zero =>
    refine Or.inr ⟨_, _, rfl, rfl, rfl, rfl, hr, hc, hch, ?_⟩
    rintro y x ⟨i, hi, _⟩
    omega
  | succ k ih =>
    rw [List.range_succ, List.foldlM_append, List.foldlM_append]
    rcases ih with ⟨f, e1, e2⟩ | ⟨t1, t2, e1, e2, hx, hy, hr', hc', hch', hpx⟩
    · rw [e1, e2]
      exact Or.inl ⟨f, rfl, rfl⟩
    · obtain ⟨_, _, hpl⟩ := stitchLoop_inv V1 st mats W H ch N c1 k t1 e1
      rw [e1, e2]
      simp only [bind, Except.bind, List.foldlM_cons, List.foldlM_nil]
      obtain ⟨cv1, x1, y1⟩ := t1
      obtain ⟨cv2, x2, y2⟩ := t2
      simp only at hx hy hr' hc' hch' hpx hpl
      subst hx hy
      rcases stitchStep_agree V1 V2 hV st mats W H ch N cv1 cv2 x1 y1 k hr' hc' hch' with
        ⟨f, s1, s2⟩ | ⟨u1, u2, s1, s2, gx, gy, gr, gc, gch, gpx⟩
      · rw [s1, s2]
        exact Or.inl ⟨f, rfl, rfl⟩
      · rw [s1, s2]
        refine Or.inr ⟨u1, u2, rfl, rfl, gx, gy, gr, gc, gch, ?_⟩
        rintro y x ⟨i, hi, p1, p2, p3, p4⟩
        apply gpx
        rcases Nat.lt_succ_iff_lt_or_eq.mp hi with hlt | heq
        · exact Or.inl (hpx y x ⟨i, hlt, p1, p2, p3, p4⟩)
        · subst heq
          rw [← hpl] at p1 p2 p3 p4
          exact Or.inr ⟨p1, p2, p3, p4⟩

/-- Two computations of the composite that differ in the content of the fresh canvas stop
alike, and the two images have the same size and agree in every element that comes from a
canvas element to which one of the images was pasted. -/
theorem composite_agree (V1 V2 : Vision) (hV : V1.addWeighted = V2.addWeighted)
    (st : PanoramicImage) (mats : List Mat) :
    (∃ f, composite V1 st mats = .error f ∧ composite V2 st mats = .error f) ∨
    (∃ a b p0 ps, st.projected_images = p0 :: ps ∧
      composite V1 st mats = .ok a ∧ composite V2 st mats = .ok b ∧
      a.rows = b.rows ∧ a.cols = b.cols ∧ a.channels = b.channels ∧
      ∀ y x, pasted st p0.cols p0.rows (ps.length + 1) (ps.length + 1)
          (y + (st.lower_y - st.upper_y)) x → a.px y x = b.px y x) := by
  unfold composite
  cases hp : st.projected_images with
  | nil => exact Or.inl ⟨_, rfl, rfl⟩
  | cons p0 ps =>
    simp only [getAt, List.getElem?_cons_zero, bind, Except.bind, List.length_cons]
    cases hm : mats[0]? with
    | none => exact Or.inl ⟨_, rfl, rfl⟩
    | some m0 =>
      simp only [allocCanvas]
      by_cases hsz : p0.rows + st.lower_y - st.upper_y < 0 ∨
          p0.cols + st.right_x - st.left_x < 0
      · simp only [if_pos hsz]
        exact Or.inl ⟨_, rfl, rfl⟩
      · simp only [if_neg hsz]
        rcases stitchLoop_agree V1 V2 hV st mats p0.cols p0.rows m0.channels (ps.length + 1)
          ⟨p0.rows + st.lower_y - st.upper_y, p0.cols + st.right_x - st.left_x, m0.channels,
            V1.uninit⟩
          ⟨p0.rows + st.lower_y - st.upper_y, p0.cols + st.right_x - st.left_x, m0.channels,
            V2.uninit⟩ rfl rfl rfl (ps.length + 1) with
          ⟨f, e1, e2⟩ | ⟨t1, t2, e1, e2, _, _, hr, hc, hch, hpx⟩
        · rw [e1, e2]
          exact Or.inl ⟨f, rfl, rfl⟩
        · rw [e1, e2]
          simp only [Mat.roi, Mat.validRange, hr, hc]
          split_ifs with hv
          · refine Or.inr ⟨_, _, p0, ps, rfl, rfl, rfl, rfl, rfl, hch, ?_⟩
            intro y x hpa
            have := hpx _ _ hpa
            simpa using this
          · exact Or.inl ⟨_, rfl, rfl⟩

theorem sum_take_nonneg (xs : List ℤ) (h : ∀ v ∈ xs, 0 ≤ v) (k : ℕ) : 0 ≤ (xs.take k).sum :=
  List.sum_nonneg (fun v hv => h v (List.mem_of_mem_take hv))

theorem sum_take_le_sum (xs : List ℤ) (h : ∀ v ∈ xs, 0 ≤ v) (k : ℕ) :
    (xs.take k).sum ≤ xs.sum := by
  have h1 := List.sum_take_add_sum_drop xs k
  have h2 : 0 ≤ (xs.drop k).sum :=
    List.sum_nonneg (fun v hv => h v (List.mem_of_mem_drop hv))
  omega

/-- With shifts between `0` and the width, the pasted blocks of the images `0 .. j` cover the
columns from `0` to the right edge of image `j`. -/
theorem pasted_columns (W : ℤ) (xs : List ℤ) (hxs : ∀ v ∈ xs, 0 ≤ v ∧ v ≤ W)
    (hW : W < 2 ^ 31) (j : ℕ) (hj : j ≤ xs.length) (x : ℤ) (hx0 : 0 ≤ x)
    (hx1 : x < (xs.take j).sum + W) :
    ∃ i, i ≤ j ∧ (xs.take i).sum + (seamAt W i (xs.getD (i - 1) 0)).curr_piece_left ≤ x ∧
      x < (xs.take i).sum + W := by
  induction j with
  | zero =>
    refine ⟨0, le_rfl, ?_, hx1⟩
    simpa [seamAt] using hx0
  | succ j ih =>
    have hjl : j < xs.length := by omega
    obtain ⟨s0, s1⟩ := hxs xs[j] (List.getElem_mem _)
    have hg : xs.getD (j + 1 - 1) 0 = xs[j] := by
      simp [List.getD_eq_getElem?_getD, List.getElem?_eq_getElem hjl]
    obtain ⟨hcp, _⟩ := seamAt_pos W (j + 1) xs[j] (by omega) (by omega) (by omega)
    by_cases hcase : (xs.take (j + 1)).sum +
        (seamAt W (j + 1) (xs.getD (j + 1 - 1) 0)).curr_piece_left ≤ x
    · exact ⟨j + 1, le_rfl, hcase, hx1⟩
    · rw [hg, hcp, List.sum_take_succ xs j hjl] at hcase
      obtain ⟨i, hi, h1, h2⟩ := ih (by omega) (by omega)
      exact ⟨i, by omega, h1, h2⟩

/-- With shifts between `0` and the width, every element of the panorama comes from a canvas
element to which one of the images was pasted. -/
theorem pasted_of_canonical (st : PanoramicImage) (W H : ℤ) (shifts : List (ℤ × ℤ))
    (hx : st.shift_x = shifts.map Prod.fst) (hy : st.shift_y = shifts.map Prod.snd)
    (hl : st.left_x = (accumulate shifts).left_x) (hr : st.right_x = (accumulate shifts).right_x)
    (hu : st.upper_y = (accumulate shifts).upper_y)
    (hd : st.lower_y = (accumulate shifts).lower_y)
    (hs : ∀ s ∈ shifts, 0 ≤ s.1 ∧ s.1 ≤ W) (hW : W < 2 ^ 31) (y x : ℤ)
    (hy0 : 0 ≤ y) (hy1 : y < H - (st.lower_y - st.upper_y))
    (hx0 : 0 ≤ x) (hx1 : x < W + st.right_x - st.left_x) :
    pasted st W H (shifts.length + 1) (shifts.length + 1) (y + (st.lower_y - st.upper_y)) x := by
  obtain ⟨_, _, al, ar, au, ad⟩ := accumulate_spec shifts
  rw [← hx, ← hl] at al
  rw [← hx, ← hr] at ar
  rw [← hy, ← hu] at au
  rw [← hy, ← hd] at ad
  have hxs : ∀ v ∈ st.shift_x, 0 ≤ v ∧ v ≤ W := by
    intro v hv
    rw [hx, List.mem_map] at hv
    obtain ⟨s, hsm, rfl⟩ := hv
    exact hs s hsm
  have hnn : ∀ v ∈ st.shift_x, 0 ≤ v := fun v hv => (hxs v hv).1
  have hlx : st.shift_x.length = shifts.length := by rw [hx, List.length_map]
  have hly : st.shift_y.length = shifts.length := by rw [hy, List.length_map]
  have hleft : st.left_x = 0 := by
    obtain ⟨k, _, hk⟩ := al.1
    have h1 := sum_take_nonneg st.shift_x hnn k
    have h2 := al.2 (zero_mem_prefixSums _)
    omega
  have hright : st.right_x = st.shift_x.sum := by
    obtain ⟨k, _, hk⟩ := ar.1
    have h1 := sum_take_le_sum st.shift_x hnn k
    have h2 := ar.2 (take_sum_mem_prefixSums st.shift_x st.shift_x.length le_rfl)
    rw [List.take_length] at h2
    omega
  obtain ⟨i, hi, c1, c2⟩ := pasted_columns W st.shift_x hxs hW st.shift_x.length le_rfl x hx0
    (by rw [List.take_length]; omega)
  have hiN : i < shifts.length + 1 := by omega
  have hpl := placement_eq st.left_x st.upper_y st.shift_x st.shift_y (shifts.length + 1) i
    (by omega) (by omega) hiN
  have hY := take_sum_mem_prefixSums st.shift_y i (by omega)
  have h3 := au.2 hY
  have h4 := ad.2 hY
  refine ⟨i, hiN, ?_, ?_, ?_, ?_⟩ <;> rw [hpl] <;> simp only <;> omega

/-- With shifts between `0` and the width, the composite does not depend on the content of
the fresh canvas: two computations stop alike or return the same image. -/
theorem composite_fresh_memory (V1 V2 : Vision) (hV : V1.addWeighted = V2.addWeighted)
    (st : PanoramicImage) (mats : List Mat) (shifts : List (ℤ × ℤ))
    (hx : st.shift_x = shifts.map Prod.fst) (hy : st.shift_y = shifts.map Prod.snd)
    (hl : st.left_x = (accumulate shifts).left_x) (hr : st.right_x = (accumulate shifts).right_x)
    (hu : st.upper_y = (accumulate shifts).upper_y)
    (hd : st.lower_y = (accumulate shifts).lower_y)
    (hN : st.projected_images.length = shifts.length + 1)
    (hs : ∀ p ∈ st.projected_images.head?,
      p.cols < 2 ^ 31 ∧ ∀ s ∈ shifts, 0 ≤ s.1 ∧ s.1 ≤ p.cols) :
    sameResult (composite V1 st mats) (composite V2 st mats) := by
  rcases composite_agree V1 V2 hV st mats with
    ⟨f, e1, e2⟩ | ⟨a, b, p0, ps, hp, e1, e2, gr, gc, gch, gpx⟩
  · rw [e1, e2]
    exact rfl
  · rw [e1, e2]
    obtain ⟨_, k1, k2⟩ := composite_size V1 st mats p0 ps a hp e1
    obtain ⟨hW, hs'⟩ := hs p0 (by rw [hp]; rfl)
    have hps : ps.length = shifts.length := by
      rw [hp] at hN
      simpa using hN
    refine ⟨gr, gc, gch, ?_⟩
    intro y x hy0 hy1 hx0 hx1
    apply gpx
    rw [hps]
    exact pasted_of_canonical st p0.cols p0.rows shifts hx hy hl hr hu hd hs' hW y x hy0
      (by omega) hx0 (by omega)

theorem sameImage_refl (a : Mat) : a.sameImage a :=
  ⟨rfl, rfl, rfl, fun _ _ _ _ _ _ => rfl⟩

theorem sameImage_symm (a b : Mat) (h : a.sameImage b) : b.sameImage a := by
  obtain ⟨h1, h2, h3, h4⟩ := h
  exact ⟨h1.symm, h2.symm, h3.symm,
    fun y x a1 a2 a3 a4 => (h4 y x a1 (by omega) a3 (by omega)).symm⟩

theorem sameImage_trans (a b c : Mat) (h : a.sameImage b) (k : b.sameImage c) :
    a.sameImage c := by
  obtain ⟨h1, h2, h3, h4⟩ := h
  obtain ⟨k1, k2, k3, k4⟩ := k
  exact ⟨h1.trans k1, h2.trans k2, h3.trans k3,
    fun y x a1 a2 a3 a4 => (h4 y x a1 a2 a3 a4).trans (k4 y x a1 (by omega) a3 (by omega))⟩

theorem sameResult_refl (a : Except Fault Mat) : sameResult a a := by
  cases a with
  | error f => exact rfl
  | ok x => exact sameImage_refl x

theorem sameResult_of_eq (a b : Except Fault Mat) (h : a = b) : sameResult a b := by
  rw [h]; exact sameResult_refl b

theorem sameResult_symm (a b : Except Fault Mat) (h : sameResult a b) : sameResult b a := by
  cases a <;> cases b <;> simp only [sameResult] at h ⊢
  · exact h.symm
  · exact sameImage_symm _ _ h

theorem sameResult_trans (a b c : Except Fault Mat) (h : sameResult a b)
    (k : sameResult b c) : sameResult a c := by
  cases a <;> cases b <;> cases c <;> simp only [sameResult] at h k ⊢
  · exact h.trans k
  · exact sameImage_trans _ _ _ h k

theorem prepareShifts_withUninit (V : Vision) (u : ℤ → ℤ → ℕ → ℕ) (st : PanoramicImage)
    (draw : Bool) : prepareShifts (V.withUninit u) st draw = prepareShifts V st draw := rfl

theorem ensureShifts_withUninit (V : Vision) (u : ℤ → ℤ → ℕ → ℕ) (st : PanoramicImage)
    (draw sd : Bool) : ensureShifts (V.withUninit u) st draw sd = ensureShifts V st draw sd :=
  rfl

theorem prepareMaterial_withUninit (V : Vision) (u : ℤ → ℤ → ℕ → ℕ) (st : PanoramicImage)
    (g e : Bool) : prepareMaterial (V.withUninit u) st g e = prepareMaterial V st g e := rfl

theorem matchShifts_withUninit (V : Vision) (u : ℤ → ℤ → ℕ → ℕ) (dr : ℚ) (G : List Mat)
    (N : ℕ) : matchShifts (V.withUninit u) dr G N = matchShifts V dr G N := rfl

/-- A call of `get` with another content of fresh memory ends like the call itself, when
the composite it computes does. -/
theorem get_withUninit (V : Vision) (u : ℤ → ℤ → ℕ → ℕ) (st : PanoramicImage)
    (g e d : Bool)
    (hcomp : ∀ st1 st2, ensureShifts V st d (d && st.match_images.isEmpty) = .ok st1 →
      prepareMaterial V st1 g e = .ok st2 →
      sameResult (composite (V.withUninit u) st2 (material st2 g e))
        (composite V st2 (material st2 g e))) :
    sameResult ((get (V.withUninit u) st g e d).map Prod.snd)
      ((get V st g e d).map Prod.snd) := by
  by_cases hc : (st.results g e).empty = false ∧ (d && st.match_images.isEmpty) = false
  · rw [get_cached (V.withUninit u) st g e d hc.1 hc.2, get_cached V st g e d hc.1 hc.2]
    exact sameResult_refl _
  · have hc' : (st.results g e).empty = true ∨ (d && st.match_images.isEmpty) = true := by
      by_contra hn
      push_neg at hn
      exact hc ⟨by simpa using hn.1, by simpa using hn.2⟩
    rw [get_compute (V.withUninit u) st g e d hc', get_compute V st g e d hc',
      ensureShifts_withUninit]
    cases h1 : ensureShifts V st d (d && st.match_images.isEmpty) with
    | error f => exact sameResult_refl _
    | ok st1 =>
      rw [ok_bind, ok_bind, prepareMaterial_withUninit]
      cases h2 : prepareMaterial V st1 g e with
      | error f => exact sameResult_refl _
      | ok st2 =>
        rw [ok_bind, ok_bind, makePanoramic_snd, makePanoramic_snd]
        exact hcomp st1 st2 h1 h2

/-- The shifts of a facade with canonical shifts, as the source images determine them. -/
theorem canonical_of_inv (V : Vision) (images : List Mat) (hf dr : ℚ) (st : PanoramicImage)
    (hI : Fresh images hf dr st ∨ Computed V images hf dr st) (hcan : canonicalShifts V st)
    (d : ShiftData)
    (hm : matchShifts V dr (grayOf V images hf) (projOf V images hf).length = .ok d) :
    ∀ p ∈ (projOf V images hf).head?,
      p.cols < 2 ^ 31 ∧ ∀ s ∈ d.shifts, 0 ≤ s.1 ∧ s.1 ≤ p.cols := by
  have key : ∃ s, prepareShifts V st false = .ok s ∧ s.shift_x = d.shifts.map Prod.fst ∧
      s.projected_images = projOf V images hf := by
    rcases hI with hF | hC
    · obtain ⟨f1, f2, f3, f4, f5, f6, f7, f8⟩ := hF
      have he : st.projected_images.isEmpty = true := by rw [f4]; rfl
      have hpg : (projectImages V st).projected_gray = grayOf V images hf := by
        simp [projectImages, projOf, grayOf, f1, f2]
      have hpp : (projectImages V st).projected_images = projOf V images hf := by
        simp [projectImages, projOf, f1, f2]
      refine ⟨storeShifts V (projectImages V st) d false, ?_, by simp [storeShifts],
        by simp [storeShifts, hpp]⟩
      rw [prepareShifts_eq, he, if_pos rfl, hpg, hpp, f3, hm]
      rfl
    · obtain ⟨s, hs, hcore⟩ := prepareShifts_computed V images hf dr st hC false
      obtain ⟨_, _, h3, _, _, _, _, _, _, h10, _⟩ := core_fields s st hcore
      obtain ⟨c1, c2, c3, c4, c5, ⟨d', e0, e1, _⟩, _⟩ := hC
      rw [hm] at e0
      simp only [Except.ok.injEq] at e0
      subst e0
      exact ⟨s, hs, h3.trans e1, h10.trans c4⟩
  obtain ⟨s, hs, hsx, hsp⟩ := key
  intro p hp
  obtain ⟨k1, k2⟩ := hcan s hs p (by rw [hsp]; exact hp)
  refine ⟨k1, fun sh hsh => k2 sh.1 ?_⟩
  rw [hsx]
  exact List.mem_map_of_mem _ hsh

theorem composite_computed_fresh_memory (V : Vision) (images : List Mat) (hf dr : ℚ)
    (st : PanoramicImage) (hC : Computed V images hf dr st)
    (hcan : ∀ d, matchShifts V dr (grayOf V images hf) (projOf V images hf).length = .ok d →
      ∀ p ∈ (projOf V images hf).head?,
        p.cols < 2 ^ 31 ∧ ∀ s ∈ d.shifts, 0 ≤ s.1 ∧ s.1 ≤ p.cols)
    (u : ℤ → ℤ → ℕ → ℕ) (mats : List Mat) :
    sameResult (composite (V.withUninit u) st mats) (composite V st mats) := by
  obtain ⟨c1, c2, c3, c4, c5, ⟨d, e0, e1, e2, e3, e4, e5, e6⟩, _⟩ := hC
  apply composite_fresh_memory (V.withUninit u) V rfl st mats d.shifts e1 e2 e3 e4 e5 e6
  · rw [c4, matchShifts_length _ _ _ _ d e0]
    have := matchShifts_pos _ _ _ _ d e0
    omega
  · rw [c4]
    exact hcan d e0

/-- On a facade with canonical shifts, `get` with any content of fresh memory ends like the
panorama that the source images determine. -/
theorem get_fresh_memory (V : Vision) (images : List Mat) (hf dr : ℚ) (st : PanoramicImage)
    (hI : Fresh images hf dr st ∨ Computed V images hf dr st) (hcan : canonicalShifts V st)
    (u : ℤ → ℤ → ℕ → ℕ) (g e d : Bool) :
    sameResult ((get (V.withUninit u) st g e d).map Prod.snd)
      (canonImage V images hf dr g e) := by
  rw [← get_canon V images hf dr st hI g e d]
  apply get_withUninit
  intro st1 st2 h1 h2
  have hC1 := ensureShifts_inv V images hf dr st st1 hI _ _ h1
  obtain ⟨st2', k1, k2, _⟩ := prepareMaterial_computed V images hf dr st1 hC1 g e
  rw [k1] at h2
  simp only [Except.ok.injEq] at h2
  subst h2
  exact composite_computed_fresh_memory V images hf dr st2' k2
    (fun d hm => canonical_of_inv V images hf dr st hI hcan d hm) u _

theorem canonImage_fresh_memory (V : Vision) (images : List Mat) (hf dr : ℚ)
    (st : PanoramicImage) (hF : Fresh images hf dr st) (hcan : canonicalShifts V st)
    (u : ℤ → ℤ → ℕ → ℕ) (g e : Bool) :
    sameResult (canonImage (V.withUninit u) images hf dr g e)
      (canonImage V images hf dr g e) := by
  rw [← get_canon (V.withUninit u) images hf dr st (Or.inl hF) g e false]
  exact get_fresh_memory V images hf dr st (Or.inl hF) hcan u g e false

/-! ## Columns that no image is written to -/

theorem stitchStep_eq (V : Vision) (st : PanoramicImage) (mats : List Mat) (W H : ℤ)
    (ch N : ℕ) (s : Stitch) (i : ℕ) (mat : Mat) (prev : ℤ)
    (hm : getAt mats i = .ok mat) (hp : prevShift st.shift_x i = .ok prev)
    (hb : blendInBounds mat s.canvas (seamAt W i prev) H s.curr_x s.curr_y = true)
    (hv1 : mat.validRange 0 H (seamAt W i prev).curr_piece_left W = true)
    (hv2 : s.canvas.validRange s.curr_y (s.curr_y + H)
      (s.curr_x + (seamAt W i prev).curr_piece_left) (s.curr_x + W) = true)
    (hidx : ¬ (i + 1 < N ∧ (st.shift_x.length ≤ i ∨ st.shift_y.length ≤ i))) :
    stitchStep V st mats W H ch N s i =
      .ok ⟨stitchCanvas V ch mat (seamAt W i prev) W H s.curr_x s.curr_y s.canvas,
        (advance st.shift_x st.shift_y N i (s.curr_x, s.curr_y)).1,
        (advance st.shift_x st.shift_y N i (s.curr_x, s.curr_y)).2⟩ := by
  simp only [stitchStep, hm, hp, bind, Except.bind, hb, hv1, hv2, Bool.not_true,
    Bool.false_eq_true, if_false, if_neg hidx]

/-- A canvas element to the left of the seam and of the pasted block keeps its value. -/
theorem stitchCanvas_px_left (V : Vision) (ch : ℕ) (mat : Mat) (sm : Seam)
    (W H cx cy : ℤ) (a : Mat) (y x : ℤ) (h1 : x < cx + sm.smooth_start)
    (h2 : x < cx + sm.curr_piece_left) :
    (stitchCanvas V ch mat sm W H cx cy a).px y x = a.px y x := by
  simp only [stitchCanvas, paste]
  rw [if_neg (by omega)]
  exact blendSeam_frame V ch mat sm H cx cy a y x (Or.inl h1)

theorem seamAt_leftward :
    (seamAt 100 1 (-10)).curr_piece_left = 66 ∧ (seamAt 100 1 (-10)).smooth_start = 44 ∧
    (seamAt 100 1 (-10)).smooth_end = 66 := by
  obtain ⟨h1, _, _, h4, h5⟩ := seamAt_pos 100 1 (-10) (by norm_num) (by norm_num)
    (by norm_num)
  exact ⟨by rw [h1]; decide, by rw [h4]; decide, by rw [h5]; decide⟩

/-- Two images of 100 columns with the second 10 columns to the left of the first: the
canvas has 110 columns, the first image is written to the columns `10 .. 109` and the second
to the columns `44 .. 99`, so the columns `0 .. 9` of the panorama hold what the fresh canvas
held. -/
theorem composite_leftward (V : Vision) (st : PanoramicImage) (p1 m0 m1 : Mat)
    (hp : st.projected_images = [sampleImage, p1])
    (hx : st.shift_x = [-10]) (hy : st.shift_y = [0])
    (hl : st.left_x = -10) (hr : st.right_x = 0) (hu : st.upper_y = 0) (hd : st.lower_y = 0)
    (h0r : 40 ≤ m0.rows) (h0c : 100 ≤ m0.cols) (h1r : 40 ≤ m1.rows) (h1c : 100 ≤ m1.cols) :
    ∃ img, composite V st [m0, m1] = .ok img ∧ img.rows = 40 ∧ img.cols = 110 ∧
      img.px 0 0 = V.uninit 0 0 := by
  obtain ⟨z1, z2, z3⟩ := seamAt_zero 100 0
  obtain ⟨w1, w2, w3⟩ := seamAt_leftward
  have hr2 : List.range 2 = [0, 1] := rfl
  have hw : sampleImage.cols = 100 := rfl
  have hh : sampleImage.rows = 40 := rfl
  have hp0 : prevShift st.shift_x 0 = .ok 0 := by simp [prevShift]
  have hp1 : prevShift st.shift_x 1 = .ok (-10) := by simp [prevShift, hx, getAt]
  have hal : allocCanvas V st 100 40 m0.channels = .ok ⟨40, 110, m0.channels, V.uninit⟩ := by
    simp [allocCanvas, hl, hr, hu, hd]
  have hs1 := stitchStep_eq V st [m0, m1] 100 40 m0.channels 2
    ⟨⟨40, 110, m0.channels, V.uninit⟩, 10, 0⟩ 0 m0 0 rfl hp0
    (by simp only [blendInBounds, decide_eq_true_eq, z2, z3]; right; left; exact le_refl _)
    (by simp only [Mat.validRange, decide_eq_true_eq, z1]; omega)
    (by simp only [Mat.validRange, decide_eq_true_eq, z1]; omega)
    (by simp [hx, hy])
  have ha1 : advance st.shift_x st.shift_y 2 0 (10, 0) = (0, 0) := by
    simp [advance, hx, hy]
  simp only [ha1] at hs1
  obtain ⟨q1, q2, _⟩ := stitchCanvas_size V m0.channels m0 (seamAt 100 0 0) 100 40 10 0
    ⟨40, 110, m0.channels, V.uninit⟩
  simp only at q1 q2
  have hs2 := stitchStep_eq V st [m0, m1] 100 40 m0.channels 2
    ⟨stitchCanvas V m0.channels m0 (seamAt 100 0 0) 100 40 10 0
      ⟨40, 110, m0.channels, V.uninit⟩, 0, 0⟩ 1 m1 (-10) rfl hp1
    (by simp only [blendInBounds, decide_eq_true_eq, w2, w3, q1, q2]; right; right; omega)
    (by simp only [Mat.validRange, decide_eq_true_eq, w1]; omega)
    (by simp only [Mat.validRange, decide_eq_true_eq, w1, q1, q2]; omega)
    (by simp)
  have ha2 : advance st.shift_x st.shift_y 2 1 (0, 0) = (0, 0) := by
    simp [advance]
  simp only [ha2] at hs2
  obtain ⟨r1, r2, _⟩ := stitchCanvas_size V m0.channels m1 (seamAt 100 1 (-10)) 100 40 0 0
    (stitchCanvas V m0.channels m0 (seamAt 100 0 0) 100 40 10 0
      ⟨40, 110, m0.channels, V.uninit⟩)
  rw [q1] at r1
  rw [q2] at r2
  have hv : (stitchCanvas V m0.channels m1 (seamAt 100 1 (-10)) 100 40 0 0
      (stitchCanvas V m0.channels m0 (seamAt 100 0 0) 100 40 10 0
        ⟨40, 110, m0.channels, V.uninit⟩)).validRange 0 40 0 110 = true := by
    simp only [Mat.validRange, decide_eq_true_eq, r1, r2]
    omega
  have hcomp : composite V st [m0, m1] =
      (stitchCanvas V m0.channels m1 (seamAt 100 1 (-10)) 100 40 0 0
        (stitchCanvas V m0.channels m0 (seamAt 100 0 0) 100 40 10 0
          ⟨40, 110, m0.channels, V.uninit⟩)).roi 0 40 0 110 := by
    simp only [composite, hp, getAt, List.getElem?_cons_zero, bind, Except.bind, hw, hh, hal,
      List.length_cons, List.length_nil, Nat.reduceAdd, hr2, List.foldlM_cons,
      List.foldlM_nil, pure, Except.pure, hl, hu, hr, hd, neg_neg, neg_zero]
    rw [hs1]
    simp only
    rw [hs2]
    simp
  rw [hcomp]
  simp only [Mat.roi, hv, if_true]
  refine ⟨_, rfl, by norm_num, by norm_num, ?_⟩
  simp only [zero_add]
  rw [stitchCanvas_px_left V _ _ _ _ _ _ _ _ 0 0 (by rw [w2]; norm_num) (by rw [w1]; norm_num),
    stitchCanvas_px_left V _ _ _ _ _ _ _ _ 0 0 (by rw [z2]; norm_num) (by rw [z1]; norm_num)]

theorem pairShift_leftward (u : ℤ → ℤ → ℕ → ℕ) :
    pairShift (Vision.leftward.withUninit u) [⟨0, 0⟩, ⟨10, 0⟩] [⟨0, 0⟩, ⟨10, 0⟩] [⟨0, 1, 0⟩] =
      .ok ⟨-10, 0, [⟨0, 1, 0⟩]⟩ := by
  have e0 : rnd64 0 = 0 := fpRound_zero _ _
  have e0f : rnd32 0 = 0 := fpRound_zero _ _
  have e1 : rnd32 (-10) = -10 := rnd32_of_int (-10) _ (by norm_num) (by decide)
  have e2 : rnd64 (-10) = -10 := rnd64_of_int (-10) _ (by norm_num) (by decide)
  have e3 : roundHalfAway (-10 : ℚ) = -10 := roundHalfAway_of_int (-10) _ (by norm_num)
  have e4 : roundHalfAway (0 : ℚ) = 0 := roundHalfAway_of_int 0 _ (by norm_num)
  simp only [pairShift, Vision.withUninit, Vision.leftward, Vision.sample, List.mapM_cons,
    List.mapM_nil, bind, Except.bind, pure, Except.pure, getAtInt, getAt]
  simp [List.enum, List.enumFrom, maskStep, getAt, bind, Except.bind, pure, Except.pure,
    e0, e0f, e1, e2, e3, e4]

theorem matchShifts_leftward (u : ℤ → ℤ → ℕ → ℕ) (g0 g1 : Mat) :
    matchShifts (Vision.leftward.withUninit u) 3 [g0, g1] 2 =
      .ok ⟨[(-10, 0)], [[⟨0, 0⟩, ⟨10, 0⟩], [⟨0, 0⟩, ⟨10, 0⟩]], [[⟨0, 1, 0⟩]]⟩ := by
  rw [matchShifts_two]
  have hd : distanceFilter 3 ((Vision.leftward.withUninit u).bfMatch
      ((Vision.leftward.withUninit u).detectAndCompute g0).2
      ((Vision.leftward.withUninit u).detectAndCompute g1).2) =
      .ok [⟨0, 1, 0⟩] := distanceFilter_sample
  rw [hd, ok_bind]
  have hk0 : ((Vision.leftward.withUninit u).detectAndCompute g0).1 = [⟨0, 0⟩, ⟨10, 0⟩] := rfl
  have hk1 : ((Vision.leftward.withUninit u).detectAndCompute g1).1 = [⟨0, 0⟩, ⟨10, 0⟩] := rfl
  rw [hk0, hk1, pairShift_leftward]
  rfl

theorem accumulate_leftward : accumulate [(-10, 0)] = ⟨-10, 0, -10, 0, 0, 0⟩ := by decide

/-- The fields of a facade of the sample image and a second image whose shifts the library
`Vision.leftward` computed. -/
theorem computed_leftward (u : ℤ → ℤ → ℕ → ℕ) (b : Mat) (st : PanoramicImage)
    (hC : Computed (Vision.leftward.withUninit u) [sampleImage, b] (1 / 2) 3 st) :
    st.projected_images = [sampleImage, b] ∧
    st.projected_gray = [{ sampleImage with channels := 1 }, { b with channels := 1 }] ∧
    st.shift_x = [-10] ∧ st.shift_y = [0] ∧ st.left_x = -10 ∧ st.right_x = 0 ∧
    st.upper_y = 0 ∧ st.lower_y = 0 := by
  have hp : projOf (Vision.leftward.withUninit u) [sampleImage, b] (1 / 2) =
      [sampleImage, b] := rfl
  have hg : grayOf (Vision.leftward.withUninit u) [sampleImage, b] (1 / 2) =
      [{ sampleImage with channels := 1 }, { b with channels := 1 }] := rfl
  obtain ⟨c1, c2, c3, c4, c5, ⟨d, e0, e1, e2, e3, e4, e5, e6⟩, _⟩ := hC
  rw [hg, hp] at e0
  simp only [List.length_cons, List.length_nil, Nat.reduceAdd] at e0
  rw [matchShifts_leftward] at e0
  simp only [Except.ok.injEq] at e0
  subst e0
  simp only [accumulate_leftward] at e3 e4 e5 e6
  exact ⟨c4.trans hp, c5.trans hg, e1, e2, e3, e4, e5, e6⟩

/-- On a facade of two images of 100 columns whose second image lies 10 columns to the left
of the first, a computation of the grayscale panorama returns an image of 110 columns whose
pixel `(0, 0)` is the content of the fresh canvas. -/
theorem tail_leftward (u w : ℤ → ℤ → ℕ → ℕ) (b : Mat) (st : PanoramicImage)
    (hbr : 40 ≤ b.rows) (hbc : 100 ≤ b.cols)
    (hC : Computed (Vision.leftward.withUninit u) [sampleImage, b] (1 / 2) 3 st) :
    ∃ r, (prepareMaterial (Vision.leftward.withUninit w) st true false).bind
        (fun s => makePanoramic (Vision.leftward.withUninit w) s (material s true false)
          true false) = .ok r ∧
      r.2.rows = 40 ∧ r.2.cols = 110 ∧ r.2.px 0 0 = w 0 0 := by
  obtain ⟨h1, h2, h3, h4, h5, h6, h7, h8⟩ := computed_leftward u b st hC
  have hm : prepareMaterial (Vision.leftward.withUninit w) st true false = .ok st := by
    simp [prepareMaterial]
  have hmat : material st true false =
      [{ sampleImage with channels := 1 }, { b with channels := 1 }] := by
    simp [material, h2]
  obtain ⟨img, hc, k1, k2, k3⟩ := composite_leftward (Vision.leftward.withUninit w) st b
    { sampleImage with channels := 1 } { b with channels := 1 } h1 h3 h4 h5 h6 h7 h8
    (by simp [sampleImage, Mat.const]) (by simp [sampleImage, Mat.const]) hbr hbc
  rw [hm, ok_bind, hmat]
  refine ⟨_, makePanoramic_of_composite _ _ _ true false img hc, k1, k2, k3⟩

theorem fresh_right (L : List Mat) (hf dr : ℚ) :
    Fresh L hf dr (PanoramicImage.new L hf dr RIGHT) := by
  have h := new_fresh L hf dr RIGHT
  rw [if_neg (by decide)] at h
  exact h

theorem get_leftward (u : ℤ → ℤ → ℕ → ℕ) (b : Mat) (draw : Bool)
    (hbr : 40 ≤ b.rows) (hbc : 100 ≤ b.cols) :
    ∃ r, get (Vision.leftward.withUninit u)
        (PanoramicImage.new [sampleImage, b] (1 / 2) 3 RIGHT) true false draw = .ok r ∧
      r.2.rows = 40 ∧ r.2.cols = 110 ∧ r.2.px 0 0 = u 0 0 ∧
      Computed (Vision.leftward.withUninit u) [sampleImage, b] (1 / 2) 3 r.1 := by
  have hes : ∃ a, ensureShifts (Vision.leftward.withUninit u)
      (PanoramicImage.new [sampleImage, b] (1 / 2) 3 RIGHT) draw
      (draw && (PanoramicImage.new [sampleImage, b] (1 / 2) 3 RIGHT).match_images.isEmpty) =
        .ok a := by
    have hx : (PanoramicImage.new [sampleImage, b] (1 / 2) 3 RIGHT).shift_x.isEmpty = true :=
      rfl
    have he : (PanoramicImage.new [sampleImage, b] (1 / 2) 3
        RIGHT).projected_images.isEmpty = true := rfl
    have hm : matchShifts (Vision.leftward.withUninit u)
        (PanoramicImage.new [sampleImage, b] (1 / 2) 3 RIGHT).dist_ratio
        (projectImages (Vision.leftward.withUninit u)
          (PanoramicImage.new [sampleImage, b] (1 / 2) 3 RIGHT)).projected_gray
        (projectImages (Vision.leftward.withUninit u)
          (PanoramicImage.new [sampleImage, b] (1 / 2) 3 RIGHT)).projected_images.length =
        matchShifts (Vision.leftward.withUninit u) 3
          [{ sampleImage with channels := 1 }, { b with channels := 1 }] 2 := by
      have hne : ¬ (RIGHT = LEFT) := by decide
      simp [projectImages, PanoramicImage.new, if_neg hne, Vision.withUninit,
        Vision.leftward, Vision.sample]
    simp only [ensureShifts, hx, Bool.true_or, if_true]
    rw [prepareShifts_eq, he, if_pos rfl, hm, matchShifts_leftward]
    exact ⟨_, rfl⟩
  obtain ⟨a, ha⟩ := hes
  have hCa := ensureShifts_inv _ _ _ _ _ a (Or.inl (fresh_right [sampleImage, b] (1 / 2) 3))
    _ _ ha
  obtain ⟨r, hr, k1, k2, k3⟩ := tail_leftward u u b a hbr hbc hCa
  have hg : get (Vision.leftward.withUninit u)
      (PanoramicImage.new [sampleImage, b] (1 / 2) 3 RIGHT) true false draw = .ok r := by
    rw [get_compute (Vision.leftward.withUninit u)
      (PanoramicImage.new [sampleImage, b] (1 / 2) 3 RIGHT) true false draw (Or.inl rfl),
      ha, ok_bind]
    exact hr
  exact ⟨r, hg, k1, k2, k3,
    get_inv _ _ _ _ _ (Or.inl (fresh_right [sampleImage, b] (1 / 2) 3)) _ _ _ r hg⟩

/-! ## Drawing does not change the panorama -/

theorem canonicalShifts_of_inv (V : Vision) (images : List Mat) (hf dr : ℚ)
    (st : PanoramicImage) (hI : Fresh images hf dr st ∨ Computed V images hf dr st)
    (hcan : ∀ d, matchShifts V dr (grayOf V images hf) (projOf V images hf).length = .ok d →
      ∀ p ∈ (projOf V images hf).head?,
        p.cols < 2 ^ 31 ∧ ∀ s ∈ d.shifts, 0 ≤ s.1 ∧ s.1 ≤ p.cols) :
    canonicalShifts V st := by
  intro s hs p hp
  have hCs : Computed V images hf dr s := by
    rcases hI with hF | hC
    · exact prepareShifts_fresh V images hf dr st s hF false hs
    · obtain ⟨s', h1, h2⟩ := prepareShifts_computed V images hf dr st hC false
      rw [h1] at hs
      simp only [Except.ok.injEq] at hs
      subst hs
      exact Computed_of_core V images hf dr st s' h2.symm hC
  obtain ⟨_, _, _, c4, _, ⟨d, e0, e1, _⟩, _⟩ := hCs
  rw [c4] at hp
  obtain ⟨k1, k2⟩ := hcan d e0 p hp
  refine ⟨k1, ?_⟩
  intro x hx
  rw [e1, List.mem_map] at hx
  obtain ⟨sh, hsh, rfl⟩ := hx
  exact k2 sh hsh

theorem matchShifts_sample_pair (g0 g1 : Mat) :
    matchShifts Vision.sample 3 [g0, g1] 2 =
      .ok ⟨[(5, 2)], [[⟨5, 2⟩, ⟨0, 0⟩], [⟨5, 2⟩, ⟨0, 0⟩]], [[⟨0, 1, 0⟩]]⟩ := by
  rw [matchShifts_two]
  have hd : distanceFilter 3 (Vision.sample.bfMatch (Vision.sample.detectAndCompute g0).2
      (Vision.sample.detectAndCompute g1).2) = .ok [⟨0, 1, 0⟩] := distanceFilter_sample
  rw [hd, ok_bind]
  have hk0 : (Vision.sample.detectAndCompute g0).1 = [⟨5, 2⟩, ⟨0, 0⟩] := rfl
  have hk1 : (Vision.sample.detectAndCompute g1).1 = [⟨5, 2⟩, ⟨0, 0⟩] := rfl
  rw [hk0, hk1, pairShift_sample]
  rfl

theorem canonical_sample (b : Mat) (st : PanoramicImage)
    (hI : Fresh [sampleImage, b] (1 / 2) 3 st ∨
      Computed Vision.sample [sampleImage, b] (1 / 2) 3 st) :
    canonicalShifts Vision.sample st := by
  apply canonicalShifts_of_inv Vision.sample [sampleImage, b] (1 / 2) 3 st hI
  intro d hm p hp
  have hg : grayOf Vision.sample [sampleImage, b] (1 / 2) =
      [{ sampleImage with channels := 1 }, { b with channels := 1 }] := rfl
  have hpj : projOf Vision.sample [sampleImage, b] (1 / 2) = [sampleImage, b] := rfl
  rw [hg, hpj] at hm
  simp only [List.length_cons, List.length_nil, Nat.reduceAdd] at hm
  rw [matchShifts_sample_pair] at hm
  simp only [Except.ok.injEq] at hm
  subst hm
  rw [hpj] at hp
  simp only [List.head?_cons, Option.mem_def, Option.some.injEq] at hp
  subst hp
  refine ⟨by simp [sampleImage, Mat.const], ?_⟩
  intro s hs
  simp only [List.mem_singleton] at hs
  subst hs
  simp [sampleImage, Mat.const]

/-- C9, the claim as stated fails. The second of two images of 100 columns lies 10 columns to
the left of the first (shift `-10`, margins `left_x = -10`, `right_x = 0`), so the canvas has
110 columns of which the columns `0 .. 9` are never written. The call
`get(true, false, false)` computes the panorama on a canvas whose fresh memory holds 0. On the
facade it leaves, `get(true, false, true)` computes the panorama again on a new canvas, whose
fresh memory holds 7: it returns an image with the value 7 at pixel `(0, 0)`, where the image
that `get(true, false, false)` returns there has the value 0. -/
theorem drawing_changes_unwritten_columns :
    (get Vision.leftward sampleFresh true false false).bind (fun r1 =>
      (get (Vision.leftward.withUninit (fun _ _ _ => 7)) r1.1 true false true).bind (fun r2 =>
        (get (Vision.leftward.withUninit (fun _ _ _ => 7)) r1.1 true false false).map
          (fun r3 => (shiftData r1.1, r2.2.cols, r2.2.px 0 0 0, r3.2.cols, r3.2.px 0 0 0)))) =
      .ok (([-10], [0], -10, 0, 0, 0), 110, 7, 110, 0) := by
  obtain ⟨r1, h1, a1, a2, a3, hC⟩ := get_leftward (fun _ _ _ => 0) sampleImage false
    (by simp [sampleImage, Mat.const]) (by simp [sampleImage, Mat.const])
  have h1' : get Vision.leftward sampleFresh true false false = .ok r1 := h1
  have hne : r1.2.empty = false := by simp [Mat.empty, a1, a2]
  have hst := get_stores _ _ _ _ r1 h1 hne
  have hmi : r1.1.match_images = [] := get_match_images _ _ _ _ r1 h1
  obtain ⟨f1, f2, f3, f4, f5, f6, f7, f8⟩ := computed_leftward _ sampleImage r1.1 hC
  have hg2 : get (Vision.leftward.withUninit (fun _ _ _ => 7)) r1.1 true false false =
      .ok (r1.1, r1.2) := by
    rw [get_cached _ r1.1 true false false (by rw [hst]; exact hne) (by simp), hst]
  obtain ⟨a, ha, hca⟩ := ensureShifts_computed _ _ _ _ r1.1 hC true
    (true && r1.1.match_images.isEmpty)
  have ha7 : ensureShifts (Vision.leftward.withUninit (fun _ _ _ => 7)) r1.1 true
      (true && r1.1.match_images.isEmpty) = .ok a := ha
  have hCa := Computed_of_core _ _ _ _ r1.1 a hca.symm hC
  obtain ⟨r2, hr2, b1, b2, b3⟩ := tail_leftward (fun _ _ _ => 0) (fun _ _ _ => 7) sampleImage a
    (by simp [sampleImage, Mat.const]) (by simp [sampleImage, Mat.const]) hCa
  have hg3 : get (Vision.leftward.withUninit (fun _ _ _ => 7)) r1.1 true false true =
      .ok r2 := by
    rw [get_compute _ r1.1 true false true (Or.inr (by simp [hmi])), ha7, ok_bind]
    exact hr2
  rw [h1', ok_bind, hg3, ok_bind, hg2]
  simp only [Except.map, shiftData, f3, f4, f5, f6, f7, f8, a2, a3, b2, b3]

/-- C9, amended. `prepareShifts` computes the same shifts and margins with and without a draw
destination. In every state that a facade reaches through `get` and `getAll` calls (also one
with cached shifts and a cached result) and in which every horizontal shift lies between `0`
and the image width, `get(g, e, true)` ends like `get(g, e, false)`, whatever the fresh
canvas of either call holds: both stop with the same fault, or both return images of the same
size and channel count with the same value in every pixel. -/
theorem drawing_keeps_composite (V : Vision) (images : List Mat) (half_fov dist_ratio : ℚ)
    (direction : ℤ) (calls : List Call) (st : PanoramicImage) (g e : Bool)
    (u1 u2 : ℤ → ℤ → ℕ → ℕ)
    (h : runCalls V (PanoramicImage.new images half_fov dist_ratio direction) calls = .ok st)
    (hs : canonicalShifts V st) :
    (prepareShifts V st true).map
        (fun s => (s.shift_x, s.shift_y, s.left_x, s.right_x, s.upper_y, s.lower_y)) =
      (prepareShifts V st false).map
        (fun s => (s.shift_x, s.shift_y, s.left_x, s.right_x, s.upper_y, s.lower_y)) ∧
    sameResult ((get (V.withUninit u1) st g e true).map Prod.snd)
      ((get (V.withUninit u2) st g e false).map Prod.snd) := by
  constructor
  · rw [prepareShifts_eq, prepareShifts_eq]
    cases matchShifts V st.dist_ratio
      (if st.projected_images.isEmpty then projectImages V st else st).projected_gray
      (if st.projected_images.isEmpty then projectImages V st else st).projected_images.length
      with
    | error f => rfl
    | ok d => simp [Except.map, storeShifts]
  · have hI := runCalls_inv V _ half_fov dist_ratio calls _ st
      (Or.inl (new_fresh images half_fov dist_ratio direction)) h
    exact sameResult_trans _ _ _
      (get_fresh_memory V _ half_fov dist_ratio st hI hs u1 g e true)
      (sameResult_symm _ _ (get_fresh_memory V _ half_fov dist_ratio st hI hs u2 g e false))

/-- Witness of C9: the facade of two images shifted by `(5, 2)` after the grayscale panorama
was computed without drawing (the shifts and the result are cached); the canvas of the call
with drawing holds 1 and a canvas of the call without drawing would hold 2. -/
theorem drawing_keeps_composite_witness :
    ∃ st, runCalls Vision.sample (PanoramicImage.new [sampleImage, sampleImage] (1 / 2) 3 RIGHT)
        [Call.get true false false] = .ok st ∧
      canonicalShifts Vision.sample st ∧
      sameResult
        ((get (Vision.sample.withUninit (fun _ _ _ => 1)) st true false true).map Prod.snd)
        ((get (Vision.sample.withUninit (fun _ _ _ => 2)) st true false false).map
          Prod.snd) := by
  obtain ⟨img, hr⟩ := runCalls_sample
  have hI := runCalls_inv Vision.sample _ (1 / 2) 3 [Call.get true false false] _ _
    (Or.inl (fresh_right _ _ _)) hr
  have hc := canonical_sample sampleImage _ hI
  exact ⟨_, hr, hc,
    (drawing_keeps_composite Vision.sample [sampleImage, sampleImage] (1 / 2) 3 RIGHT
      [Call.get true false false] _ true false (fun _ _ _ => 1) (fun _ _ _ => 2) hr hc).2⟩

/-! ## The order of `getAll` and the direction flag -/

/-- C11. In every state that a facade reaches through `get` and `getAll` calls, `getAll(draw)`
makes the calls `get(false, false, draw)`, `get(false, true, draw)`, `get(true, false, draw)`
and `get(true, true, draw)` one after the other, each on the facade that the call before
left, stops at the first of them that does not return, and otherwise returns exactly four
images in the order colour, colour-equalized, grayscale, grayscale-equalized: the images of
the four calls, the last two converted to three channels. When every horizontal shift lies
between `0` and the image width, each of the four is also the image that the same `get` call
returns on the facade `getAll` started from, whatever the fresh canvas of that call holds:
same size, same channel count and the same value in every pixel. -/
theorem getAll_order (V : Vision) (images : List Mat) (half_fov dist_ratio : ℚ)
    (direction : ℤ) (calls : List Call) (st : PanoramicImage) (draw : Bool)
    (h : runCalls V (PanoramicImage.new images half_fov dist_ratio direction) calls = .ok st) :
    (∀ r, getAll V st draw = .ok r → r.2.length = 4) ∧
    (getAll V st draw = (get V st false false draw).bind (fun r0 =>
      (get V r0.1 false true draw).bind (fun r1 =>
        (get V r1.1 true false draw).bind (fun r2 =>
          (get V r2.1 true true draw).bind (fun r3 =>
            .ok (r3.1, [r0.2, r1.2, V.cvtColorGRAY2BGR r2.2, V.cvtColorGRAY2BGR r3.2])))))) ∧
    (canonicalShifts V st → ∀ (u : ℤ → ℤ → ℕ → ℕ) r, getAll V st draw = .ok r →
      ∃ j0 j1 j2 j3, r.2 = [j0, j1, V.cvtColorGRAY2BGR j2, V.cvtColorGRAY2BGR j3] ∧
        sameResult (.ok j0) ((get (V.withUninit u) st false false draw).map Prod.snd) ∧
        sameResult (.ok j1) ((get (V.withUninit u) st false true draw).map Prod.snd) ∧
        sameResult (.ok j2) ((get (V.withUninit u) st true false draw).map Prod.snd) ∧
        sameResult (.ok j3) ((get (V.withUninit u) st true true draw).map Prod.snd)) := by
  have hI := runCalls_inv V _ half_fov dist_ratio calls _ st
    (Or.inl (new_fresh images half_fov dist_ratio direction)) h
  refine ⟨?_, rfl, ?_⟩
  · intro r hr
    obtain ⟨r0, r1, r2, r3, _, _, _, _, rfl⟩ := getAll_cases V st draw r hr
    rfl
  · intro hs u r hr
    obtain ⟨r0, r1, r2, r3, h0, h1, h2, h3, rfl⟩ := getAll_cases V st draw r hr
    have i0 := get_inv V _ half_fov dist_ratio st hI _ _ _ r0 h0
    have i1 := get_inv V _ half_fov dist_ratio _ (Or.inr i0) _ _ _ r1 h1
    have i2 := get_inv V _ half_fov dist_ratio _ (Or.inr i1) _ _ _ r2 h2
    have c0 := get_canon V _ half_fov dist_ratio st hI false false draw
    have c1 := get_canon V _ half_fov dist_ratio r0.1 (Or.inr i0) false true draw
    have c2 := get_canon V _ half_fov dist_ratio r1.1 (Or.inr i1) true false draw
    have c3 := get_canon V _ half_fov dist_ratio r2.1 (Or.inr i2) true true draw
    rw [map_snd_ok _ _ h0] at c0
    rw [map_snd_ok _ _ h1] at c1
    rw [map_snd_ok _ _ h2] at c2
    rw [map_snd_ok _ _ h3] at c3
    refine ⟨r0.2, r1.2, r2.2, r3.2, rfl, ?_, ?_, ?_, ?_⟩
    · rw [c0]
      exact sameResult_symm _ _ (get_fresh_memory V _ half_fov dist_ratio st hI hs u _ _ draw)
    · rw [c1]
      exact sameResult_symm _ _ (get_fresh_memory V _ half_fov dist_ratio st hI hs u _ _ draw)
    · rw [c2]
      exact sameResult_symm _ _ (get_fresh_memory V _ half_fov dist_ratio st hI hs u _ _ draw)
    · rw [c3]
      exact sameResult_symm _ _ (get_fresh_memory V _ half_fov dist_ratio st hI hs u _ _ draw)

/-- Witness of C11: `getAll(false)` on a fresh facade of two images shifted by `(5, 2)`
returns four images, those of the four `get` calls on the fresh facade with a canvas whose
fresh memory holds 1. -/
theorem getAll_order_witness :
    canonicalShifts Vision.sample
      (PanoramicImage.new [sampleImage, sampleImage] (1 / 2) 3 RIGHT) ∧
    ∃ r j0 j1 j2 j3,
      getAll Vision.sample (PanoramicImage.new [sampleImage, sampleImage] (1 / 2) 3 RIGHT)
        false = .ok r ∧
      r.2.length = 4 ∧
      r.2 = [j0, j1, Vision.sample.cvtColorGRAY2BGR j2, Vision.sample.cvtColorGRAY2BGR j3] ∧
      sameResult (.ok j0) ((get (Vision.sample.withUninit (fun _ _ _ => 1))
        (PanoramicImage.new [sampleImage, sampleImage] (1 / 2) 3 RIGHT)
        false false false).map Prod.snd) ∧
      sameResult (.ok j1) ((get (Vision.sample.withUninit (fun _ _ _ => 1))
        (PanoramicImage.new [sampleImage, sampleImage] (1 / 2) 3 RIGHT)
        false true false).map Prod.snd) ∧
      sameResult (.ok j2) ((get (Vision.sample.withUninit (fun _ _ _ => 1))
        (PanoramicImage.new [sampleImage, sampleImage] (1 / 2) 3 RIGHT)
        true false false).map Prod.snd) ∧
      sameResult (.ok j3) ((get (Vision.sample.withUninit (fun _ _ _ => 1))
        (PanoramicImage.new [sampleImage, sampleImage] (1 / 2) 3 RIGHT)
        true true false).map Prod.snd) := by
  have hF := fresh_right [sampleImage, sampleImage] (1 / 2) 3
  have hc := canonical_sample sampleImage _ (Or.inl hF)
  have T := getAll_order Vision.sample [sampleImage, sampleImage] (1 / 2) 3 RIGHT []
    (PanoramicImage.new [sampleImage, sampleImage] (1 / 2) 3 RIGHT) false rfl
  have hg := getAll_canon Vision.sample [sampleImage, sampleImage] (1 / 2) 3 _
    (Or.inl hF) false
  obtain ⟨i0, h0⟩ := canonImage_sample false false
  obtain ⟨i1, h1⟩ := canonImage_sample false true
  obtain ⟨i2, h2⟩ := canonImage_sample true false
  obtain ⟨i3, h3⟩ := canonImage_sample true true
  rw [h0, h1, h2, h3] at hg
  simp only [ok_bind] at hg
  cases hr : getAll Vision.sample
      (PanoramicImage.new [sampleImage, sampleImage] (1 / 2) 3 RIGHT) false with
  | error f => rw [hr] at hg; simp [Except.map] at hg
  | ok r =>
    obtain ⟨j0, j1, j2, j3, k, k0, k1, k2, k3⟩ := T.2.2 hc (fun _ _ _ => 1) r hr
    exact ⟨hc, r, j0, j1, j2, j3, rfl, T.1 r hr, k, k0, k1, k2, k3⟩

/-- C12, the claim as stated fails. The second of two images of 100 columns lies 10 columns
to the left of the first, so the columns `0 .. 9` of the panorama of 110 columns are never
written. The facade constructed with the reversed list and `LEFT` computes its panorama on a
canvas whose fresh memory holds 0, the facade constructed with the list itself and `RIGHT`
on a canvas whose fresh memory holds 7: the two grayscale panoramas differ at pixel
`(0, 0)`. -/
theorem facades_differ_in_unwritten_columns :
    (get Vision.leftward
        (PanoramicImage.new [sampleImage, otherImage].reverse (1 / 2) 3 LEFT)
        true false false).map (fun r => (r.2.cols, r.2.px 0 0 0)) = .ok (110, 0) ∧
    (get (Vision.leftward.withUninit (fun _ _ _ => 7))
        (PanoramicImage.new [sampleImage, otherImage] (1 / 2) 3 RIGHT)
        true false false).map (fun r => (r.2.cols, r.2.px 0 0 0)) = .ok (110, 7) := by
  have hA : PanoramicImage.new [sampleImage, otherImage].reverse (1 / 2) 3 LEFT =
      PanoramicImage.new [sampleImage, otherImage] (1 / 2) 3 RIGHT := by
    simp [PanoramicImage.new, LEFT, RIGHT]
  obtain ⟨r1, h1, _, a2, a3, _⟩ := get_leftward (fun _ _ _ => 0) otherImage false
    (by simp [otherImage, Mat.const]) (by simp [otherImage, Mat.const])
  obtain ⟨r2, h2, _, b2, b3, _⟩ := get_leftward (fun _ _ _ => 7) otherImage false
    (by simp [otherImage, Mat.const]) (by simp [otherImage, Mat.const])
  have h1' : get Vision.leftward (PanoramicImage.new [sampleImage, otherImage] (1 / 2) 3 RIGHT)
      true false false = .ok r1 := h1
  rw [hA, h1', h2]
  simp only [Except.map, a2, a3, b2, b3, and_self]

/-- C12, amended. Constructing the facade with the reversed list and `direction = LEFT`
stores the same image sequence as constructing it with the list itself and
`direction = RIGHT`: the two constructors set every field alike, and `prepareShifts` computes
the same shifts and margins on both facades. When every horizontal shift lies between `0` and
the image width, then after any calls on either facade every `get` ends alike on both,
whatever the fresh canvases of the two facades hold: both stop with the same fault, or both
return images of the same size and channel count with the same value in every pixel. -/
theorem direction_flag (V : Vision) (L : List Mat) (half_fov dist_ratio : ℚ) :
    (PanoramicImage.new L.reverse half_fov dist_ratio LEFT).original_images = L ∧
    (PanoramicImage.new L half_fov dist_ratio RIGHT).original_images = L ∧
    PanoramicImage.new L.reverse half_fov dist_ratio LEFT =
      PanoramicImage.new L half_fov dist_ratio RIGHT ∧
    (∀ draw, (prepareShifts V (PanoramicImage.new L.reverse half_fov dist_ratio LEFT) draw).map
        shiftData =
      (prepareShifts V (PanoramicImage.new L half_fov dist_ratio RIGHT) draw).map shiftData) ∧
    (canonicalShifts V (PanoramicImage.new L half_fov dist_ratio RIGHT) →
      ∀ (u1 u2 : ℤ → ℤ → ℕ → ℕ) (calls1 calls2 : List Call) (a b : PanoramicImage)
        (g e draw : Bool),
        runCalls (V.withUninit u1) (PanoramicImage.new L.reverse half_fov dist_ratio LEFT)
          calls1 = .ok a →
        runCalls (V.withUninit u2) (PanoramicImage.new L half_fov dist_ratio RIGHT)
          calls2 = .ok b →
        sameResult ((get (V.withUninit u1) a g e draw).map Prod.snd)
          ((get (V.withUninit u2) b g e draw).map Prod.snd)) := by
  have hne : ¬ (RIGHT = LEFT) := by decide
  have h : PanoramicImage.new L.reverse half_fov dist_ratio LEFT =
      PanoramicImage.new L half_fov dist_ratio RIGHT := by
    simp [PanoramicImage.new, if_neg hne]
  refine ⟨by simp [PanoramicImage.new], by simp [PanoramicImage.new, if_neg hne], h, ?_, ?_⟩
  · intro draw; rw [h]
  · intro hs u1 u2 calls1 calls2 a b g e draw ha hb
    rw [h] at ha
    have hF := fresh_right L half_fov dist_ratio
    have ia := runCalls_inv (V.withUninit u1) L half_fov dist_ratio calls1 _ a (Or.inl hF) ha
    have ib := runCalls_inv (V.withUninit u2) L half_fov dist_ratio calls2 _ b (Or.inl hF) hb
    rw [get_canon (V.withUninit u1) L half_fov dist_ratio a ia g e draw,
      get_canon (V.withUninit u2) L half_fov dist_ratio b ib g e draw]
    exact sameResult_trans _ _ _
      (canonImage_fresh_memory V L half_fov dist_ratio _ hF hs u1 g e)
      (sameResult_symm _ _ (canonImage_fresh_memory V L half_fov dist_ratio _ hF hs u2 g e))

theorem canonImage_sample_pair (u : ℤ → ℤ → ℕ → ℕ) :
    ∃ img, canonImage (Vision.sample.withUninit u) [sampleImage, otherImage] (1 / 2) 3
      true false = .ok img := by
  have hm : matchShifts (Vision.sample.withUninit u) 3
      (grayOf (Vision.sample.withUninit u) [sampleImage, otherImage] (1 / 2))
      (projOf (Vision.sample.withUninit u) [sampleImage, otherImage] (1 / 2)).length =
      .ok ⟨[(5, 2)], [[⟨5, 2⟩, ⟨0, 0⟩], [⟨5, 2⟩, ⟨0, 0⟩]], [[⟨0, 1, 0⟩]]⟩ :=
    matchShifts_sample_pair { sampleImage with channels := 1 } { otherImage with channels := 1 }
  unfold canonImage
  rw [hm, ok_bind]
  exact composite_returns (Vision.sample.withUninit u) _ _ sampleImage [otherImage] [(5, 2)]
    rfl rfl rfl rfl rfl rfl rfl rfl
    (by intro s hs; simp at hs; subst hs; simp [sampleImage, Mat.const])
    (by simp [canonMaterial, grayOf, projOf])
    (by
      intro m hm
      have hg : canonMaterial (Vision.sample.withUninit u) [sampleImage, otherImage] (1 / 2)
          true false = [{ sampleImage with channels := 1 }, { otherImage with channels := 1 }] :=
        rfl
      rw [hg] at hm
      simp only [List.mem_cons, List.mem_singleton, List.not_mem_nil, or_false] at hm
      rcases hm with rfl | rfl <;> simp [sampleImage, otherImage, Mat.const])
    (by simp [sampleImage, Mat.const]) (by simp [sampleImage, Mat.const])
    (by simp [sampleImage, Mat.const])
    (by simp [storeShifts, accumulate_sample, sampleImage, Mat.const])

/-- Witness of C12: the facades of the sample image and a second image, shifted by `(5, 2)`.
The first facade has computed the grayscale panorama, on a canvas whose fresh memory holds 1;
the second has computed nothing and its fresh memory holds 2. -/
theorem direction_flag_witness :
    canonicalShifts Vision.sample
      (PanoramicImage.new [sampleImage, otherImage] (1 / 2) 3 RIGHT) ∧
    ∃ a img,
      runCalls (Vision.sample.withUninit (fun _ _ _ => 1))
        (PanoramicImage.new [sampleImage, otherImage].reverse (1 / 2) 3 LEFT)
        [Call.get true false false] = .ok a ∧
      (get (Vision.sample.withUninit (fun _ _ _ => 2))
        (PanoramicImage.new [sampleImage, otherImage] (1 / 2) 3 RIGHT)
        true false true).map Prod.snd = .ok img ∧
      sameResult
        ((get (Vision.sample.withUninit (fun _ _ _ => 1)) a true false true).map Prod.snd)
        ((get (Vision.sample.withUninit (fun _ _ _ => 2))
          (PanoramicImage.new [sampleImage, otherImage] (1 / 2) 3 RIGHT)
          true false true).map Prod.snd) := by
  have hF := fresh_right [sampleImage, otherImage] (1 / 2) 3
  have hc := canonical_sample otherImage _ (Or.inl hF)
  have hA : PanoramicImage.new [sampleImage, otherImage].reverse (1 / 2) 3 LEFT =
      PanoramicImage.new [sampleImage, otherImage] (1 / 2) 3 RIGHT := by
    simp [PanoramicImage.new, LEFT, RIGHT]
  obtain ⟨i1, h1⟩ := canonImage_sample_pair (fun _ _ _ => 1)
  obtain ⟨i2, h2⟩ := canonImage_sample_pair (fun _ _ _ => 2)
  have g1 := get_canon (Vision.sample.withUninit (fun _ _ _ => 1)) _ (1 / 2) 3 _ (Or.inl hF)
    true false false
  have g2 := get_canon (Vision.sample.withUninit (fun _ _ _ => 2)) _ (1 / 2) 3 _ (Or.inl hF)
    true false true
  rw [h1] at g1
  rw [h2] at g2
  cases hg : get (Vision.sample.withUninit (fun _ _ _ => 1))
      (PanoramicImage.new [sampleImage, otherImage] (1 / 2) 3 RIGHT) true false false with
  | error f => rw [hg] at g1; simp [Except.map] at g1
  | ok r =>
    have hr : runCalls (Vision.sample.withUninit (fun _ _ _ => 1))
        (PanoramicImage.new [sampleImage, otherImage].reverse (1 / 2) 3 LEFT)
        [Call.get true false false] = .ok r.1 := by
      rw [hA]
      simp only [runCalls, runCall, hg, bind, Except.bind, Except.map]
    exact ⟨hc, r.1, i2, hr, g2,
      (direction_flag Vision.sample [sampleImage, otherImage] (1 / 2) 3).2.2.2.2 hc
        (fun _ _ _ => 1) (fun _ _ _ => 2) [Call.get true false false] [] r.1 _ true false true
        hr rfl⟩

end Panoramic
